import Mathlib

/-! # I2L interpreter: a shallow embedding of `i2l.c` / `i2l.h`

The C program keeps the whole machine in global variables.  Here they are the
fields of one record, `State`, and every C function becomes a function on
states.  `fatal_error` (which prints a diagnostic and leaves the process with
`exit(err)`, because `main` sets `error_longjmp = false`) becomes the result
`Res.fatal`, carrying the state at the moment of the fault.

Conventions.
* A `uint16_t` is a `Nat`, reduced `% 65536` wherever C converts to that type.
* A `uint8_t` memory cell is a `Fin 256`.
* An `int16_t` is an `Int` obtained with `toInt16`.
* Array subscripts are computed as C computes them (in `int`, so without
  wraparound unless the operand already has type `uint16_t`).  `mem` is total
  on `Nat`; subscripts `≥ MAX_MEM` lie outside the C array.  A store whose
  subscript can leave the array (`op_stx`, `op_arg`, `write16` at `0xFFFF`, a
  byte item of the loader) goes through `mem_assign` or `call_write16`, which
  have no defined behaviour outside the array: the compiled program overwrites
  the globals that follow `mem`, or is killed.  A load outside the array gives
  an unspecified byte, the one the total `mem` holds there.
* The trace sink (`tracef`) only observes the machine and is left out.
-/

namespace I2L

/-! ## Constants of `i2l.h` -/

abbrev MAX_LEVEL : Nat := 8
abbrev MAX_MEM : Nat := 0x10000
abbrev STACK_MIN : Nat := 0x0100
abbrev INITIAL_STACK : Nat := 0x01ff
abbrev CODE_START : Nat := 0x1700
abbrev INTRINSIC_OFFSET : Nat := 0x40
abbrev INTRINSIC_MAX : Nat := 128
abbrev XPL0_EOF : Nat := 0x1a

abbrev ERR_NONE : Nat := 0
abbrev ERR_DIVISION_BY_ZERO : Nat := 1
abbrev ERR_HEAP_OVERFLOW : Nat := 2
abbrev ERR_IO_ERROR : Nat := 3
abbrev ERR_BAD_OPCODE : Nat := 4
abbrev ERR_BAD_INTRINSIC : Nat := 5
abbrev ERR_LOADER_FAILURE : Nat := 10
abbrev ERR_NO_I2L_FILE : Nat := 10
abbrev ERR_I2L_UNEXPECTED_EOF : Nat := 10
abbrev ERR_I2L_UNEXPECTED_CHAR : Nat := 10
abbrev ERR_BAD_CMD_LINE : Nat := 11
abbrev ERR_ABORT : Nat := 12
abbrev ERR_UNIMPLEMENTED_OPCODE : Nat := 13
abbrev ERR_UNIMPLEMENTED_INTRINSIC : Nat := 14
abbrev ERR_BAD_LEVEL : Nat := 15
abbrev ERR_STACK_UNDERFLOW : Nat := 16
abbrev ERR_STACK_OVERFLOW : Nat := 17
abbrev ERR_HEAP_UNDERFLOW : Nat := 18
abbrev ERR_INTERNAL_ERROR : Nat := 19

/-! ## Machine state -/

/-- The byte array `uint8_t mem[MAX_MEM]`. -/
abbrev Mem : Type := Nat → Fin 256

/-- What the host C library does: the parts of `rand`, `fopen`, `fputc` and
`fscanf` that the interpreter cannot control. -/
structure Host where
  /-- Result of the k-th call of `rand()`. -/
  rand : Nat → Nat
  /-- Whether `stdout` accepts bytes (`fputc` does not return `EOF`). -/
  stdout_ok : Bool
  /-- Whether the disk output file accepts bytes. -/
  disk_ok : Bool
  /-- Contents of the `-i` file when `fopen(disk_in_fn, "r")` succeeds. -/
  fopen_in : Option (List Nat)
  /-- Whether `fopen(disk_out_fn, "w")` succeeds. -/
  fopen_out : Bool
  /-- Conversion `fscanf(stdin, "%hd", &num)`: the 16-bit pattern left in `num`
  (which is uninitialised when nothing is converted) and the unread input. -/
  scan_d16 : List Nat → Nat × List Nat
  /-- Conversion `fscanf(stdin, "%hx", &num)`, likewise. -/
  scan_x16 : List Nat → Nat × List Nat

/-- The global variables of `i2l.c`, and the streams of the host. -/
structure State where
  mem : Mem
  display : Nat → Nat
  heap_start : Nat
  heap_limit : Nat
  level : Nat
  pc : Nat
  sp : Nat
  hp : Nat
  run : Bool
  rerun : Bool
  trap : Bool
  err : Nat
  div_remainder : Int
  /-- Whether `-i` / `-o` named a file. -/
  disk_in_fn : Bool
  disk_out_fn : Bool
  /-- Unread bytes of `disk_in_f`, `none` for a null handle. -/
  disk_in_f : Option (List Nat)
  /-- Bytes written to `disk_out_f`, `none` for a null handle. -/
  disk_out_f : Option (List Nat)
  /-- Unread bytes of `stdin`. -/
  stdin : List Nat
  /-- Bytes written to `stdout`, oldest first. -/
  stdout : List Nat
  /-- Number of calls of `rand()` made so far. -/
  rand_calls : Nat
  host : Host

/-- Outcome of running a piece of the interpreter from a state. -/
inductive Res (α : Type) where
  /-- The code returned `a`, leaving the machine in the given state. -/
  | ok (a : α) (s : State) : Res α
  /-- The code called `fatal_error`; the process exits with `s.err`. -/
  | fatal (s : State) : Res α
  /-- The code never returns (the `while (1)` of `intrinsic_text`). -/
  | diverge : Res α
  /-- The code has no defined behaviour in C (`r % 0` in `intrinsic_ran`, a
  store outside `mem`). -/
  | undefined : Res α

/-- A C function with a result of type `α` acting on the globals. -/
def M (α : Type) : Type := State → Res α

def M.pure {α : Type} (a : α) : M α := fun s => Res.ok a s

def M.bind {α β : Type} (x : M α) (f : α → M β) : M β := fun s =>
  match x s with
  | Res.ok a s1 => f a s1
  | Res.fatal s1 => Res.fatal s1
  | Res.diverge => Res.diverge
  | Res.undefined => Res.undefined

instance : Monad M where
  pure := M.pure
  bind := M.bind

/-- Read the globals. -/
def getState : M State := fun s => Res.ok s s

/-- Update the globals. -/
def modifyState (f : State → State) : M Unit := fun s => Res.ok () (f s)

/-! ## Integer conversions -/

/-- Conversion of an `int` to `uint16_t`. -/
def u16 (i : Int) : Nat := (i % 65536).toNat

/-- Conversion of a `uint16_t` to `int16_t` (two's complement). -/
def toInt16 (v : Nat) : Int := if v % 65536 < 32768 then (v % 65536 : Nat) else (v % 65536 : Nat) - 65536

/-- Conversion to `uint8_t`. -/
def toByte (v : Nat) : Fin 256 := ⟨v % 256, Nat.mod_lt v (by decide)⟩

/-- The assignment `mem[a] = v`. -/
def setByte (m : Mem) (a : Nat) (v : Nat) : Mem := fun x => if x = a then toByte v else m x

/-! ## Fault plane (`i2l.c` 56-100) -/

/-- Function `fatal_error` / `v_fatal_error` with `error_longjmp == false`:
`err = num; run = false;` then the diagnostic and `exit(err)`. -/
def fatal_error {α : Type} (num : Nat) : M α := fun s =>
  Res.fatal { s with err := num, run := false }

/-- Function `runtime_error`: an `IO_ERROR` with `trap` off is only latched. -/
def runtime_error (num : Nat) : M Unit := fun s =>
  if num = ERR_IO_ERROR ∧ s.trap = false then Res.ok () { s with err := num }
  else fatal_error num s

/-! ## Memory, stack and heap primitives (`i2l.c` 103-214) -/

/-- Function `read16(uint16_t addr)`. -/
def read16 (m : Mem) (addr : Nat) : Nat :=
  (m (addr % 65536)).val ||| ((m (addr % 65536 + 1)).val <<< 8)

/-- Function `write16(uint16_t addr, uint16_t data)`: the memory it leaves.
The second subscript, `addr + 1`, is inside the array for `addr ≤ 0xFFFE`;
the code calls it through `call_write16`, which checks that. -/
def write16 (m : Mem) (addr data : Nat) : Mem :=
  setByte (setByte m (addr % 65536) ((data % 65536) &&& 0xff)) (addr % 65536 + 1) ((data % 65536) >>> 8)

/-- The statement `mem[a] = v` for a subscript `a` computed in `int`: with
`a ≥ MAX_MEM` the store is outside the array and has no defined behaviour. -/
def mem_assign (a v : Nat) : M Unit := fun s =>
  if a < MAX_MEM then Res.ok () { s with mem := setByte s.mem a v } else Res.undefined

/-- A call `write16(addr, data)`: with `addr = 0xFFFF` the store `mem[addr+1]`
is outside the array and has no defined behaviour. -/
def call_write16 (addr data : Nat) : M Unit := fun s =>
  if addr % 65536 + 1 < MAX_MEM then Res.ok () { s with mem := write16 s.mem addr data }
  else Res.undefined

def peek_tos16 : M Nat := fun s =>
  let high := ((s.mem (s.sp + 1)).val <<< 8) % 65536
  let low := (s.mem (s.sp + 2)).val
  Res.ok (high ||| low) s

def peek_nos16 : M Nat := fun s =>
  let high := ((s.mem (s.sp + 3)).val <<< 8) % 65536
  let low := (s.mem (s.sp + 4)).val
  Res.ok (high ||| low) s

def pop8 : M Nat := fun s =>
  if s.sp ≥ INITIAL_STACK then fatal_error ERR_STACK_UNDERFLOW s
  else
    let sp1 := (s.sp + 1) % 65536
    Res.ok (s.mem sp1).val { s with sp := sp1 }

def pop16 : M Nat := fun s =>
  if s.sp ≥ INITIAL_STACK - 1 then fatal_error ERR_STACK_UNDERFLOW s
  else
    let sp1 := (s.sp + 1) % 65536
    let high := ((s.mem sp1).val <<< 8) % 65536
    let sp2 := (sp1 + 1) % 65536
    Res.ok (high ||| (s.mem sp2).val) { s with sp := sp2 }

def push8 (value : Nat) : M Unit := fun s =>
  if s.sp < STACK_MIN + 1 then fatal_error ERR_STACK_OVERFLOW s
  else Res.ok () { s with mem := setByte s.mem s.sp value, sp := (s.sp + 65535) % 65536 }

def push16 (value : Nat) : M Unit := fun s =>
  if s.sp < STACK_MIN + 2 then fatal_error ERR_STACK_OVERFLOW s
  else
    let v := value % 65536
    let m1 := setByte s.mem s.sp (v &&& 0xff)
    let sp1 := (s.sp + 65535) % 65536
    let m2 := setByte m1 sp1 (v >>> 8)
    Res.ok () { s with mem := m2, sp := (sp1 + 65535) % 65536 }

def heap_pop_8 : M Nat := fun s =>
  if s.hp < s.heap_start + 1 then fatal_error ERR_HEAP_UNDERFLOW s
  else
    let hp1 := (s.hp + 65535) % 65536
    Res.ok (s.mem hp1).val { s with hp := hp1 }

def heap_pop_16 : M Nat := fun s =>
  if s.hp < s.heap_start + 2 then fatal_error ERR_HEAP_UNDERFLOW s
  else
    let hp1 := (s.hp + 65534) % 65536
    Res.ok (read16 s.mem hp1) { s with hp := hp1 }

/-- Function `heap_push_8`; the test compares `sp`, as the C source does. -/
def heap_push_8 (value : Nat) : M Unit := fun s =>
  if (s.sp : Int) ≥ (s.heap_limit : Int) - 1 then fatal_error ERR_HEAP_OVERFLOW s
  else Res.ok () { s with mem := setByte s.mem s.hp value, hp := (s.hp + 1) % 65536 }

/-- Function `heap_push_16`; the test compares `sp`, as the C source does.
With `hp = 0xFFFF` the call `write16(hp, value)` stores outside the array. -/
def heap_push_16 (value : Nat) : M Unit := fun s =>
  if (s.sp : Int) ≥ (s.heap_limit : Int) - 2 then fatal_error ERR_HEAP_OVERFLOW s
  else if s.hp % 65536 + 1 < MAX_MEM then
    Res.ok () { s with mem := write16 s.mem s.hp value, hp := (s.hp + 2) % 65536 }
  else Res.undefined

def fetch8 : M Nat := fun s =>
  Res.ok (s.mem s.pc).val { s with pc := (s.pc + 1) % 65536 }

def fetch16 : M Nat := do
  let low ← fetch8
  let b ← fetch8
  let high := (b <<< 8) % 65536
  return high ||| low

def fetch_level : M Nat := do
  let level ← fetch8
  if level &&& 1 ≠ 0 then fatal_error ERR_BAD_LEVEL
  else
    let level := level >>> 1
    if level ≥ MAX_LEVEL then fatal_error ERR_BAD_LEVEL
    else return level

/-! ## Opcode handlers (`i2l.c` 230-614) -/

/-- Opcode 0x00, EXIT. -/
def op_exit : M Unit := modifyState fun s => { s with run := false }

/-- Opcode 0x01, LOD. -/
def op_lod : M Unit := do
  let level ← fetch_level
  let offset ← fetch8
  let s ← getState
  push16 (read16 s.mem (s.display level + offset))

/-- Opcode 0x02, LDX. -/
def op_ldx : M Unit := do
  let level ← fetch_level
  let offset ← fetch8
  let index ← pop16
  let s ← getState
  let base := read16 s.mem (s.display level + offset)
  let value := (s.mem (base + index)).val
  push16 value

/-- Opcode 0x03, STO. -/
def op_sto : M Unit := do
  let level ← fetch_level
  let offset ← fetch8
  let value ← pop16
  let s ← getState
  call_write16 (s.display level + offset) value

/-- Opcode 0x04, STX. -/
def op_stx : M Unit := do
  let level ← fetch_level
  let offset ← fetch8
  let v ← pop16
  let value := v % 256
  let index ← pop16
  let s ← getState
  let base := read16 s.mem (s.display level + offset)
  mem_assign (base + index) value

/-- Function `do_call`. -/
def do_call (new_level : Nat) (target : Nat) : M Unit := do
  let s ← getState
  heap_push_8 (s.level <<< 1)
  modifyState fun s => { s with level := new_level }
  let s ← getState
  heap_push_16 (s.display s.level)
  let s ← getState
  heap_push_16 s.pc
  heap_push_8 0x00
  modifyState fun s => { s with display := fun l => if l = s.level then s.hp else s.display l }
  modifyState fun s => { s with pc := target % 65536 }

/-- Opcode 0x05, CAL. -/
def op_cal : M Unit := do
  let new_level ← fetch_level
  let target ← fetch16
  do_call new_level target

/-- Opcode 0x06, RET. -/
def op_ret : M Unit := do
  modifyState fun s => { s with hp := s.display s.level }
  let _ ← heap_pop_8
  let pc ← heap_pop_16
  modifyState fun s => { s with pc := pc }
  let old_display ← heap_pop_16
  let b ← heap_pop_8
  let old_level := b >>> 1
  modifyState fun s => { s with display := fun l => if l = s.level then old_display else s.display l }
  modifyState fun s => { s with level := old_level }

/-- Opcode 0x07, JMP. -/
def op_jmp : M Unit := do
  let target ← fetch16
  modifyState fun s => { s with pc := target }

/-- Opcode 0x08, JPC. -/
def op_jpc : M Unit := do
  let target ← fetch16
  let val ← pop16
  if val = 0 then modifyState fun s => { s with pc := target }
  else return ()

/-- Opcode 0x09, HPI. -/
def op_hpi : M Unit := do
  let n ← fetch8
  modifyState fun s => { s with hp := (s.hp + n) % 65536 }

/-- The loop of `op_arg`, run for `i = count - left + 1, ..., count`:
`mem[hp+6+(count-i)] = pop8()`. -/
def op_arg_loop (count : Nat) : Nat → M Unit
  | 0 => return ()
  | left + 1 => do
    let i := count - left
    let v ← pop8
    let s ← getState
    mem_assign (s.hp + 6 + (count - i)) v
    op_arg_loop count left

/-- Opcode 0x0a, ARG: the loop body runs for `i = 0, ..., count`. -/
def op_arg : M Unit := do
  let count ← fetch8
  op_arg_loop count (count + 1)

/-- Opcode 0x0b, IMM. -/
def op_imm : M Unit := do
  let v ← fetch16
  push16 v

/-- Opcode 0x0d, ADD. -/
def op_add : M Unit := do
  let op2 ← pop16
  let op1 ← pop16
  push16 (op1 + op2)

/-- Opcode 0x0e, SUB. -/
def op_sub : M Unit := do
  let op2 ← pop16
  let op1 ← pop16
  push16 (u16 ((op1 : Int) - (op2 : Int)))

/-- Opcode 0x0f, MUY. -/
def op_muy : M Unit := do
  let op2 := toInt16 (← pop16)
  let op1 := toInt16 (← pop16)
  push16 (u16 (op1 * op2))

/-- Opcode 0x10, DIV: C division truncates toward zero (`Int.tdiv`, `Int.tmod`). -/
def op_div : M Unit := do
  let op2 := toInt16 (← pop16)
  let op1 := toInt16 (← pop16)
  if op2 = 0 then fatal_error ERR_DIVISION_BY_ZERO
  else do
    push16 (u16 (Int.tdiv op1 op2))
    modifyState fun s => { s with div_remainder := toInt16 (u16 (Int.tmod op1 op2)) }

/-- Opcode 0x11, NEG. -/
def op_neg : M Unit := do
  let op1 := toInt16 (← pop16)
  push16 (u16 (-op1))

/-- The C value `cond ? -1 : 0` converted to `uint16_t`. -/
def boolWord (b : Bool) : Nat := if b then u16 (-1) else 0

/-- Opcode 0x12, EQ. -/
def op_eq : M Unit := do
  let op2 ← pop16
  let op1 ← pop16
  push16 (boolWord (decide (op1 = op2)))

/-- Opcode 0x13, NE. -/
def op_ne : M Unit := do
  let op2 ← pop16
  let op1 ← pop16
  push16 (boolWord (decide (op1 ≠ op2)))

/-- Opcode 0x14, GE. -/
def op_ge : M Unit := do
  let op2 := toInt16 (← pop16)
  let op1 := toInt16 (← pop16)
  push16 (boolWord (decide (op1 ≥ op2)))

/-- Opcode 0x15, GT. -/
def op_gt : M Unit := do
  let op2 := toInt16 (← pop16)
  let op1 := toInt16 (← pop16)
  push16 (boolWord (decide (op1 > op2)))

/-- Opcode 0x16, LE. -/
def op_le : M Unit := do
  let op2 := toInt16 (← pop16)
  let op1 := toInt16 (← pop16)
  push16 (boolWord (decide (op1 ≤ op2)))

/-- Opcode 0x17, LT. -/
def op_lt : M Unit := do
  let op2 := toInt16 (← pop16)
  let op1 := toInt16 (← pop16)
  push16 (boolWord (decide (op1 < op2)))

/-- Opcode 0x18, FOR. -/
def op_for : M Unit := do
  let target ← fetch16
  let value := toInt16 (← pop16)
  let limit := toInt16 (← peek_tos16)
  if limit - value ≤ 0 then do
    let _ ← pop16
    modifyState fun s => { s with pc := target }
  else return ()

/-- Opcode 0x19, INC. -/
def op_inc : M Unit := do
  let level ← fetch_level
  let offset ← fetch8
  let s ← getState
  let value := read16 s.mem (s.display level + offset) + 1
  call_write16 (s.display level + offset) value
  push16 value

/-- Opcode 0x1a, OR. -/
def op_or : M Unit := do
  let op2 ← pop16
  let op1 ← pop16
  push16 (op1 ||| op2)

/-- Opcode 0x1b, AND. -/
def op_and : M Unit := do
  let op2 ← pop16
  let op1 ← pop16
  push16 (op1 &&& op2)

/-- Opcode 0x1c, NOT: `~op1` is `-op1 - 1` in `int`. -/
def op_not : M Unit := do
  let op1 ← pop16
  push16 (u16 (-(op1 : Int) - 1))

/-- Opcode 0x1d, DUPCAT. -/
def op_dupcat : M Unit := do
  let v ← peek_tos16
  push16 v

/-- Opcode 0x1e, DBA. -/
def op_dba : M Unit := do
  let tos ← pop16
  let nos ← pop16
  push16 (2 * tos + nos)

/-- Opcode 0x1f, STD. -/
def op_std : M Unit := do
  let value ← pop16
  let addr ← pop16
  call_write16 addr value

/-- Opcode 0x20, DBI. -/
def op_dbi : M Unit := do
  let tos ← pop16
  let nos ← pop16
  let s ← getState
  push16 (read16 s.mem (2 * tos + nos))

/-- Opcode 0x21, ADR. -/
def op_adr : M Unit := do
  let level ← fetch_level
  let offset ← fetch8
  let s ← getState
  push16 (s.display level + offset)

/-- Opcode 0x22, LDI. -/
def op_ldi : M Unit := do
  let a ← pop16
  let s ← getState
  push16 (read16 s.mem a)

/-- Opcode 0x23, LDA. -/
def op_lda : M Unit := do
  let a ← fetch16
  let s ← getState
  push16 (read16 s.mem a)

/-- Opcode 0x24, IMS. -/
def op_ims : M Unit := do
  let val ← fetch8
  let val := if val &&& 0x80 ≠ 0 then val ||| 0xff00 else val
  push16 val

/-- Opcode 0x25, CJP. -/
def op_cjp : M Unit := do
  let tos ← pop16
  let nos ← peek_tos16
  let target ← fetch16
  if tos = nos then modifyState fun s => { s with pc := target }
  else return ()

/-- Opcode 0x26, JSR. -/
def op_jsr : M Unit := do
  let target ← fetch16
  let s ← getState
  push16 s.pc
  modifyState fun s => { s with pc := target }

/-- Opcode 0x27, RTS. -/
def op_rts : M Unit := do
  let a ← pop16
  modifyState fun s => { s with pc := a }

/-- Opcode 0x28, DRP. -/
def op_drp : M Unit := do
  let _ ← pop16
  return ()

/-- Opcode 0x29, ECL. -/
def op_ecl : M Unit := fatal_error ERR_UNIMPLEMENTED_OPCODE

/-! ## Host streams -/

/-- The call `fgetc(stdin)`; `-1` is `EOF`. -/
def fgetc_stdin : M Int := fun s =>
  match s.stdin with
  | [] => Res.ok (-1) s
  | c :: rest => Res.ok (c : Int) { s with stdin := rest }

/-- The call `fgetc(disk_in_f)` on the open handle with unread bytes `f`. -/
def fgetc_disk (f : List Nat) : M Int := fun s =>
  match f with
  | [] => Res.ok (-1) s
  | c :: rest => Res.ok (c : Int) { s with disk_in_f := some rest }

/-- The call `fputc(c, stdout)`; the result tells whether it was not `EOF`. -/
def fputc_stdout (c : Nat) : M Bool := fun s =>
  if s.host.stdout_ok then Res.ok true { s with stdout := s.stdout ++ [c % 256] }
  else Res.ok false s

/-- The call `fputc(c, disk_out_f)` on the open handle with written bytes `f`. -/
def fputc_disk (f : List Nat) (c : Nat) : M Bool := fun s =>
  if s.host.disk_ok then Res.ok true { s with disk_out_f := some (f ++ [c % 256]) }
  else Res.ok false s

/-- The call `fprintf(stdout, ...)` producing the given bytes; its result is not tested. -/
def fprintf_stdout : List Nat → M Unit
  | [] => return ()
  | c :: rest => do
    let _ ← fputc_stdout c
    fprintf_stdout rest

/-- Digits of `n` in the given base, as ASCII bytes (lower case). -/
def digitBytes (base n : Nat) : List Nat := (Nat.toDigits base n).map Char.toNat

/-- Output of the conversion `%d`. -/
def format_d (i : Int) : List Nat :=
  if i < 0 then 45 :: digitBytes 10 i.natAbs else digitBytes 10 i.natAbs

/-- Output of the conversion `%x`. -/
def format_x (n : Nat) : List Nat := digitBytes 16 n

/-! ## Intrinsics (`i2l.c` 617-975) -/

/-- Intrinsic 0x00, ABS. -/
def intrinsic_abs : M Unit := do
  let op1 := toInt16 (← pop16)
  let op1 := if op1 < 0 then toInt16 (u16 (-op1)) else op1
  push16 (u16 op1)

/-- Intrinsic 0x01, RAN. -/
def intrinsic_ran : M Unit := do
  let range := toInt16 (← pop16)
  let s ← getState
  let r := s.host.rand s.rand_calls
  modifyState fun s => { s with rand_calls := s.rand_calls + 1 }
  if range = 0 then fun _ => Res.undefined
  else push16 (u16 (Int.tmod (r : Int) range))

/-- Intrinsic 0x02, REM. -/
def intrinsic_rem : M Unit := do
  let _ ← pop16
  let s ← getState
  push16 (u16 s.div_remainder)

/-- Intrinsic 0x03, RESERVE. -/
def intrinsic_reserve : M Unit := do
  let s ← getState
  let base := s.hp
  let size ← pop16
  if s.hp + size > s.heap_limit then fatal_error ERR_HEAP_OVERFLOW
  else do
    modifyState fun s => { s with hp := (s.hp + size) % 65536 }
    push16 base

/-- Intrinsic 0x04, SWAP. -/
def intrinsic_swap : M Unit := do
  let val ← pop16
  push16 (((val >>> 8) &&& 0xff) ||| ((val &&& 0xff) <<< 8))

/-- Intrinsic 0x05, EXTEND. -/
def intrinsic_extend : M Unit := do
  let v ← pop16
  let val := v &&& 0xff
  let val := if val &&& 0x80 ≠ 0 then val ||| 0xff00 else val
  push16 val

/-- Intrinsic 0x06, RESTART. -/
def intrinsic_restart : M Unit := do
  let _ ← pop16
  modifyState fun s => { s with run := false }
  modifyState fun s => { s with rerun := true }

/-- Tail of `intrinsic_chin` after a character was read: the `EOF` test, the
newline translation and the push. -/
def chin_finish (c : Int) : M Unit := do
  if c = -1 then runtime_error ERR_IO_ERROR
  let c := if c = 10 then 13 else c
  push16 (u16 c)

/-- Intrinsic 0x07, CHIN. -/
def intrinsic_chin : M Unit := do
  let dev ← pop16
  let s ← getState
  if dev = 0 then do
    let c ← fgetc_stdin
    chin_finish c
  else if dev = 3 then
    match s.disk_in_f with
    | none => runtime_error ERR_IO_ERROR
    | some f => do
      let c ← fgetc_disk f
      chin_finish c
  else if dev = 7 then push16 XPL0_EOF
  else runtime_error ERR_IO_ERROR

/-- Intrinsic 0x08, CHOUT.  Every path that leaves the `switch` by `break` or
by matching no case reaches `if (dev != 0) runtime_error(...)`. -/
def intrinsic_chout : M Unit := do
  let c ← pop16
  let dev ← pop16
  let s ← getState
  if dev = 0 then do
    let r ← fputc_stdout c
    if r = false then runtime_error ERR_IO_ERROR
  else if dev = 3 then
    match s.disk_out_f with
    | none => runtime_error ERR_IO_ERROR
    | some f => do
      let r ← fputc_disk f c
      if r = false then runtime_error ERR_IO_ERROR
  else if dev = 7 then return ()
  else runtime_error ERR_IO_ERROR

/-- Intrinsic 0x09, CRLF. -/
def intrinsic_crlf : M Unit := do
  let dev ← pop16
  if dev ≠ 0 then runtime_error ERR_IO_ERROR
  fprintf_stdout [10]

/-- Intrinsic 0x0a, NUMIN. -/
def intrinsic_numin : M Unit := do
  let dev ← pop16
  if dev ≠ 0 then runtime_error ERR_IO_ERROR
  let s ← getState
  let r := s.host.scan_d16 s.stdin
  modifyState fun s => { s with stdin := r.2 }
  push16 r.1

/-- Intrinsic 0x0b, NUMOUT. -/
def intrinsic_numout : M Unit := do
  let num := toInt16 (← pop16)
  let dev ← pop16
  if dev ≠ 0 then runtime_error ERR_IO_ERROR
  fprintf_stdout (format_d num)

/-- The `while (1)` of `intrinsic_text`.  The loop leaves `mem` and `trap`
alone and `si` runs through all 65536 addresses, so a loop that has not ended
after 65536 rounds never ends. -/
def text_loop : Nat → Nat → M Unit
  | 0, _ => fun _ => Res.diverge
  | n + 1, si => do
    let s ← getState
    let c := (s.mem si).val
    let si := (si + 1) % 65536
    let r ← fputc_stdout (c &&& 0x7f)
    if r = false then runtime_error ERR_IO_ERROR
    if c &&& 0x80 ≠ 0 then return ()
    else text_loop n si

/-- Intrinsic 0x0c, TEXT. -/
def intrinsic_text : M Unit := do
  let si ← pop16
  let dev ← pop16
  if dev ≠ 0 then runtime_error ERR_IO_ERROR
  text_loop 65536 si

/-- Intrinsic 0x0d, OPENI. -/
def intrinsic_openi : M Unit := do
  let dev ← pop16
  if dev = 0 then return ()
  else if dev = 3 then do
    modifyState fun s => { s with disk_in_f := none }
    let s ← getState
    if s.disk_in_fn = false then runtime_error ERR_IO_ERROR
    else do
      modifyState fun s => { s with disk_in_f := s.host.fopen_in }
      if s.host.fopen_in.isNone then runtime_error ERR_IO_ERROR
  else if dev = 7 then return ()
  else runtime_error ERR_IO_ERROR

/-- Intrinsic 0x0e, OPENO. -/
def intrinsic_openo : M Unit := do
  let dev ← pop16
  if dev = 0 then return ()
  else if dev = 3 then do
    modifyState fun s => { s with disk_out_f := none }
    let s ← getState
    if s.disk_out_fn = false then runtime_error ERR_IO_ERROR
    else do
      modifyState fun s => { s with disk_out_f := if s.host.fopen_out then some [] else none }
      if s.host.fopen_out = false then runtime_error ERR_IO_ERROR
  else if dev = 7 then return ()
  else runtime_error ERR_IO_ERROR

/-- Intrinsic 0x0f, CLOSE. -/
def intrinsic_close : M Unit := do
  let dev ← pop16
  if dev = 0 then return ()
  else if dev = 3 then do
    modifyState fun s => { s with disk_in_f := none }
    modifyState fun s => { s with disk_out_f := none }
  else if dev = 7 then return ()
  else runtime_error ERR_IO_ERROR

/-- Intrinsic 0x10, ABORT. -/
def intrinsic_abort : M Unit := fatal_error ERR_ABORT

/-- Intrinsic 0x11, TRAP. -/
def intrinsic_trap : M Unit := do
  let val ← pop16
  modifyState fun s => { s with trap := decide (val ≠ 0) }

/-- Intrinsic 0x12, SPACE. -/
def intrinsic_space : M Unit := do
  let s ← getState
  push16 (u16 ((s.heap_limit : Int) - (s.hp : Int)))

/-- Intrinsic 0x13, RERUN. -/
def intrinsic_rerun : M Unit := do
  let s ← getState
  push16 (if s.rerun then 0xffff else 0x0000)

/-- Intrinsic 0x14, GETHP. -/
def intrinsic_gethp : M Unit := do
  let s ← getState
  push16 s.hp

/-- Intrinsic 0x15, SETHP. -/
def intrinsic_sethp : M Unit := do
  let v ← pop16
  modifyState fun s => { s with hp := v }

/-- Intrinsic 0x16, ERRFLG. -/
def intrinsic_errflg : M Unit := do
  let s ← getState
  push16 (if s.err ≠ 0 then 0xffff else 0x0000)
  modifyState fun s => { s with err := 0 }

/-- Intrinsic 0x17, CURSOR. -/
def intrinsic_cursor : M Unit := do
  let _ ← pop16
  let _ ← pop16
  fatal_error ERR_UNIMPLEMENTED_INTRINSIC

/-- Intrinsic 0x19, SETRUN. -/
def intrinsic_setrun : M Unit := do
  let v ← pop16
  modifyState fun s => { s with rerun := decide (v ≠ 0) }

/-- Intrinsic 0x1a, HEXIN. -/
def intrinsic_hexin : M Unit := do
  let dev ← pop16
  if dev ≠ 0 then runtime_error ERR_IO_ERROR
  let s ← getState
  let r := s.host.scan_x16 s.stdin
  modifyState fun s => { s with stdin := r.2 }
  push16 r.1

/-- Intrinsic 0x1b, HEXOUT. -/
def intrinsic_hexout : M Unit := do
  let num ← pop16
  let dev ← pop16
  if dev ≠ 0 then runtime_error ERR_IO_ERROR
  fprintf_stdout (format_x num)

/-- The `fn` column of the table `intrinsic[INTRINSIC_MAX]`; `none` is a null
pointer.  The blocks under `APEX_INTRINSICS`, `APPLE_II_INTRINSICS`,
`MSDOS_INTRINSICS` and `FLOATING_POINT` are not compiled. -/
def intrinsic (inum : Nat) : Option (M Unit) :=
  match inum with
  | 0x00 => some intrinsic_abs
  | 0x01 => some intrinsic_ran
  | 0x02 => some intrinsic_rem
  | 0x03 => some intrinsic_reserve
  | 0x04 => some intrinsic_swap
  | 0x05 => some intrinsic_extend
  | 0x06 => some intrinsic_restart
  | 0x07 => some intrinsic_chin
  | 0x08 => some intrinsic_chout
  | 0x09 => some intrinsic_crlf
  | 0x0a => some intrinsic_numin
  | 0x0b => some intrinsic_numout
  | 0x0c => some intrinsic_text
  | 0x0d => some intrinsic_openi
  | 0x0e => some intrinsic_openo
  | 0x0f => some intrinsic_close
  | 0x10 => some intrinsic_abort
  | 0x11 => some intrinsic_trap
  | 0x12 => some intrinsic_space
  | 0x13 => some intrinsic_rerun
  | 0x14 => some intrinsic_gethp
  | 0x15 => some intrinsic_sethp
  | 0x16 => some intrinsic_errflg
  | 0x17 => some intrinsic_cursor
  | 0x19 => some intrinsic_setrun
  | 0x1a => some intrinsic_hexin
  | 0x1b => some intrinsic_hexout
  | _ => none

/-- Opcode 0x0c, CML. -/
def op_cml : M Unit := do
  let b ← fetch8
  let inum : Int := (b : Int) - (INTRINSIC_OFFSET : Int)
  if inum < 0 ∨ inum ≥ (INTRINSIC_MAX : Int) then fatal_error ERR_BAD_INTRINSIC
  else
    match intrinsic inum.toNat with
    | none => fatal_error ERR_BAD_INTRINSIC
    | some fn => fn

/-! ## Dispatch tables and the dispatcher (`i2l.c` 216-227, 978-1042, 1251-1327) -/

abbrev CLASS_NO_OPERAND : Nat := 0
abbrev CLASS_ONE_BYTE_OPERAND : Nat := 2
abbrev CLASS_TWO_BYTE_OPERAND : Nat := 3
abbrev CLASS_ADDRESS : Nat := 7
abbrev CLASS_LEVEL_OFFSET : Nat := 10
abbrev CLASS_LEVEL_ADDRESS : Nat := 15
abbrev CLASS_REAL_OPERAND : Nat := 16
abbrev CLASS_ADDRESS_REAL_ARRAY : Nat := 36
abbrev CLASS_ADDRESS_BASE_RELATIVE : Nat := 64
abbrev REAL_SIZE : Nat := 5

/-- The table `class_bytes[256]`; entries without an initialiser are 0. -/
def class_bytes (cls : Nat) : Nat :=
  match cls with
  | 0 => 1
  | 2 => 2
  | 3 => 3
  | 7 => 3
  | 10 => 3
  | 15 => 4
  | 16 => 1 + REAL_SIZE
  | 36 => 1 + REAL_SIZE
  | 64 => 3
  | _ => 0

/-- The table `op[128]` (`FLOATING_POINT` is false): handler and class of an
opcode; entries without an initialiser have a null handler and class 0. -/
def op (opcode : Nat) : Option (M Unit) × Nat :=
  match opcode with
  | 0x00 => (some op_exit, CLASS_NO_OPERAND)
  | 0x01 => (some op_lod, CLASS_LEVEL_OFFSET)
  | 0x02 => (some op_ldx, CLASS_LEVEL_OFFSET)
  | 0x03 => (some op_sto, CLASS_LEVEL_OFFSET)
  | 0x04 => (some op_stx, CLASS_LEVEL_OFFSET)
  | 0x05 => (some op_cal, CLASS_LEVEL_ADDRESS)
  | 0x06 => (some op_ret, CLASS_NO_OPERAND)
  | 0x07 => (some op_jmp, CLASS_ADDRESS)
  | 0x08 => (some op_jpc, CLASS_ADDRESS)
  | 0x09 => (some op_hpi, CLASS_ONE_BYTE_OPERAND)
  | 0x0a => (some op_arg, CLASS_ONE_BYTE_OPERAND)
  | 0x0b => (some op_imm, CLASS_ADDRESS)
  | 0x0c => (some op_cml, CLASS_ONE_BYTE_OPERAND)
  | 0x0d => (some op_add, CLASS_NO_OPERAND)
  | 0x0e => (some op_sub, CLASS_NO_OPERAND)
  | 0x0f => (some op_muy, CLASS_NO_OPERAND)
  | 0x10 => (some op_div, CLASS_NO_OPERAND)
  | 0x11 => (some op_neg, CLASS_NO_OPERAND)
  | 0x12 => (some op_eq, CLASS_NO_OPERAND)
  | 0x13 => (some op_ne, CLASS_NO_OPERAND)
  | 0x14 => (some op_ge, CLASS_NO_OPERAND)
  | 0x15 => (some op_gt, CLASS_NO_OPERAND)
  | 0x16 => (some op_le, CLASS_NO_OPERAND)
  | 0x17 => (some op_lt, CLASS_NO_OPERAND)
  | 0x18 => (some op_for, CLASS_ADDRESS)
  | 0x19 => (some op_inc, CLASS_LEVEL_OFFSET)
  | 0x1a => (some op_or, CLASS_NO_OPERAND)
  | 0x1b => (some op_and, CLASS_NO_OPERAND)
  | 0x1c => (some op_not, CLASS_NO_OPERAND)
  | 0x1d => (some op_dupcat, CLASS_NO_OPERAND)
  | 0x1e => (some op_dba, CLASS_NO_OPERAND)
  | 0x1f => (some op_std, CLASS_NO_OPERAND)
  | 0x20 => (some op_dbi, CLASS_NO_OPERAND)
  | 0x21 => (some op_adr, CLASS_LEVEL_OFFSET)
  | 0x22 => (some op_ldi, CLASS_NO_OPERAND)
  | 0x23 => (some op_lda, CLASS_ADDRESS)
  | 0x24 => (some op_ims, CLASS_ONE_BYTE_OPERAND)
  | 0x25 => (some op_cjp, CLASS_ADDRESS)
  | 0x26 => (some op_jsr, CLASS_ADDRESS)
  | 0x27 => (some op_rts, CLASS_NO_OPERAND)
  | 0x28 => (some op_drp, CLASS_NO_OPERAND)
  | 0x29 => (some op_ecl, CLASS_TWO_BYTE_OPERAND)
  | _ => (none, 0)

/-- One round of the `while (run)` loop of `interp_run`: fetch an opcode and
execute it. -/
def interp_step : M Unit := do
  let opcode ← fetch8
  let cls := if opcode ≥ 0x80 then CLASS_NO_OPERAND else (op opcode).2
  let bytes := class_bytes cls
  if bytes = 0 then fatal_error ERR_INTERNAL_ERROR
  else if opcode ≥ 0x80 then do
    let offset := opcode &&& 0x7f
    let offset := (offset <<< 1) % 65536
    let s ← getState
    push16 (read16 s.mem (s.display 0 + offset))
  else
    match (op opcode).1 with
    | none => fatal_error ERR_BAD_OPCODE
    | some fn => fn

/-- Function `interp_run`, with a bound on the number of rounds: `none` when
the loop is still running after `fuel` rounds. -/
def interp_run : Nat → State → Option (Res Unit)
  | 0, s => if s.run then none else some (Res.ok () s)
  | fuel + 1, s =>
    if s.run then
      match interp_step s with
      | Res.ok _ s1 => interp_run fuel s1
      | r => some r
    else some (Res.ok () s)

/-- The block of `interp` guarded by `setjmp`, which returns 0 when called
directly: set up the registers and the main program's frame. -/
def interp_init : M Unit := do
  modifyState fun s => { s with sp := INITIAL_STACK }
  modifyState fun s => { s with hp := s.heap_start }
  modifyState fun s => { s with level := 0 }
  modifyState fun s => { s with mem := setByte s.mem 0xffff 0 }
  modifyState fun s => { s with pc := 0xffff }
  do_call 0 CODE_START
  modifyState fun s => { s with run := true }
  modifyState fun s => { s with rerun := false }
  modifyState fun s => { s with trap := true }

/-- The `do ... while (rerun)` of `interp`, for at most `runs` passes of at
most `fuel` rounds each. -/
def interp_loop (fuel : Nat) : Nat → State → Option (Res Unit)
  | 0, _ => none
  | runs + 1, s =>
    match interp_init s with
    | Res.ok _ s1 =>
      match interp_run fuel s1 with
      | some (Res.ok _ s2) => if s2.rerun then interp_loop fuel runs s2 else some (Res.ok () s2)
      | r => r
    | r => some r

/-- Function `interp`. -/
def interp (fuel runs : Nat) (s : State) : Option (Res Unit) :=
  interp_loop fuel runs { s with err := 0 }

/-! ## Loader (`i2l.c` 1166-1248) -/

/-- The C library's `isxdigit` on a byte. -/
def isxdigit (c : Nat) : Bool :=
  (48 ≤ c && c ≤ 57) || (65 ≤ c && c ≤ 70) || (97 ≤ c && c ≤ 102)

/-- Value of one hexadecimal digit. -/
def hexval (c : Nat) : Nat :=
  if c ≤ 57 then c - 48 else if c ≤ 70 then c - 55 else c - 87

/-- The call `strtoul(s, NULL, 16)` on a string of hexadecimal digits. -/
def strtoul16 (s : List Nat) : Nat := s.foldl (fun v c => v * 16 + hexval c) 0

/-- The `for` loop of `read_hex` with `left` rounds to go: `i` is the loop
index, `str` the digits collected so far, `f` the unread input.  The result is
the text of the field, or `none` after the `return false`, and the input left
(`ungetc` puts the offending character back).  A byte 0xFF, which a signed
`char` makes equal to `EOF`, takes the non-digit path; both paths end in
`fatal_error` with the same number. -/
def read_hex_loop (non_hex_ok : Bool) : Nat → Nat → List Nat → List Nat → M (Option (List Nat) × List Nat)
  | 0, _, str, f => return (some str, f)
  | left + 1, i, str, f =>
    match f with
    | [] => fatal_error ERR_I2L_UNEXPECTED_EOF
    | c :: f1 =>
      if isxdigit c = false then
        if non_hex_ok && i == 0 then return (none, c :: f1)
        else fatal_error ERR_I2L_UNEXPECTED_CHAR
      else read_hex_loop non_hex_ok left (i + 1) (str ++ [c]) f1

/-- Function `read_hex`: the value read, or `none` for `false`, and the input left. -/
def read_hex (f : List Nat) (digits : Nat) (non_hex_ok : Bool) : M (Option Nat × List Nat) := do
  let r ← read_hex_loop non_hex_ok digits 0 [] f
  match r.1 with
  | none => return (none, r.2)
  | some str => return (some (strtoul16 str % 65536), r.2)

/-- The statement `if ((base+offset) > heap_start) heap_start = base+offset;`
of `loader`: the comparison is made in `int`, the assignment converts to
`uint16_t`. -/
def raise_heap_start (offset : Nat) (s : State) : State :=
  if CODE_START + offset > s.heap_start then { s with heap_start := (CODE_START + offset) % 65536 }
  else s

/-- Which kind of item made a store. -/
inductive StoreKind where
  | byte
  | fixup
  | star
  deriving DecidableEq, Repr

/-- The loop of `loader` on the unread input `f` with cursor `offset`
(`base` is `CODE_START`).  Each round consumes at least one character, so
`fuel` larger than the length of `f` is never used up.  The list `log` is a
ghost trace with no counterpart in the C code: it records, in order, the
subscript of every byte of `mem` stored to and the kind of item that stored it;
it is the value returned at `$`. -/
def loader_loop : Nat → List Nat → Nat → List (StoreKind × Nat) → M (List (StoreKind × Nat))
  | 0, _, _, _ => fun _ => Res.diverge
  | fuel + 1, f, offset, log => do
    let r ← read_hex f 2 true
    match r.1 with
    | some value => do
      mem_assign (CODE_START + offset) value
      let log := log ++ [(StoreKind.byte, CODE_START + offset)]
      let offset := (offset + 1) % 65536
      modifyState (raise_heap_start offset)
      loader_loop fuel r.2 offset log
    | none =>
      match r.2 with
      | [] => fatal_error ERR_I2L_UNEXPECTED_CHAR
      | c :: f1 =>
        if c = 13 ∨ c = 10 then loader_loop fuel f1 offset log
        else if c = 59 then do
          let r ← read_hex f1 4 false
          loader_loop fuel r.2 (r.1.getD 0) log
        else if c = 94 then do
          let r ← read_hex f1 4 false
          let value := r.1.getD 0
          call_write16 (CODE_START + value) (CODE_START + offset)
          let a := (CODE_START + value) % 65536
          loader_loop fuel r.2 offset (log ++ [(StoreKind.fixup, a), (StoreKind.fixup, a + 1)])
        else if c = 42 then do
          let r ← read_hex f1 4 false
          let value := r.1.getD 0
          call_write16 (CODE_START + offset) (CODE_START + value)
          let a := (CODE_START + offset) % 65536
          let log := log ++ [(StoreKind.star, a), (StoreKind.star, a + 1)]
          let offset := (offset + 2) % 65536
          modifyState (raise_heap_start offset)
          loader_loop fuel r.2 offset log
        else if c = 36 then return log
        else fatal_error ERR_I2L_UNEXPECTED_CHAR

/-- Function `loader` on the bytes of the object file. -/
def loader (f : List Nat) : M (List (StoreKind × Nat)) := loader_loop (f.length + 1) f 0 []

/-! ## Program start (`i2l.c` 1375-1430) -/

/-- The globals when `main` calls `loader`: static storage is zeroed, and
`main` has set `heap_start = 0`, `heap_limit = 0x5fff` and recorded whether
`-i` and `-o` were given. -/
def boot (host : Host) (stdin : List Nat) (disk_in_fn disk_out_fn : Bool) : State :=
  { mem := fun _ => 0, display := fun _ => 0, heap_start := 0, heap_limit := 0x5fff,
    level := 0, pc := 0, sp := 0, hp := 0, run := false, rerun := false, trap := false,
    err := 0, div_remainder := 0, disk_in_fn := disk_in_fn, disk_out_fn := disk_out_fn,
    disk_in_f := none, disk_out_f := none, stdin := stdin, stdout := [], rand_calls := 0,
    host := host }

/-- The tail of `main`: `loader(i2lf); interp(); exit(err);`.  The result is
the exit status and the final state, `none` when `interp` has not finished
within the bounds. -/
def main (fuel runs : Nat) (file : List Nat) (s : State) : Option (Nat × State) :=
  match loader file s with
  | Res.ok _ s1 =>
    match interp fuel runs s1 with
    | some (Res.ok _ s2) => some (s2.err, s2)
    | some (Res.fatal s2) => some (s2.err, s2)
    | _ => none
  | Res.fatal s1 => some (s1.err, s1)
  | _ => none

/-- A host on which every call succeeds and nothing is read. -/
def quietHost : Host :=
  { rand := fun _ => 0, stdout_ok := true, disk_ok := true, fopen_in := none, fopen_out := false,
    scan_d16 := fun f => (0, f), scan_x16 := fun f => (0, f) }

/-- The bytes of an ASCII string. -/
def ascii (str : String) : List Nat := str.toList.map Char.toNat

/-! ## Notions used by the statements -/

/-- Every returning run of `x` relates its start and end states by `R`. -/
def Sat {α : Type} (R : State → State → Prop) (x : M α) : Prop :=
  ∀ s a s1, x s = Res.ok a s1 → R s s1

/-- Relations that can be chained along a run. -/
structure Chain (R : State → State → Prop) : Prop where
  refl : ∀ s, R s s
  trans : ∀ a b c, R a b → R b c → R a c

/-- The heap pointer is between `heap_start` and `heap_limit`. -/
def HpOK (s : State) : Prop := s.heap_start ≤ s.hp ∧ s.hp ≤ s.heap_limit

/-- States of the dispatcher: `interp` sets up the registers from any loaded
image (or, after `restart`, from the state the last pass ended in), and each
round of `interp_run` that returns leads to the next state.  A round that
raises a fatal fault or stores outside `mem` does not return and leads to no
state. -/
inductive Reachable : State → Prop where
  | start (s0 s1 : State) (h : interp_init s0 = Res.ok () s1) : Reachable s1
  | step (s s1 : State) (hr : Reachable s) (hrun : s.run = true)
      (h : interp_step s = Res.ok () s1) : Reachable s1

/-- The globals after loading the image `0B 34 12 00` (`imm 0x1234; exi`) on a quiet host. -/
def afterLoad : State :=
  match loader (ascii "0B341200$") (boot quietHost [] false false) with
  | Res.ok _ s => s
  | _ => boot quietHost [] false false

/-- The state in which the dispatcher starts on that image. -/
def afterInit : State :=
  match interp_init afterLoad with
  | Res.ok _ s => s
  | _ => afterLoad

/-- The state after the first round of the dispatcher on that image. -/
def afterImm : State :=
  match interp_step afterInit with
  | Res.ok _ s => s
  | _ => afterInit


/-- The error number of a fatal fault, `none` for any other outcome. -/
def faultOf {α : Type} (r : Res α) : Option Nat :=
  match r with
  | Res.fatal s => some s.err
  | _ => none

/-- A state with an empty heap at 0x1800, `cal 1,0x1234` at 0x1700 (operands
at `pc = 0x1701`) and the given stack pointer. -/
def calState (sp : Nat) : State :=
  { boot quietHost [] false false with
    mem := fun a => if a = 0x1700 then 5 else if a = 0x1701 then 2 else if a = 0x1702 then 0x34
                    else if a = 0x1703 then 0x12 else 0
    heap_start := 0x1800, hp := 0x1800, pc := 0x1701, sp := sp, run := true }

/-- The heap registers are untouched. -/
def Frame (s s1 : State) : Prop :=
  s1.hp = s.hp ∧ s1.heap_start = s.heap_start ∧ s1.heap_limit = s.heap_limit

/-- The heap bounds are untouched and `heap_start ≤ hp ≤ heap_limit` carries
over (`heap_limit` being a 16-bit value). -/
def HpKeeps (s s1 : State) : Prop :=
  s1.heap_start = s.heap_start ∧ s1.heap_limit = s.heap_limit ∧
    (s.heap_limit < 65536 → HpOK s → HpOK s1)

/-- Whether a run returned. -/
def isOk {α : Type} (r : Res α) : Bool :=
  match r with
  | Res.ok _ _ => true
  | _ => false

/-- The state a run returned in (the given state when it did not return). -/
def stateOr {α : Type} (r : Res α) (s : State) : State :=
  match r with
  | Res.ok _ s1 => s1
  | _ => s

/-- The state in which the dispatcher starts on the image `imm 0; cml sethp`. -/
def sethpInit : State :=
  stateOr ((loader (ascii "0B00000C5500$") >>= fun _ => interp_init) (boot quietHost [] false false))
    (boot quietHost [] false false)

/-- The state after the first round (`imm 0`) on that image. -/
def sethpImm : State := stateOr (interp_step sethpInit) sethpInit

/-- The state after the second round (`cml sethp`) on that image. -/
def afterSethp : State := stateOr (interp_step sethpImm) sethpImm

/-- The value `peek_tos16` returns: the 16-bit word on top of the stack. -/
def tos16 (s : State) : Nat :=
  (((s.mem (s.sp + 1)).val <<< 8) % 65536) ||| (s.mem (s.sp + 2)).val

/-- The value `peek_nos16` returns: the 16-bit word below the top of the stack. -/
def nos16 (s : State) : Nat :=
  (((s.mem (s.sp + 3)).val <<< 8) % 65536) ||| (s.mem (s.sp + 4)).val

/-- A state whose stack holds the two words `nos` (pushed first) and `tos`. -/
def stack2 (nos tos : Nat) : State :=
  { boot quietHost [] false false with
    sp := 0x01fb
    mem := fun a => if a = 0x01fc then toByte (tos / 256) else if a = 0x01fd then toByte tos
                    else if a = 0x01fe then toByte (nos / 256) else if a = 0x01ff then toByte nos
                    else 0 }

/-- The text of a field of `n` hexadecimal digits at the head of `f` and the
input after it; `none` when `f` ends or shows another character first. -/
def hex_field : Nat → List Nat → Option (List Nat × List Nat)
  | 0, f => some ([], f)
  | _ + 1, [] => none
  | n + 1, c :: f =>
    if isxdigit c then
      match hex_field n f with
      | some r => some (c :: r.1, r.2)
      | none => none
    else none

/-- What becomes of an object stream in the loader. -/
inductive Verdict where
  /-- A sequence of well-formed items closed by `$`, every store inside `mem`. -/
  | loads
  /-- Malformed before any `$`, every store made before that inside `mem`. -/
  | fails
  /-- Some item stores outside `mem`. -/
  | strays
  deriving DecidableEq, Repr

/-- Shape of an object stream, read item by item from an item boundary at
which the loader's cursor is `cur`.
`Stream loads cur f`: `f` is a sequence of well-formed items closed by `$`
(anything may follow the `$`).  `Stream fails cur f`: after a sequence of
well-formed items and before any `$`, `f` ends, or shows a character that
starts no item, or ends or shows a non-hexadecimal character inside a
two-digit byte or a four-digit field.  In both, every item stores inside
`mem`.  `Stream strays cur f`: after a sequence of well-formed items that store
inside `mem` comes a well-formed item that stores outside it: a byte item
with the cursor above `0xE8FF` (subscript `CODE_START + cur ≥ 0x10000`), a
fixup `^XXXX` with `(CODE_START + XXXX) mod 2^16 = 0xFFFF`, or an item `*XXXX`
with `(CODE_START + cur) mod 2^16 = 0xFFFF` (the high byte of `write16` goes
to `mem[0x10000]`). -/
inductive Stream : Verdict → Nat → List Nat → Prop where
  /-- The end marker `$`. -/
  | done (cur : Nat) (rest : List Nat) : Stream Verdict.loads cur (36 :: rest)
  /-- End of input where an item may start. -/
  | eof (cur : Nat) : Stream Verdict.fails cur []
  /-- A character that is no hexadecimal digit, CR, LF, `;`, `^`, `*` or `$`. -/
  | badchar (cur c : Nat) (rest : List Nat) (hx : isxdigit c = false) (h1 : c ≠ 13) (h2 : c ≠ 10)
      (h3 : c ≠ 59) (h4 : c ≠ 94) (h5 : c ≠ 42) (h6 : c ≠ 36) : Stream Verdict.fails cur (c :: rest)
  /-- A first hexadecimal digit followed by the end of input or by a character
  that is no hexadecimal digit. -/
  | badbyte (cur c : Nat) (rest : List Nat) (hx : isxdigit c = true) (h : hex_field 1 rest = none) :
      Stream Verdict.fails cur (c :: rest)
  /-- One of `;`, `^`, `*` not followed by four hexadecimal digits. -/
  | badfield (cur k : Nat) (rest : List Nat) (hk : k = 59 ∨ k = 94 ∨ k = 42)
      (h : hex_field 4 rest = none) : Stream Verdict.fails cur (k :: rest)
  /-- A byte item `HH`, stored at `CODE_START + cur` inside `mem`. -/
  | byte (v : Verdict) (cur h1 h2 : Nat) (rest : List Nat) (x1 : isxdigit h1 = true)
      (x2 : isxdigit h2 = true) (hin : CODE_START + cur ≤ 0xFFFF)
      (h : Stream v ((cur + 1) % 65536) rest) : Stream v cur (h1 :: h2 :: rest)
  /-- A byte item `HH` whose subscript `CODE_START + cur` is outside `mem`. -/
  | byte_out (cur h1 h2 : Nat) (rest : List Nat) (x1 : isxdigit h1 = true)
      (x2 : isxdigit h2 = true) (hout : 0xFFFF < CODE_START + cur) :
      Stream Verdict.strays cur (h1 :: h2 :: rest)
  /-- A CR or LF. -/
  | blank (v : Verdict) (cur c : Nat) (rest : List Nat) (hc : c = 13 ∨ c = 10)
      (h : Stream v cur rest) : Stream v cur (c :: rest)
  /-- An item `;XXXX`: the cursor becomes `XXXX`. -/
  | semi (v : Verdict) (cur a b c d : Nat) (rest : List Nat)
      (xa : isxdigit a = true) (xb : isxdigit b = true) (xc : isxdigit c = true)
      (xd : isxdigit d = true) (h : Stream v (strtoul16 [a, b, c, d] % 65536) rest) :
      Stream v cur (59 :: a :: b :: c :: d :: rest)
  /-- An item `^XXXX` whose two stores are inside `mem`. -/
  | fixup (v : Verdict) (cur a b c d : Nat) (rest : List Nat)
      (xa : isxdigit a = true) (xb : isxdigit b = true) (xc : isxdigit c = true)
      (xd : isxdigit d = true) (hin : (CODE_START + strtoul16 [a, b, c, d]) % 65536 ≤ 0xFFFE)
      (h : Stream v cur rest) : Stream v cur (94 :: a :: b :: c :: d :: rest)
  /-- An item `^XXXX` whose second store is outside `mem`. -/
  | fixup_out (cur a b c d : Nat) (rest : List Nat)
      (xa : isxdigit a = true) (xb : isxdigit b = true) (xc : isxdigit c = true)
      (xd : isxdigit d = true) (hout : (CODE_START + strtoul16 [a, b, c, d]) % 65536 = 0xFFFF) :
      Stream Verdict.strays cur (94 :: a :: b :: c :: d :: rest)
  /-- An item `*XXXX` whose two stores are inside `mem`. -/
  | star (v : Verdict) (cur a b c d : Nat) (rest : List Nat)
      (xa : isxdigit a = true) (xb : isxdigit b = true) (xc : isxdigit c = true)
      (xd : isxdigit d = true) (hin : (CODE_START + cur) % 65536 ≤ 0xFFFE)
      (h : Stream v ((cur + 2) % 65536) rest) : Stream v cur (42 :: a :: b :: c :: d :: rest)
  /-- An item `*XXXX` whose second store is outside `mem`. -/
  | star_out (cur a b c d : Nat) (rest : List Nat)
      (xa : isxdigit a = true) (xb : isxdigit b = true) (xc : isxdigit c = true)
      (xd : isxdigit d = true) (hout : (CODE_START + cur) % 65536 = 0xFFFF) :
      Stream Verdict.strays cur (42 :: a :: b :: c :: d :: rest)

/-- The number `hs` is the smallest one greater than every subscript that the
ghost trace `log` records for a byte item or a `*` item. -/
def LeastAbove (log : List (StoreKind × Nat)) (hs : Nat) : Prop :=
  (∀ e ∈ log, e.1 ≠ StoreKind.fixup → e.2 < hs) ∧
  (∀ b, (∀ e ∈ log, e.1 ≠ StoreKind.fixup → e.2 < b) → hs ≤ b)

/-- The value a run returned (the given one when it did not return). -/
def valueOr {α : Type} (r : Res α) (d : α) : α :=
  match r with
  | Res.ok a _ => a
  | _ => d

/-- The hexadecimal digit (upper case) of a number below 16. -/
def hexDigit (d : Nat) : Nat := if d < 10 then 48 + d else 55 + d

/-- Two hexadecimal digits for a byte. -/
def hex2 (b : Nat) : List Nat := [hexDigit (b / 16 % 16), hexDigit (b % 16)]

/-- Four hexadecimal digits for a 16-bit offset. -/
def hex4 (o : Nat) : List Nat :=
  [hexDigit (o / 4096 % 16), hexDigit (o / 256 % 16), hexDigit (o / 16 % 16), hexDigit (o % 16)]

/-- The hex byte pairs of a list of bytes. -/
def encodeBytes : List Nat → List Nat
  | [] => []
  | b :: bs => hex2 b ++ encodeBytes bs

/-- A chunk `(offset, bytes)` as `;XXXX` followed by hex byte pairs. -/
def encodeChunk (c : Nat × List Nat) : List Nat := 59 :: (hex4 c.1 ++ encodeBytes c.2)

/-- The stream of a list of chunks, closed by `$`. -/
def encodeChunks : List (Nat × List Nat) → List Nat
  | [] => [36]
  | c :: cs => encodeChunk c ++ encodeChunks cs

/-- First address of the target range of a chunk. -/
def chunkLo (c : Nat × List Nat) : Nat := CODE_START + c.1

/-- End (first address after) of the target range of a chunk. -/
def chunkHi (c : Nat × List Nat) : Nat := CODE_START + c.1 + c.2.length

/-- The target ranges of two chunks do not overlap. -/
def chunksApart (c d : Nat × List Nat) : Prop := chunkHi c ≤ chunkLo d ∨ chunkHi d ≤ chunkLo c

/-- Memory after storing the bytes `bs` at `a`, `a + 1`, ... -/
def storeBytes (m : Mem) (a : Nat) : List Nat → Mem
  | [] => m
  | b :: bs => storeBytes (setByte m a b) (a + 1) bs

/-- The value of `heap_start` after a chunk has been loaded. -/
def chunkHs (hs : Nat) (c : Nat × List Nat) : Nat :=
  if c.2 = [] then hs else if chunkHi c > hs then chunkHi c else hs

/-- The state after two words were popped and the word `v` was pushed: `sp`
is two higher and `v` lies in the slot that held NOS; `mem` is otherwise
untouched. -/
def binResult (s : State) (v : Nat) : State :=
  { s with mem := setByte (setByte s.mem (s.sp + 4) ((v % 65536) &&& 0xff)) (s.sp + 3) ((v % 65536) >>> 8),
           sp := s.sp + 2 }

/-- The state after one word was popped and the word `v` was pushed: `sp` is
as before and `v` lies in the slot that held TOS. -/
def unResult (s : State) (v : Nat) : State :=
  { s with mem := setByte (setByte s.mem (s.sp + 2) ((v % 65536) &&& 0xff)) (s.sp + 1) ((v % 65536) >>> 8) }

/-- Every fatal fault of `x` carries an error number satisfying `P`. -/
def Faults {α : Type} (P : Nat → Prop) (x : M α) : Prop :=
  ∀ s s1, x s = Res.fatal s1 → P s1.err

/-- The same outcome with the program counter replaced. -/
def setPc (p : Nat) (r : Res Unit) : Res Unit :=
  match r with
  | Res.ok a s => Res.ok a { s with pc := p }
  | Res.fatal s => Res.fatal { s with pc := p }
  | Res.diverge => Res.diverge
  | Res.undefined => Res.undefined

/-- The state in which the dispatcher starts on the image given as an object
stream, on a quiet host without input. -/
def bootImage (image : String) : State :=
  stateOr ((loader (ascii image) >>= fun _ => interp_init) (boot quietHost [] false false))
    (boot quietHost [] false false)

/-- The first `n` rounds of the `while (run)` loop of `interp_run`: the state
they lead to; `none` when `run` is cleared before a round or a round does not
return. -/
def runSteps : Nat → State → Option State
  | 0, s => some s
  | n + 1, s =>
    if s.run then
      match interp_step s with
      | Res.ok _ s1 => runSteps n s1
      | _ => none
    else none

/-- The current level is untouched. -/
def SameLevel (s s1 : State) : Prop := s1.level = s.level

/-- The state after four rounds (`imm 0x170A; imm 0x20; stx 0,0; ret`) on the
image `0B 0A 17 0B 20 00 04 00 00 06`: the `stx` stores 0x20 at 0x170A, the
prev_level byte of the main program's activation record. -/
def afterRet : State :=
  (runSteps 4 (bootImage "0B0A170B200004000006$")).getD (boot quietHost [] false false)

/-- Memory after the first `t` rounds of the loop of `op_arg` with operand
`n`, entered with stack pointer `sp` and heap pointer `hp`: round `j` (counted
from 0) pops the byte at `sp + 1 + j` and stores it at `hp + 6 + (n - j)`. -/
def arg_copy (m : Mem) (hp sp n : Nat) : Nat → Mem
  | 0 => m
  | t + 1 => setByte (arg_copy m hp sp n t) (hp + 6 + (n - t)) (arg_copy m hp sp n t (sp + 1 + t)).val

/-- A state with the words 1 and 2 on the stack, `hp = 0x1800`, and `pc` at a
byte that holds 2 (the operand of an `arg 2`). -/
def argState : State := { stack2 1 2 with pc := 0x01fd, hp := 0x1800 }

/-- The words of a list pushed one after the other, the head first. -/
def push_all : List Nat → M Unit
  | [] => return ()
  | a :: rest => do
    push16 a
    push_all rest

/-- The dispatcher's start state on the image
`imm 0x1234; arg 1; cal 1,0x1710; exi`, with `pc` moved past the `imm`. -/
def argImage : State := { bootImage "0B34120A010502101700$" with pc := 0x1703 }

/-- That state with the word 0x1234 pushed. -/
def argPushed : State := stateOr (push_all [0x1234] argImage) argImage

/-- The bytes `mem[si], …, mem[si + k - 1]`, each masked with 0x7F. -/
def text_bytes (m : Mem) : Nat → Nat → List Nat
  | _, 0 => []
  | si, k + 1 => ((m si).val &&& 0x7f) :: text_bytes m (si + 1) k

/-- The state a run ended in, by returning or by a fatal fault. -/
def endState {α : Type} (r : Res α) : Option State :=
  match r with
  | Res.ok _ s => some s
  | Res.fatal s => some s
  | _ => none

/-- A state with `trap` set on a host whose `stdout` rejects every byte; the
stack holds device 0 and the string address 0x01FD, and `mem[0x01FD] = 0xFD`
has its high bit set. -/
def textFail : State :=
  { stack2 0 0x01fd with trap := true, host := { quietHost with stdout_ok := false } }

/-- A state with `trap` set whose stack holds the device number 7 (pushed
first) and the word 65. -/
def nullDev : State := { stack2 7 65 with trap := true }

/-- The globals after loading the image `imm 1; cml setrun; cml abort`. -/
def abortLoaded : State :=
  stateOr (loader (ascii "0B01000C590C50$") (boot quietHost [] false false))
    (boot quietHost [] false false)

/-- The state in which the dispatcher starts on that image. -/
def abortInit : State := stateOr (interp_init abortLoaded) abortLoaded

/-- The state in which the dispatcher ends on that image. -/
def abortEnd : State := ((interp_run 100 abortInit).bind endState).getD abortInit

/-- Whether a run left the behaviour that C defines. -/
def isUndefined {α : Type} (r : Res α) : Bool :=
  match r with
  | Res.undefined => true
  | _ => false

/-- The state after three rounds (`imm 0xFFFF; cml sethp; imm 0`) on the image
`0B FF FF 0C 55 0B 00 00 0A 00 00`: the next instruction is `arg 0`, `hp` is
0xFFFF and the stack holds one word. -/
def argStray : State :=
  (runSteps 3 (bootImage "0BFFFF0C550B00000A0000$")).getD (boot quietHost [] false false)

/-- A state with `trap` set on a host whose `stdout` accepts every byte; the
stack holds device 0 and the string address 0x01FD, and `mem[0x01FD] = 0xFD`
has its high bit set. -/
def textOk : State := { stack2 0 0x01fd with trap := true }

/-! ## Reasoning about `M` -/

theorem bind_apply {α β : Type} (x : M α) (f : α → M β) (s : State) :
    (x >>= f) s = match x s with
      | Res.ok a s1 => f a s1
      | Res.fatal s1 => Res.fatal s1
      | Res.diverge => Res.diverge
      | Res.undefined => Res.undefined := rfl

theorem pure_apply {α : Type} (a : α) (s : State) : (pure a : M α) s = Res.ok a s := rfl

theorem sat_pure {α : Type} {R : State → State → Prop} (hR : Chain R) (a : α) : Sat R (pure a : M α) := by
  intro s b s1 h
  rw [pure_apply] at h
  cases h
  exact hR.refl s

theorem sat_bind {α β : Type} {R : State → State → Prop} (hR : Chain R) {x : M α} {f : α → M β}
    (hx : Sat R x) (hf : ∀ a, Sat R (f a)) : Sat R (x >>= f) := by
  intro s b s2 h
  rw [bind_apply] at h
  cases hxs : x s with
  | ok a s1 =>
    rw [hxs] at h
    exact hR.trans _ _ _ (hx s a s1 hxs) (hf a s1 b s2 h)
  | fatal s1 => rw [hxs] at h; cases h
  | diverge => rw [hxs] at h; cases h
  | undefined => rw [hxs] at h; cases h

theorem sat_getState {R : State → State → Prop} (hR : Chain R) : Sat R getState := by
  intro s a s1 h
  cases h
  exact hR.refl s

theorem sat_modifyState {R : State → State → Prop} {f : State → State} (h : ∀ s, R s (f s)) :
    Sat R (modifyState f) := by
  intro s a s1 hs
  cases hs
  exact h s

theorem sat_fatal_error {α : Type} {R : State → State → Prop} (num : Nat) : Sat R (fatal_error num : M α) := by
  intro s a s1 h
  cases h

theorem sat_undefined {α : Type} {R : State → State → Prop} : Sat R (fun _ => Res.undefined : M α) := by
  intro s a s1 h
  cases h

theorem sat_mem_assign {R : State → State → Prop} (h : ∀ s m, R s { s with mem := m }) (a v : Nat) :
    Sat R (mem_assign a v) := by
  intro s b s1 hs
  unfold mem_assign at hs
  split at hs
  · cases hs; exact h s _
  · cases hs

theorem sat_call_write16 {R : State → State → Prop} (h : ∀ s m, R s { s with mem := m }) (a d : Nat) :
    Sat R (call_write16 a d) := by
  intro s b s1 hs
  unfold call_write16 at hs
  split at hs
  · cases hs; exact h s _
  · cases hs

theorem sat_runtime_error {R : State → State → Prop} (h : ∀ s n, R s { s with err := n }) (num : Nat) :
    Sat R (runtime_error num) := by
  intro s a s1 hs
  unfold runtime_error at hs
  split at hs
  · cases hs; exact h s num
  · cases hs

theorem getState_apply (s : State) : getState s = Res.ok s s := rfl
theorem modifyState_apply (f : State → State) (s : State) : modifyState f s = Res.ok () (f s) := rfl
theorem fetch8_apply (s : State) :
    fetch8 s = Res.ok (s.mem s.pc).val { s with pc := (s.pc + 1) % 65536 } := rfl

theorem mem_assign_in (a v : Nat) (s : State) (h : a < MAX_MEM) :
    mem_assign a v s = Res.ok () { s with mem := setByte s.mem a v } := by
  unfold mem_assign
  rw [if_pos h]

theorem mem_assign_out (a v : Nat) (s : State) (h : MAX_MEM ≤ a) :
    mem_assign a v s = Res.undefined := by
  unfold mem_assign
  rw [if_neg (Nat.not_lt.mpr h)]

theorem call_write16_in (a d : Nat) (s : State) (h : a % 65536 + 1 < MAX_MEM) :
    call_write16 a d s = Res.ok () { s with mem := write16 s.mem a d } := by
  unfold call_write16
  rw [if_pos h]

theorem call_write16_out (a d : Nat) (s : State) (h : MAX_MEM ≤ a % 65536 + 1) :
    call_write16 a d s = Res.undefined := by
  unfold call_write16
  rw [if_neg (Nat.not_lt.mpr h)]

theorem heap_push_8_ok (v : Nat) (s : State) (h : (s.sp : Int) < (s.heap_limit : Int) - 1) :
    heap_push_8 v s = Res.ok () { s with mem := setByte s.mem s.hp v, hp := (s.hp + 1) % 65536 } := by
  unfold heap_push_8
  rw [if_neg (by omega)]

theorem heap_push_16_ok (v : Nat) (s : State) (h : (s.sp : Int) < (s.heap_limit : Int) - 2)
    (hin : s.hp + 1 < 65536) :
    heap_push_16 v s = Res.ok () { s with mem := write16 s.mem s.hp v, hp := (s.hp + 2) % 65536 } := by
  unfold heap_push_16
  rw [if_neg (by omega), if_pos (by simp only [MAX_MEM]; omega)]

theorem toByte_val (v : Nat) : (toByte v).val = v % 256 := rfl

theorem setByte_same (m : Mem) (a v : Nat) : setByte m a v a = toByte v := by
  unfold setByte
  rw [if_pos rfl]

theorem setByte_other (m : Mem) (a v x : Nat) (h : x ≠ a) : setByte m a v x = m x := by
  unfold setByte
  rw [if_neg h]

theorem write16_lo (m : Mem) (a d : Nat) :
    write16 m a d (a % 65536) = toByte ((d % 65536) &&& 0xff) := by
  unfold write16
  rw [setByte_other _ _ _ _ (by omega), setByte_same]

theorem write16_hi (m : Mem) (a d : Nat) :
    write16 m a d (a % 65536 + 1) = toByte ((d % 65536) >>> 8) := by
  unfold write16
  rw [setByte_same]

theorem write16_other (m : Mem) (a d x : Nat) (h1 : x ≠ a % 65536) (h2 : x ≠ a % 65536 + 1) :
    write16 m a d x = m x := by
  unfold write16
  rw [setByte_other _ _ _ _ h2, setByte_other _ _ _ _ h1]

theorem low_byte (d : Nat) : d &&& 0xff = d % 256 := Nat.and_pow_two_sub_one_eq_mod d 8

theorem join_bytes (lo hi : Nat) (h : lo < 256) : lo ||| (hi <<< 8) = hi * 256 + lo := by
  rw [Nat.shiftLeft_eq, Nat.or_comm, Nat.mul_comm]
  exact (Nat.mul_add_lt_is_or (i := 8) h hi).symm

theorem read16_eq (m : Mem) (a : Nat) :
    read16 m a = (m (a % 65536 + 1)).val * 256 + (m (a % 65536)).val := by
  unfold read16
  exact join_bytes _ _ (m (a % 65536)).isLt

theorem read16_lt (m : Mem) (a : Nat) : read16 m a < 65536 := by
  rw [read16_eq]
  have h1 := (m (a % 65536 + 1)).isLt
  have h2 := (m (a % 65536)).isLt
  omega

theorem read16_write16 (m : Mem) (a d : Nat) : read16 (write16 m a d) a = d % 65536 := by
  rw [read16_eq, write16_lo, write16_hi, toByte_val, toByte_val, low_byte, Nat.shiftRight_eq_div_pow]
  omega

theorem read16_write16_other (m : Mem) (a b d : Nat) (h1 : b % 65536 ≠ a % 65536)
    (h2 : b % 65536 ≠ a % 65536 + 1) (h3 : b % 65536 + 1 ≠ a % 65536) :
    read16 (write16 m a d) b = read16 m b := by
  rw [read16_eq, read16_eq, write16_other _ _ _ _ h1 h2, write16_other _ _ _ _ (by omega) (by omega)]

theorem read16_setByte_other (m : Mem) (a v b : Nat) (h1 : b % 65536 ≠ a) (h2 : b % 65536 + 1 ≠ a) :
    read16 (setByte m a v) b = read16 m b := by
  rw [read16_eq, read16_eq, setByte_other _ _ _ _ h1, setByte_other _ _ _ _ h2]

theorem fetch_level_ok (s : State) (L : Nat) (hb : (s.mem s.pc).val = 2 * L) (hL : L < 8) :
    fetch_level s = Res.ok L { s with pc := (s.pc + 1) % 65536 } := by
  unfold fetch_level
  simp only [bind_apply, fetch8_apply, hb, Nat.and_one_is_mod, Nat.shiftRight_eq_div_pow]
  have h1 : 2 * L % 2 = 0 := by omega
  have h2 : 2 * L / 2 ^ 1 = L := by omega
  simp only [h1, h2, ne_eq, not_true_eq_false, if_false, MAX_LEVEL, ge_iff_le]
  rw [if_neg (by omega)]
  rfl

theorem fetch16_apply (s : State) :
    fetch16 s = Res.ok ((((s.mem ((s.pc + 1) % 65536)).val <<< 8) % 65536) ||| (s.mem s.pc).val)
      { s with pc := ((s.pc + 1) % 65536 + 1) % 65536 } := rfl

theorem do_call_fit (new_level target : Nat) (s : State) (h : (s.sp : Int) < (s.heap_limit : Int) - 2)
    (hfit : s.hp + 6 ≤ 0xFFFF) :
    do_call new_level target s = Res.ok ()
      { s with
        mem := setByte (write16 (write16 (setByte s.mem s.hp (s.level <<< 1)) (s.hp + 1)
                (s.display new_level)) (s.hp + 3) s.pc) (s.hp + 5) 0
        hp := s.hp + 6
        level := new_level
        display := fun l => if l = new_level then s.hp + 6 else s.display l
        pc := target % 65536 } := by
  have e1 : (s.hp + 1) % 65536 = s.hp + 1 := by omega
  have e3 : (s.hp + 1 + 2) % 65536 = s.hp + 3 := by omega
  have e5 : (s.hp + 3 + 2) % 65536 = s.hp + 5 := by omega
  have e6 : (s.hp + 5 + 1) % 65536 = s.hp + 6 := by omega
  unfold do_call
  simp only [bind_apply, getState_apply, modifyState_apply]
  rw [heap_push_8_ok _ _ (by omega)]
  simp only [e1]
  rw [heap_push_16_ok _ _ (by simpa using h) (by simp only []; omega)]
  simp only [e3]
  rw [heap_push_16_ok _ _ (by simpa using h) (by simp only []; omega)]
  simp only [e5]
  rw [heap_push_8_ok _ _ (by simp only []; omega)]
  simp only [e6]

theorem heap_pop_8_at (s : State) (h : Nat) (hs : s.hp = h + 1) (hstart : s.heap_start ≤ h)
    (hlt : h + 1 < 65536) :
    heap_pop_8 s = Res.ok (s.mem h).val { s with hp := h } := by
  unfold heap_pop_8
  have e : (s.hp + 65535) % 65536 = h := by omega
  rw [if_neg (by omega)]
  simp only [e]

theorem heap_pop_16_at (s : State) (h : Nat) (hs : s.hp = h + 2) (hstart : s.heap_start ≤ h)
    (hlt : h + 2 < 65536) :
    heap_pop_16 s = Res.ok (read16 s.mem h) { s with hp := h } := by
  unfold heap_pop_16
  have e : (s.hp + 65534) % 65536 = h := by omega
  rw [if_neg (by omega)]
  simp only [e]

theorem op_ret_ok (s : State) (h : Nat) (hd : s.display s.level = h + 6) (hstart : s.heap_start ≤ h)
    (hh : h + 6 < 65536) :
    op_ret s = Res.ok ()
      { s with hp := h, pc := read16 s.mem (h + 3), level := (s.mem h).val >>> 1,
               display := fun l => if l = s.level then read16 s.mem (h + 1) else s.display l } := by
  unfold op_ret
  simp only [bind_apply, modifyState_apply]
  rw [heap_pop_8_at _ (h + 5) (by exact hd) (by exact Nat.le_trans hstart (Nat.le_add_right h 5)) hh]
  simp only []
  rw [heap_pop_16_at _ (h + 3) (by rfl) (by exact Nat.le_trans hstart (Nat.le_add_right h 3))
    (by omega)]
  simp only []
  rw [heap_pop_16_at _ (h + 1) (by rfl) (by exact Nat.le_trans hstart (Nat.le_add_right h 1))
    (by omega)]
  simp only []
  rw [heap_pop_8_at _ h (by rfl) (by exact hstart) (by omega)]

theorem fetch16_value (b lo : Fin 256) : ((b.val <<< 8) % 65536) ||| lo.val = b.val * 256 + lo.val := by
  have h1 := b.isLt
  have h : b.val <<< 8 = b.val * 256 := Nat.shiftLeft_eq _ _
  have h3 := join_bytes lo.val b.val lo.isLt
  rw [h] at h3
  rw [h, Nat.mod_eq_of_lt (by omega), Nat.or_comm]
  exact h3

/-- The pair `cal L,T`, `ret` in a state that passes the test the heap pushes
make (`sp < heap_limit - 2`): `cal` returns with `pc = T` and `level = L`, and
a `ret` executed next returns with `pc` just after the operands of the `cal`
and with `sp`, `hp`, `level` and the whole display as before the `cal`. -/
theorem cal_ret_pair (s : State) (L T : Nat)
    (hlevel : s.level < 8) (hL : L < 8) (hdisp : s.display L < 65536)
    (hlv : (s.mem s.pc).val = 2 * L)
    (hT : (s.mem ((s.pc + 2) % 65536)).val * 256 + (s.mem ((s.pc + 1) % 65536)).val = T)
    (hstart : s.heap_start ≤ s.hp) (hfit : s.hp + 6 ≤ 0xFFFF)
    (hsp : (s.sp : Int) < (s.heap_limit : Int) - 2) :
    ∃ s1 s2, op_cal s = Res.ok () s1 ∧ s1.pc = T ∧ s1.level = L ∧
      op_ret s1 = Res.ok () s2 ∧
      s2.pc = (s.pc + 3) % 65536 ∧ s2.sp = s.sp ∧ s2.hp = s.hp ∧ s2.level = s.level ∧
      s2.display = s.display := by
  have hcal : op_cal s = do_call L T { s with pc := (s.pc + 3) % 65536 } := by
    unfold op_cal
    simp only [bind_apply]
    rw [fetch_level_ok s L hlv hL]
    simp only [fetch16_apply, fetch16_value]
    have e2 : ((s.pc + 1) % 65536 + 1) % 65536 = (s.pc + 2) % 65536 := by omega
    have e3 : ((s.pc + 2) % 65536 + 1) % 65536 = (s.pc + 3) % 65536 := by omega
    simp only [e2, e3, hT]
  have hTlt : T < 65536 := by
    have h1 := (s.mem ((s.pc + 2) % 65536)).isLt
    have h2 := (s.mem ((s.pc + 1) % 65536)).isLt
    omega
  obtain ⟨s1, h1, hmem, hhp, hlev, hdsp, hpc, hsp1, hst⟩ :
      ∃ s1 : State, do_call L T { s with pc := (s.pc + 3) % 65536 } = Res.ok () s1 ∧
        s1.mem = setByte (write16 (write16 (setByte s.mem s.hp (s.level <<< 1)) (s.hp + 1)
          (s.display L)) (s.hp + 3) ((s.pc + 3) % 65536)) (s.hp + 5) 0 ∧
        s1.hp = s.hp + 6 ∧ s1.level = L ∧
        s1.display = (fun l => if l = L then s.hp + 6 else s.display l) ∧
        s1.pc = T % 65536 ∧ s1.sp = s.sp ∧ s1.heap_start = s.heap_start :=
    ⟨_, do_call_fit L T _ (by exact hsp) (by exact hfit), rfl, rfl, rfl, rfl, rfl, rfl, rfl⟩
  have hd1 : s1.display s1.level = s.hp + 6 := by rw [hdsp, hlev]; exact if_pos rfl
  refine ⟨s1, _, hcal.trans h1, hpc.trans (Nat.mod_eq_of_lt hTlt), hlev,
    op_ret_ok s1 s.hp hd1 (by omega) (by omega), ?_, hsp1, rfl, ?_, ?_⟩
  · show read16 s1.mem (s.hp + 3) = (s.pc + 3) % 65536
    rw [hmem, read16_setByte_other _ _ _ _ (by omega) (by omega), read16_write16]
    omega
  · show (s1.mem s.hp).val >>> 1 = s.level
    rw [hmem, setByte_other _ _ _ _ (by omega), write16_other _ _ _ _ (by omega) (by omega),
      write16_other _ _ _ _ (by omega) (by omega), setByte_same, toByte_val, Nat.shiftLeft_eq,
      Nat.shiftRight_eq_div_pow]
    omega
  · funext l
    show (if l = s1.level then read16 s1.mem (s.hp + 1) else s1.display l) = s.display l
    rw [hmem, hdsp, hlev, read16_setByte_other _ _ _ _ (by omega) (by omega),
      read16_write16_other _ _ _ _ (by omega) (by omega) (by omega), read16_write16,
      Nat.mod_eq_of_lt hdisp]
    by_cases h : l = L
    · rw [if_pos h, h]
    · simp only [if_neg h]

/-- C1. In every machine state (`sp` at most `0x01FF`, where `interp` puts it
and the guards of the stack primitives keep it; `heap_limit = 0x5FFF`, as
`main` sets it) with level in 0..7 whose `pc` points at the operands of
`cal L,T` (level byte `2L` with `L` in 0..7, then `T`), if `heap_start ≤ hp`
and `hp + 6 ≤ 0xFFFF`, then `cal` returns with `pc = T` and `level = L`, and a
`ret` executed next returns with `pc` just after the operands of the `cal` and
with `sp`, `hp`, `level` and the whole display as before the `cal`. -/
theorem cal_ret_restores (s : State) (L T : Nat)
    (hlevel : s.level < 8) (hL : L < 8) (hdisp : s.display L < 65536)
    (hlv : (s.mem s.pc).val = 2 * L)
    (hT : (s.mem ((s.pc + 2) % 65536)).val * 256 + (s.mem ((s.pc + 1) % 65536)).val = T)
    (hstart : s.heap_start ≤ s.hp) (hfit : s.hp + 6 ≤ 0xFFFF)
    (hsp : s.sp ≤ 0x01ff) (hlim : s.heap_limit = 0x5fff) :
    ∃ s1 s2, op_cal s = Res.ok () s1 ∧ s1.pc = T ∧ s1.level = L ∧
      op_ret s1 = Res.ok () s2 ∧
      s2.pc = (s.pc + 3) % 65536 ∧ s2.sp = s.sp ∧ s2.hp = s.hp ∧ s2.level = s.level ∧
      s2.display = s.display :=
  cal_ret_pair s L T hlevel hL hdisp hlv hT hstart hfit (by rw [hlim]; omega)

theorem cal_ret_restores_witness :
    ∃ s1 s2, op_cal (calState 0x01ff) = Res.ok () s1 ∧ s1.pc = 0x1234 ∧ s1.level = 1 ∧
      op_ret s1 = Res.ok () s2 ∧
      s2.pc = ((calState 0x01ff).pc + 3) % 65536 ∧ s2.sp = (calState 0x01ff).sp ∧
      s2.hp = (calState 0x01ff).hp ∧ s2.level = (calState 0x01ff).level ∧
      s2.display = (calState 0x01ff).display :=
  cal_ret_restores (calState 0x01ff) 1 0x1234 (by decide) (by decide) (by decide) (by decide)
    (by decide) (by decide) (by decide) (by decide) (by decide)

theorem frame_chain : Chain Frame :=
  ⟨fun _ => ⟨rfl, rfl, rfl⟩,
   fun _ _ _ h1 h2 => ⟨h2.1.trans h1.1, h2.2.1.trans h1.2.1, h2.2.2.trans h1.2.2⟩⟩

theorem frame_of_eq {s s1 : State} (h0 : s1.hp = s.hp) (h1 : s1.heap_start = s.heap_start)
    (h2 : s1.heap_limit = s.heap_limit) : Frame s s1 := ⟨h0, h1, h2⟩

theorem frame_pop8 : Sat Frame pop8 := by
  intro s a s1 h
  unfold pop8 at h
  split at h <;> cases h
  exact ⟨rfl, rfl, rfl⟩

theorem frame_pop16 : Sat Frame pop16 := by
  intro s a s1 h
  unfold pop16 at h
  split at h <;> cases h
  exact ⟨rfl, rfl, rfl⟩

theorem frame_push16 (v : Nat) : Sat Frame (push16 v) := by
  intro s a s1 h
  unfold push16 at h
  split at h <;> cases h
  exact ⟨rfl, rfl, rfl⟩

theorem frame_peek_tos16 : Sat Frame peek_tos16 := by
  intro s a s1 h
  cases h
  exact ⟨rfl, rfl, rfl⟩

theorem frame_fetch8 : Sat Frame fetch8 := by
  intro s a s1 h
  cases h
  exact ⟨rfl, rfl, rfl⟩

theorem frame_fgetc_stdin : Sat Frame fgetc_stdin := by
  intro s a s1 h
  unfold fgetc_stdin at h
  split at h <;> cases h <;> exact ⟨rfl, rfl, rfl⟩

theorem frame_fgetc_disk (f : List Nat) : Sat Frame (fgetc_disk f) := by
  intro s a s1 h
  unfold fgetc_disk at h
  split at h <;> cases h <;> exact ⟨rfl, rfl, rfl⟩

theorem frame_fputc_stdout (c : Nat) : Sat Frame (fputc_stdout c) := by
  intro s a s1 h
  unfold fputc_stdout at h
  split at h <;> cases h <;> exact ⟨rfl, rfl, rfl⟩

theorem frame_fputc_disk (f : List Nat) (c : Nat) : Sat Frame (fputc_disk f c) := by
  intro s a s1 h
  unfold fputc_disk at h
  split at h <;> cases h <;> exact ⟨rfl, rfl, rfl⟩

theorem frame_fprintf_stdout (l : List Nat) : Sat Frame (fprintf_stdout l) := by
  induction l with
  | nil => exact sat_pure frame_chain ()
  | cons c rest ih =>
    unfold fprintf_stdout
    exact sat_bind frame_chain (frame_fputc_stdout c) (fun _ => ih)

theorem frame_err (s : State) (n : Nat) : Frame s { s with err := n } := ⟨rfl, rfl, rfl⟩

theorem frame_op_arg_loop (count left : Nat) : Sat Frame (op_arg_loop count left) := by
  induction left with
  | zero => exact sat_pure frame_chain ()
  | succ n ih =>
    unfold op_arg_loop
    repeat (first
      | exact frame_pop8
      | exact ih
      | exact sat_getState frame_chain
      | exact sat_mem_assign (fun _ _ => frame_of_eq rfl rfl rfl) _ _
      | refine sat_bind frame_chain ?_ (fun _ => ?_))

theorem frame_text_loop (n si : Nat) : Sat Frame (text_loop n si) := by
  induction n generalizing si with
  | zero => intro s a s1 h; cases h
  | succ n ih =>
    unfold text_loop
    repeat (first
      | exact frame_fputc_stdout _
      | exact ih _
      | exact sat_getState frame_chain
      | exact sat_pure frame_chain _
      | exact sat_runtime_error frame_err _
      | refine sat_bind frame_chain ?_ (fun _ => ?_)
      | split
      | dsimp only)

theorem hpKeeps_of_frame {α : Type} {x : M α} (h : Sat Frame x) : Sat HpKeeps x := by
  intro s a s1 hx
  obtain ⟨h1, h2, h3⟩ := h s a s1 hx
  refine ⟨h2, h3, fun _ hb => ?_⟩
  unfold HpOK at *
  rw [h1, h2, h3]
  exact hb

theorem hpKeeps_reserve : Sat HpKeeps intrinsic_reserve := by
  intro s a s2 h
  unfold intrinsic_reserve at h
  simp only [bind_apply, getState_apply] at h
  cases hp : pop16 s with
  | ok size s1 =>
    obtain ⟨f1, f2, f3⟩ := frame_pop16 s size s1 hp
    rw [hp] at h
    simp only [] at h
    split at h
    · cases h
    · next hle =>
      simp only [bind_apply, modifyState_apply] at h
      obtain ⟨g1, g2, g3⟩ := frame_push16 _ _ _ _ h
      refine ⟨g2.trans f2, g3.trans f3, fun hl hb => ?_⟩
      unfold HpOK at *
      rw [g1, g2, g3, f2, f3]
      show s.heap_start ≤ (s1.hp + size) % 65536 ∧ (s1.hp + size) % 65536 ≤ s.heap_limit
      rw [f1]
      omega
  | fatal s1 => rw [hp] at h; cases h
  | diverge => rw [hp] at h; cases h
  | undefined => rw [hp] at h; cases h

theorem hpKeeps_intrinsic (inum : Nat) (fn : M Unit) (h : intrinsic inum = some fn)
    (hne : inum ≠ 0x15) : Sat HpKeeps fn := by
  unfold intrinsic at h
  split at h <;> cases h
  case h_4 => exact hpKeeps_reserve
  case h_22 => exact absurd rfl hne
  all_goals
    apply hpKeeps_of_frame
    simp only [intrinsic_abs, intrinsic_ran, intrinsic_rem, intrinsic_swap,
      intrinsic_extend, intrinsic_restart, intrinsic_chin, intrinsic_chout, intrinsic_crlf,
      intrinsic_numin, intrinsic_numout, intrinsic_text, intrinsic_openi, intrinsic_openo,
      intrinsic_close, intrinsic_abort, intrinsic_trap, intrinsic_space, intrinsic_rerun,
      intrinsic_gethp, intrinsic_errflg, intrinsic_cursor, intrinsic_setrun,
      intrinsic_hexin, intrinsic_hexout, chin_finish]
    repeat (with_reducible first
      | exact frame_pop16
      | exact frame_push16 _
      | exact frame_fgetc_stdin
      | exact frame_fgetc_disk _
      | exact frame_fputc_stdout _
      | exact frame_fputc_disk _ _
      | exact frame_fprintf_stdout _
      | exact frame_text_loop _ _
      | exact sat_getState frame_chain
      | exact sat_pure frame_chain _
      | exact sat_fatal_error _
      | exact sat_undefined
      | exact sat_runtime_error frame_err _
      | exact sat_modifyState (fun _ => frame_of_eq rfl rfl rfl)
      | refine sat_bind frame_chain ?_ (fun _ => ?_)
      | split
      | dsimp only)

theorem stateOr_spec (x : M Unit) (s : State) (h : isOk (x s) = true) :
    x s = Res.ok () (stateOr (x s) s) := by
  cases hx : x s with
  | ok a s1 => rfl
  | fatal s1 => rw [hx] at h; cases h
  | diverge => rw [hx] at h; cases h
  | undefined => rw [hx] at h; cases h

theorem reachable_bootImage (image : String)
    (h : isOk ((loader (ascii image) >>= fun _ => interp_init) (boot quietHost [] false false)) = true) :
    Reachable (bootImage image) := by
  unfold bootImage
  rw [bind_apply] at h ⊢
  cases hl : loader (ascii image) (boot quietHost [] false false) with
  | ok log s0 =>
    rw [hl] at h
    dsimp only at h ⊢
    cases hi : interp_init s0 with
    | ok a s1 =>
      exact Reachable.start s0 s1 hi
    | fatal s1 => rw [hi] at h; cases h
    | diverge => rw [hi] at h; cases h
    | undefined => rw [hi] at h; cases h
  | fatal s1 => rw [hl] at h; cases h
  | diverge => rw [hl] at h; cases h
  | undefined => rw [hl] at h; cases h

theorem reachable_runSteps (n : Nat) (s s1 : State) (hr : Reachable s)
    (h : runSteps n s = some s1) : Reachable s1 := by
  induction n generalizing s with
  | zero =>
    cases h
    exact hr
  | succ n ih =>
    unfold runSteps at h
    by_cases hrun : s.run = true
    · rw [if_pos hrun] at h
      cases hi : interp_step s with
      | ok a s2 =>
        rw [hi] at h
        exact ih s2 (Reachable.step s s2 hr hrun hi) h
      | fatal s2 => rw [hi] at h; cases h
      | diverge => rw [hi] at h; cases h
      | undefined => rw [hi] at h; cases h
    · rw [if_neg hrun] at h
      cases h

theorem getD_some (o : Option State) (d : State) (h : o.isSome = true) : o = some (o.getD d) := by
  cases o with
  | none => cases h
  | some a => rfl

theorem undefined_spec {α : Type} (r : Res α) (h : isUndefined r = true) : r = Res.undefined := by
  cases r with
  | ok a s1 => cases h
  | fatal s1 => cases h
  | diverge => cases h
  | undefined => rfl

theorem undefined_not_ok {α : Type} (r : Res α) (h : r = Res.undefined) :
    ¬ ((∃ a s1, r = Res.ok a s1) ∨ (∃ s1, r = Res.fatal s1)) := by
  intro hx
  rcases hx with ⟨a, s1, h1⟩ | ⟨s1, h1⟩
  · rw [h] at h1; cases h1
  · rw [h] at h1; cases h1

theorem hpKeeps_pc (s s1 : State) (p : Nat) (h : HpKeeps { s with pc := p } s1) : HpKeeps s s1 := by
  unfold HpKeeps HpOK at *
  exact h

theorem hpKeeps_cml (s s1 : State) (h : op_cml s = Res.ok () s1) (hb : (s.mem s.pc).val ≠ 0x55) :
    HpKeeps s s1 := by
  unfold op_cml at h
  rw [bind_apply, fetch8_apply] at h
  dsimp only at h
  by_cases hr : (((s.mem s.pc).val : Nat) : Int) - (INTRINSIC_OFFSET : Int) < 0 ∨
      (((s.mem s.pc).val : Nat) : Int) - (INTRINSIC_OFFSET : Int) ≥ (INTRINSIC_MAX : Int)
  · rw [if_pos hr] at h; cases h
  · rw [if_neg hr] at h
    generalize hi : intrinsic ((((s.mem s.pc).val : Nat) : Int) - (INTRINSIC_OFFSET : Int)).toNat = r at h
    cases r with
    | none => cases h
    | some fn =>
      have e1 : (INTRINSIC_OFFSET : Int) = 64 := rfl
      have e2 : (INTRINSIC_MAX : Int) = 128 := rfl
      exact hpKeeps_pc _ _ _ (hpKeeps_intrinsic _ fn hi (by omega) _ _ _ h)

theorem hpKeeps_op (opcode : Nat) (fn : M Unit) (h : (op opcode).1 = some fn)
    (h5 : opcode ≠ 0x05) (h6 : opcode ≠ 0x06) (h9 : opcode ≠ 0x09) (hc : opcode ≠ 0x0c) :
    Sat HpKeeps fn := by
  unfold op at h
  split at h <;> cases h
  case h_6 => exact absurd rfl h5
  case h_7 => exact absurd rfl h6
  case h_10 => exact absurd rfl h9
  case h_13 => exact absurd rfl hc
  all_goals
    apply hpKeeps_of_frame
    simp only [op_exit, op_lod, op_ldx, op_sto, op_stx, op_jmp, op_jpc,
      op_arg, op_imm, op_add, op_sub, op_muy, op_div, op_neg, op_eq, op_ne, op_ge, op_gt,
      op_le, op_lt, op_for, op_inc, op_or, op_and, op_not, op_dupcat, op_dba, op_std, op_dbi,
      op_adr, op_ldi, op_lda, op_ims, op_cjp, op_jsr, op_rts, op_drp, op_ecl,
      fetch16, fetch_level]
    repeat (with_reducible first
      | exact frame_pop16
      | exact frame_push16 _
      | exact frame_peek_tos16
      | exact frame_fetch8
      | exact frame_op_arg_loop _ _
      | exact sat_getState frame_chain
      | exact sat_pure frame_chain _
      | exact sat_fatal_error _
      | exact sat_mem_assign (fun _ _ => frame_of_eq rfl rfl rfl) _ _
      | exact sat_call_write16 (fun _ _ => frame_of_eq rfl rfl rfl) _ _
      | exact sat_modifyState (fun _ => frame_of_eq rfl rfl rfl)
      | refine sat_bind frame_chain ?_ (fun _ => ?_)
      | split
      | dsimp only)

/-- C3, amended. A round of the dispatcher that returns (without a fault and
with all its stores inside `mem`), started with `heap_start ≤ hp ≤ heap_limit`,
ends with `heap_start ≤ hp ≤ heap_limit` and the same two bounds, provided the
instruction is not `cal` (0x05), `ret` (0x06), `hpi` (0x09) or `cml sethp`
(0x0c 0x55): those four set `hp` without comparing it with the bounds. -/
theorem hp_bounds_kept (s s1 : State) (h : interp_step s = Res.ok () s1)
    (hlim : s.heap_limit < 65536) (hlo : s.heap_start ≤ s.hp) (hhi : s.hp ≤ s.heap_limit)
    (h5 : (s.mem s.pc).val ≠ 0x05) (h6 : (s.mem s.pc).val ≠ 0x06) (h9 : (s.mem s.pc).val ≠ 0x09)
    (hc : (s.mem s.pc).val = 0x0c → (s.mem ((s.pc + 1) % 65536)).val ≠ 0x55) :
    s1.heap_start = s.heap_start ∧ s1.heap_limit = s.heap_limit ∧
      s1.heap_start ≤ s1.hp ∧ s1.hp ≤ s1.heap_limit := by
  have key : HpKeeps s s1 := by
    unfold interp_step at h
    rw [bind_apply, fetch8_apply] at h
    dsimp only at h
    by_cases hb : class_bytes (if (s.mem s.pc).val ≥ 128 then CLASS_NO_OPERAND else (op (s.mem s.pc).val).2) = 0
    · rw [if_pos hb] at h; cases h
    · rw [if_neg hb] at h
      by_cases hs : (s.mem s.pc).val ≥ 128
      · rw [if_pos hs] at h
        exact hpKeeps_pc _ _ _ (hpKeeps_of_frame (sat_bind frame_chain (sat_getState frame_chain)
          (fun _ => frame_push16 _)) _ _ _ h)
      · rw [if_neg hs] at h
        generalize hi : (op (s.mem s.pc).val).1 = r at h
        cases r with
        | none => cases h
        | some fn =>
          by_cases hcm : (s.mem s.pc).val = 0x0c
          · rw [hcm] at hi
            cases hi
            exact hpKeeps_pc _ _ _ (hpKeeps_cml _ s1 h (hc hcm))
          · exact hpKeeps_pc _ _ _ (hpKeeps_op _ fn hi h5 h6 h9 hcm _ _ _ h)
  exact ⟨key.1, key.2.1, key.2.2 hlim ⟨hlo, hhi⟩⟩

theorem hp_bounds_kept_witness :
    afterImm.heap_start = afterInit.heap_start ∧ afterImm.heap_limit = afterInit.heap_limit ∧
      afterImm.heap_start ≤ afterImm.hp ∧ afterImm.hp ≤ afterImm.heap_limit :=
  hp_bounds_kept afterInit afterImm rfl (by decide!) (by decide!) (by decide!) (by decide!)
    (by decide!) (by decide!) (by decide!)

/-- C3 as stated fails: the image `imm 0; cml sethp` runs two rounds without
any fault and reaches a state with `hp = 0`, below `heap_start = 0x1706`. -/
theorem hp_bounds_counterexample :
    Reachable afterSethp ∧ afterSethp.heap_start = 0x1706 ∧ afterSethp.hp = 0 ∧
      ¬ (afterSethp.heap_start ≤ afterSethp.hp ∧ afterSethp.hp ≤ afterSethp.heap_limit) :=
  ⟨Reachable.step sethpImm afterSethp
      (Reachable.step sethpInit sethpImm
        (reachable_bootImage "0B00000C5500$" (by decide!))
        (by decide!) (stateOr_spec interp_step sethpInit (by decide!)))
      (by decide!) (stateOr_spec interp_step sethpImm (by decide!)),
    by decide!, by decide!, by decide!⟩

theorem peek_tos16_apply (s : State) : peek_tos16 s = Res.ok (tos16 s) s := rfl

theorem tos16_eq (s : State) : tos16 s = (s.mem (s.sp + 1)).val * 256 + (s.mem (s.sp + 2)).val :=
  fetch16_value _ _

theorem nos16_eq (s : State) : nos16 s = (s.mem (s.sp + 3)).val * 256 + (s.mem (s.sp + 4)).val :=
  fetch16_value _ _

theorem tos16_lt (s : State) : tos16 s < 65536 := by
  rw [tos16_eq]
  have h1 := (s.mem (s.sp + 1)).isLt
  have h2 := (s.mem (s.sp + 2)).isLt
  omega

theorem pop16_ok (s : State) (h : s.sp < 0x01fe) :
    pop16 s = Res.ok (tos16 s) { s with sp := s.sp + 2 } := by
  unfold pop16
  have e1 : (s.sp + 1) % 65536 = s.sp + 1 := by omega
  have e2 : (s.sp + 1 + 1) % 65536 = s.sp + 2 := by omega
  rw [if_neg (by simp only [INITIAL_STACK]; omega)]
  simp only [e1, e2]
  rfl

theorem push16_ok (v : Nat) (s : State) (h1 : 0x0102 ≤ s.sp) (h2 : s.sp < 65536) :
    push16 v s = Res.ok ()
      { s with mem := setByte (setByte s.mem s.sp ((v % 65536) &&& 0xff)) (s.sp - 1) ((v % 65536) >>> 8),
               sp := s.sp - 2 } := by
  unfold push16
  have e1 : (s.sp + 65535) % 65536 = s.sp - 1 := by omega
  have e2 : (s.sp - 1 + 65535) % 65536 = s.sp - 2 := by omega
  rw [if_neg (by simp only [STACK_MIN]; omega)]
  simp only [e1, e2]

theorem tos16_pushed (m : Mem) (sp v : Nat) (s : State) (h1 : 0x0102 ≤ sp)
    (hm : s.mem = setByte (setByte m sp ((v % 65536) &&& 0xff)) (sp - 1) ((v % 65536) >>> 8))
    (hsp : s.sp = sp - 2) : tos16 s = v % 65536 := by
  have e1 : sp - 2 + 1 = sp - 1 := by omega
  have e2 : sp - 2 + 2 = sp := by omega
  rw [tos16_eq, hm, hsp, e1, e2, setByte_same, setByte_other _ _ _ _ (by omega), setByte_same, toByte_val,
    toByte_val, low_byte, Nat.shiftRight_eq_div_pow]
  omega

theorem toInt16_u16 (q : Int) (h1 : -32768 ≤ q) (h2 : q ≤ 32767) : toInt16 (u16 q) = q := by
  unfold toInt16 u16
  have h3 : ((q % 65536).toNat : Int) = q % 65536 := Int.toNat_of_nonneg (Int.emod_nonneg _ (by decide))
  split
  · omega
  · omega

theorem toInt16_range (v : Nat) : -32768 ≤ toInt16 v ∧ toInt16 v ≤ 32767 := by
  unfold toInt16
  split <;> omega

theorem tmod_range (a b : Int) (h1 : -32768 ≤ a) (h2 : a ≤ 32767) :
    -32768 ≤ Int.tmod a b ∧ Int.tmod a b ≤ 32767 := by
  rcases a with m | m <;> rcases b with n | n
  · have := Nat.mod_le m n
    show -32768 ≤ ((m % n : Nat) : Int) ∧ ((m % n : Nat) : Int) ≤ 32767
    have h3 : (Int.ofNat m) = (m : Int) := rfl
    omega
  · have := Nat.mod_le m (n + 1)
    show -32768 ≤ ((m % (n + 1) : Nat) : Int) ∧ ((m % (n + 1) : Nat) : Int) ≤ 32767
    have h3 : (Int.ofNat m) = (m : Int) := rfl
    omega
  · have := Nat.mod_le (m + 1) n
    show -32768 ≤ -((((m + 1) % n : Nat)) : Int) ∧ -((((m + 1) % n : Nat)) : Int) ≤ 32767
    have h3 : Int.negSucc m = -((m : Int) + 1) := rfl
    omega
  · have := Nat.mod_le (m + 1) (n + 1)
    show -32768 ≤ -((((m + 1) % (n + 1) : Nat)) : Int) ∧ -((((m + 1) % (n + 1) : Nat)) : Int) ≤ 32767
    have h3 : Int.negSucc m = -((m : Int) + 1) := rfl
    omega

theorem tdiv_range (a b : Int) (h1 : -32768 ≤ a) (h2 : a ≤ 32767) :
    -32768 ≤ Int.tdiv a b ∧ Int.tdiv a b ≤ 32768 := by
  have h := Int.natAbs_tdiv a b
  have h3 : a.natAbs / b.natAbs ≤ a.natAbs := Nat.div_le_self _ _
  have h4 : a.natAbs.div b.natAbs = a.natAbs / b.natAbs := rfl
  omega

theorem tdiv_top (a b : Int) (h1 : -32768 ≤ a) (h2 : a ≤ 32767) (hb : b ≠ 0)
    (hq : Int.tdiv a b = 32768) : a = -32768 ∧ b = -1 := by
  have h := Int.natAbs_tdiv a b
  have h4 : a.natAbs.div b.natAbs = a.natAbs / b.natAbs := rfl
  have h3 : a.natAbs / b.natAbs ≤ a.natAbs := Nat.div_le_self _ _
  have ha : a = -32768 := by omega
  have hb1 : b.natAbs = 1 := by
    by_contra hne
    have h5 : 2 ≤ b.natAbs := by omega
    have h6 : a.natAbs / b.natAbs ≤ a.natAbs / 2 := Nat.div_le_div_left h5 (by decide)
    omega
  refine ⟨ha, ?_⟩
  rcases Int.natAbs_eq b with hb2 | hb2
  · rw [hb1] at hb2
    rw [hb2, ha] at hq
    exact absurd hq (by decide)
  · rw [hb1] at hb2
    exact hb2

theorem tos16_after_pop (s : State) : tos16 { s with sp := s.sp + 2 } = nos16 s := by
  unfold tos16 nos16
  rfl

theorem op_div_apply (s : State) (h : s.sp + 4 ≤ 0x01ff) :
    op_div s =
      (if toInt16 (tos16 s) = 0 then fatal_error ERR_DIVISION_BY_ZERO
       else do
         push16 (u16 (Int.tdiv (toInt16 (nos16 s)) (toInt16 (tos16 s))))
         modifyState fun s1 =>
           { s1 with div_remainder := toInt16 (u16 (Int.tmod (toInt16 (nos16 s)) (toInt16 (tos16 s)))) })
        { s with sp := s.sp + 4 } := by
  unfold op_div
  rw [bind_apply, pop16_ok s (by omega)]
  dsimp only
  rw [bind_apply, pop16_ok _ (by show s.sp + 2 < 0x01fe; omega), tos16_after_pop]

theorem op_div_zero (s : State) (h : s.sp + 4 ≤ 0x01ff) (hz : tos16 s = 0) :
    op_div s = Res.fatal { s with sp := s.sp + 4, err := ERR_DIVISION_BY_ZERO, run := false } := by
  rw [op_div_apply s h, hz, if_pos (by decide)]
  rfl

theorem op_div_ok (s : State) (hsp1 : 0x0100 ≤ s.sp) (hsp2 : s.sp + 4 ≤ 0x01ff)
    (hb0 : toInt16 (tos16 s) ≠ 0) :
    op_div s = Res.ok ()
      { s with
        mem := setByte (setByte s.mem (s.sp + 4)
                 ((u16 (Int.tdiv (toInt16 (nos16 s)) (toInt16 (tos16 s))) % 65536) &&& 0xff))
                 (s.sp + 4 - 1) ((u16 (Int.tdiv (toInt16 (nos16 s)) (toInt16 (tos16 s))) % 65536) >>> 8)
        sp := s.sp + 4 - 2
        div_remainder := toInt16 (u16 (Int.tmod (toInt16 (nos16 s)) (toInt16 (tos16 s)))) } := by
  have hpush := push16_ok (u16 (Int.tdiv (toInt16 (nos16 s)) (toInt16 (tos16 s)))) { s with sp := s.sp + 4 }
    (by show 0x0102 ≤ s.sp + 4; omega) (by show s.sp + 4 < 65536; omega)
  rw [op_div_apply s hsp2, if_neg hb0, bind_apply, hpush]
  rfl

/-- C5. In every state whose stack holds at least two 16-bit values with
TOS equal to 0, `div` raises the fatal fault `DIVISION_BY_ZERO`: `err` becomes
1, `run` is cleared, both operands have been popped and nothing is pushed
(`mem` is untouched), and `div_remainder` is unchanged.  The image
`imm 0; imm 1; imm 0; div` ends with exit status 1. -/
theorem div_by_zero_fatal (s : State) (h : s.sp + 4 ≤ 0x01ff) (hz : tos16 s = 0) :
    (∃ s1, op_div s = Res.fatal s1 ∧ s1.err = 1 ∧ s1.run = false ∧ s1.sp = s.sp + 4 ∧
      s1.mem = s.mem ∧ s1.div_remainder = s.div_remainder) ∧
    (main 100 1 (ascii "0B00000B01000B000010$") (boot quietHost [] false false)).map (fun r => r.1)
      = some 1 := by
  exact ⟨⟨_, op_div_zero s h hz, rfl, rfl, rfl, rfl, rfl⟩, by decide!⟩

theorem div_by_zero_fatal_witness :
    (∃ s1, op_div (stack2 1 0) = Res.fatal s1 ∧ s1.err = 1 ∧ s1.run = false ∧
      s1.sp = (stack2 1 0).sp + 4 ∧ s1.mem = (stack2 1 0).mem ∧
      s1.div_remainder = (stack2 1 0).div_remainder) ∧
    (main 100 1 (ascii "0B00000B01000B000010$") (boot quietHost [] false false)).map (fun r => r.1)
      = some 1 :=
  div_by_zero_fatal (stack2 1 0) (by decide) (by decide)

/-- C4, amended. With signed 16-bit values `a` in NOS and `b ≠ 0` in TOS (the
stack inside its page), `div` returns having popped both and pushed one word.
That word, read as a signed 16-bit integer, is `a / b` truncated toward zero,
except for `a = -32768`, `b = -1`, where the quotient 32768 does not fit in 16
bits and the word reads -32768.  In every case `div_remainder` is the C
remainder: `(a / b) * b + div_remainder = a` with the exact quotient. -/
theorem div_quotient_remainder (s : State) (a b : Int)
    (hsp1 : 0x0100 ≤ s.sp) (hsp2 : s.sp + 4 ≤ 0x01ff)
    (ha : toInt16 (nos16 s) = a) (hb : toInt16 (tos16 s) = b) (hb0 : b ≠ 0) :
    ∃ s1, op_div s = Res.ok () s1 ∧ s1.sp = s.sp + 2 ∧
      toInt16 (tos16 s1) = (if a = -32768 ∧ b = -1 then -32768 else Int.tdiv a b) ∧
      Int.tdiv a b * b + s1.div_remainder = a := by
  have hra := toInt16_range (nos16 s)
  rw [ha] at hra
  have hq := tdiv_range a b hra.1 hra.2
  have hr := tmod_range a b hra.1 hra.2
  have hu : u16 (Int.tdiv a b) < 65536 := by
    unfold u16
    omega
  have hb1 : toInt16 (tos16 s) ≠ 0 := by rw [hb]; exact hb0
  refine ⟨_, op_div_ok s hsp1 hsp2 hb1, ?_, ?_, ?_⟩
  · show s.sp + 4 - 2 = s.sp + 2
    omega
  · rw [tos16_pushed s.mem (s.sp + 4) (u16 (Int.tdiv (toInt16 (nos16 s)) (toInt16 (tos16 s)))) _
      (by omega) rfl rfl, ha, hb, Nat.mod_eq_of_lt hu]
    by_cases hc : a = -32768 ∧ b = -1
    · rw [if_pos hc, hc.1, hc.2]
      decide
    · rw [if_neg hc]
      have hne : Int.tdiv a b ≠ 32768 := fun h => hc (tdiv_top a b hra.1 hra.2 hb0 h)
      exact toInt16_u16 _ hq.1 (by omega)
  · show Int.tdiv a b * b + toInt16 (u16 (Int.tmod (toInt16 (nos16 s)) (toInt16 (tos16 s)))) = a
    rw [ha, hb, toInt16_u16 _ hr.1 hr.2]
    exact Int.tdiv_add_tmod' a b

theorem div_quotient_remainder_witness :
    ∃ s1, op_div (stack2 0xfff9 2) = Res.ok () s1 ∧ s1.sp = (stack2 0xfff9 2).sp + 2 ∧
      toInt16 (tos16 s1) = (if (-7 : Int) = -32768 ∧ (2 : Int) = -1 then -32768 else Int.tdiv (-7) 2) ∧
      Int.tdiv (-7) 2 * 2 + s1.div_remainder = -7 :=
  div_quotient_remainder (stack2 0xfff9 2) (-7) 2 (by decide) (by decide) (by decide!) (by decide!)
    (by decide)

/-- C4 as stated fails for `a = -32768` (NOS `0x8000`) and `b = -1` (TOS
`0xFFFF`): `div` returns, `a / b` truncated toward zero is 32768, and the word
on top of the stack reads -32768 as a signed 16-bit integer. -/
theorem div_quotient_counterexample :
    toInt16 (nos16 (stack2 0x8000 0xffff)) = -32768 ∧ toInt16 (tos16 (stack2 0x8000 0xffff)) = -1 ∧
      isOk (op_div (stack2 0x8000 0xffff)) = true ∧
      Int.tdiv (-32768) (-1) = 32768 ∧
      toInt16 (tos16 (stateOr (op_div (stack2 0x8000 0xffff)) (stack2 0x8000 0xffff))) = -32768 := by
  decide!

theorem strtoul16_append (a b : List Nat) :
    strtoul16 (a ++ b) = b.foldl (fun v c => v * 16 + hexval c) (strtoul16 a) := by
  unfold strtoul16
  rw [List.foldl_append]

theorem read_hex_loop_some (nh : Bool) (left i : Nat) (str f ds r : List Nat) (s : State)
    (h : hex_field left f = some (ds, r)) :
    read_hex_loop nh left i str f s = Res.ok (some (str ++ ds), r) s := by
  induction left generalizing i str f ds r with
  | zero =>
    unfold hex_field at h
    cases h
    unfold read_hex_loop
    rw [List.append_nil]
    rfl
  | succ n ih =>
    cases f with
    | nil => unfold hex_field at h; cases h
    | cons c f1 =>
      unfold hex_field at h
      by_cases hc : isxdigit c = true
      · rw [if_pos hc] at h
        cases hf : hex_field n f1 with
        | none => rw [hf] at h; cases h
        | some q =>
          rw [hf] at h
          cases h
          unfold read_hex_loop
          dsimp only
          rw [if_neg (by rw [hc]; decide), ih (i + 1) (str ++ [c]) f1 q.1 q.2 hf, List.append_assoc]
          rfl
      · rw [if_neg hc] at h; cases h

theorem read_hex_loop_none (nh : Bool) (left i : Nat) (str f : List Nat) (s : State)
    (h : hex_field left f = none) (hi : nh = false ∨ i ≠ 0) :
    read_hex_loop nh left i str f s = fatal_error 10 s := by
  induction left generalizing i str f with
  | zero => unfold hex_field at h; cases h
  | succ n ih =>
    cases f with
    | nil => unfold read_hex_loop; rfl
    | cons c f1 =>
      unfold hex_field at h
      unfold read_hex_loop
      dsimp only
      by_cases hc : isxdigit c = true
      · rw [if_pos hc] at h
        rw [if_neg (by rw [hc]; decide)]
        cases hf : hex_field n f1 with
        | none => exact ih (i + 1) (str ++ [c]) f1 hf (Or.inr (Nat.succ_ne_zero i))
        | some q => rw [hf] at h; cases h
      · have hc1 : isxdigit c = false := by simpa using hc
        rw [if_pos hc1]
        have hg : (nh && i == 0) = false := by
          rcases hi with h1 | h1
          · rw [h1]; rfl
          · simp [h1]
        rw [hg]
        rfl

theorem read_hex_some (f : List Nat) (digits : Nat) (nh : Bool) (ds r : List Nat) (s : State)
    (h : hex_field digits f = some (ds, r)) :
    read_hex f digits nh s = Res.ok (some (strtoul16 ds % 65536), r) s := by
  unfold read_hex
  rw [bind_apply, read_hex_loop_some nh digits 0 [] f ds r s h]
  rfl

theorem read_hex_none (f : List Nat) (digits : Nat) (s : State) (h : hex_field digits f = none) :
    read_hex f digits false s = fatal_error 10 s := by
  unfold read_hex
  rw [bind_apply, read_hex_loop_none false digits 0 [] f s h (Or.inl rfl)]
  rfl

theorem read_hex_eof (digits : Nat) (nh : Bool) (s : State) :
    read_hex [] (digits + 1) nh s = fatal_error 10 s := by
  unfold read_hex
  rw [bind_apply]
  unfold read_hex_loop
  rfl

theorem read_hex_nonhex (c : Nat) (f1 : List Nat) (digits : Nat) (s : State) (hc : isxdigit c = false) :
    read_hex (c :: f1) (digits + 1) true s = Res.ok (none, c :: f1) s := by
  unfold read_hex
  rw [bind_apply]
  unfold read_hex_loop
  dsimp only
  rw [if_pos hc]
  rfl

theorem read_hex_byte_bad (c : Nat) (f1 : List Nat) (s : State) (hc : isxdigit c = true)
    (h : hex_field 1 f1 = none) : read_hex (c :: f1) 2 true s = fatal_error 10 s := by
  unfold read_hex
  rw [bind_apply]
  unfold read_hex_loop
  dsimp only
  rw [if_neg (by rw [hc]; decide), read_hex_loop_none true 1 1 _ f1 s h (Or.inr (by decide))]
  rfl

theorem hex_field_two (h1 h2 : Nat) (rest : List Nat) (x1 : isxdigit h1 = true) (x2 : isxdigit h2 = true) :
    hex_field 2 (h1 :: h2 :: rest) = some ([h1, h2], rest) := by
  simp only [hex_field, x1, x2, if_true]

theorem hex_field_four (a b c d : Nat) (rest : List Nat) (xa : isxdigit a = true)
    (xb : isxdigit b = true) (xc : isxdigit c = true) (xd : isxdigit d = true) :
    hex_field 4 (a :: b :: c :: d :: rest) = some ([a, b, c, d], rest) := by
  simp only [hex_field, xa, xb, xc, xd, if_true]

/-- One round of the loader on a byte item. -/
theorem loader_loop_byte (n : Nat) (h1 h2 : Nat) (rest : List Nat) (off : Nat)
    (log : List (StoreKind × Nat)) (s : State) (x1 : isxdigit h1 = true) (x2 : isxdigit h2 = true)
    (hin : CODE_START + off < MAX_MEM) :
    loader_loop (n + 1) (h1 :: h2 :: rest) off log s =
      loader_loop n rest ((off + 1) % 65536) (log ++ [(StoreKind.byte, CODE_START + off)])
        (raise_heap_start ((off + 1) % 65536)
          { s with mem := setByte s.mem (CODE_START + off) (strtoul16 [h1, h2] % 65536) }) := by
  rw [loader_loop]
  rw [bind_apply, read_hex_some _ 2 true [h1, h2] rest s (hex_field_two h1 h2 rest x1 x2)]
  dsimp only
  rw [bind_apply, mem_assign_in _ _ _ hin]
  rfl

/-- A byte item whose cursor is above `0xE8FF` is stored outside `mem`. -/
theorem loader_loop_byte_out (n : Nat) (h1 h2 : Nat) (rest : List Nat) (off : Nat)
    (log : List (StoreKind × Nat)) (s : State) (x1 : isxdigit h1 = true) (x2 : isxdigit h2 = true)
    (hout : MAX_MEM ≤ CODE_START + off) :
    loader_loop (n + 1) (h1 :: h2 :: rest) off log s = Res.undefined := by
  rw [loader_loop]
  rw [bind_apply, read_hex_some _ 2 true [h1, h2] rest s (hex_field_two h1 h2 rest x1 x2)]
  dsimp only
  rw [bind_apply, mem_assign_out _ _ _ hout]

/-- One round of the loader on a CR or LF. -/
theorem loader_loop_ws (n : Nat) (c : Nat) (rest : List Nat) (off : Nat)
    (log : List (StoreKind × Nat)) (s : State) (hc : c = 13 ∨ c = 10) :
    loader_loop (n + 1) (c :: rest) off log s = loader_loop n rest off log s := by
  have hx : isxdigit c = false := by rcases hc with h | h <;> rw [h] <;> rfl
  rw [loader_loop]
  rw [bind_apply, read_hex_nonhex c rest 1 s hx]
  dsimp only
  rw [if_pos hc]

/-- One round of the loader on the end marker. -/
theorem loader_loop_end (n : Nat) (rest : List Nat) (off : Nat)
    (log : List (StoreKind × Nat)) (s : State) :
    loader_loop (n + 1) (36 :: rest) off log s = Res.ok log s := by
  rw [loader_loop]
  rw [bind_apply, read_hex_nonhex 36 rest 1 s rfl]
  rfl

/-- One round of the loader on a `;XXXX` item. -/
theorem loader_loop_semi (n : Nat) (f1 ds rest : List Nat) (off : Nat)
    (log : List (StoreKind × Nat)) (s : State) (h : hex_field 4 f1 = some (ds, rest)) :
    loader_loop (n + 1) (59 :: f1) off log s = loader_loop n rest (strtoul16 ds % 65536) log s := by
  rw [loader_loop]
  rw [bind_apply, read_hex_nonhex 59 f1 1 s rfl]
  dsimp only
  rw [if_neg (by decide), if_pos rfl, bind_apply, read_hex_some _ 4 false ds rest s h]
  rfl

/-- One round of the loader on a `^XXXX` item. -/
theorem loader_loop_fixup (n : Nat) (f1 ds rest : List Nat) (off : Nat)
    (log : List (StoreKind × Nat)) (s : State) (h : hex_field 4 f1 = some (ds, rest))
    (hin : (CODE_START + strtoul16 ds % 65536) % 65536 + 1 < MAX_MEM) :
    loader_loop (n + 1) (94 :: f1) off log s =
      loader_loop n rest off
        (log ++ [(StoreKind.fixup, (CODE_START + strtoul16 ds % 65536) % 65536),
                 (StoreKind.fixup, (CODE_START + strtoul16 ds % 65536) % 65536 + 1)])
        { s with mem := write16 s.mem (CODE_START + strtoul16 ds % 65536) (CODE_START + off) } := by
  rw [loader_loop]
  rw [bind_apply, read_hex_nonhex 94 f1 1 s rfl]
  dsimp only
  rw [if_neg (by decide), if_neg (by decide), if_pos rfl, bind_apply, read_hex_some _ 4 false ds rest s h]
  dsimp only
  rw [bind_apply, Option.getD_some, call_write16_in _ _ _ hin]

/-- A fixup whose address is `0xFFFF` stores its high byte outside `mem`. -/
theorem loader_loop_fixup_out (n : Nat) (f1 ds rest : List Nat) (off : Nat)
    (log : List (StoreKind × Nat)) (s : State) (h : hex_field 4 f1 = some (ds, rest))
    (hout : MAX_MEM ≤ (CODE_START + strtoul16 ds % 65536) % 65536 + 1) :
    loader_loop (n + 1) (94 :: f1) off log s = Res.undefined := by
  rw [loader_loop]
  rw [bind_apply, read_hex_nonhex 94 f1 1 s rfl]
  dsimp only
  rw [if_neg (by decide), if_neg (by decide), if_pos rfl, bind_apply, read_hex_some _ 4 false ds rest s h]
  dsimp only
  rw [bind_apply, Option.getD_some, call_write16_out _ _ _ hout]

/-- One round of the loader on a `*XXXX` item. -/
theorem loader_loop_star (n : Nat) (f1 ds rest : List Nat) (off : Nat)
    (log : List (StoreKind × Nat)) (s : State) (h : hex_field 4 f1 = some (ds, rest))
    (hin : (CODE_START + off) % 65536 + 1 < MAX_MEM) :
    loader_loop (n + 1) (42 :: f1) off log s =
      loader_loop n rest ((off + 2) % 65536)
        (log ++ [(StoreKind.star, (CODE_START + off) % 65536),
                 (StoreKind.star, (CODE_START + off) % 65536 + 1)])
        (raise_heap_start ((off + 2) % 65536)
          { s with mem := write16 s.mem (CODE_START + off) (CODE_START + strtoul16 ds % 65536) }) := by
  rw [loader_loop]
  rw [bind_apply, read_hex_nonhex 42 f1 1 s rfl]
  dsimp only
  rw [if_neg (by decide), if_neg (by decide), if_neg (by decide), if_pos rfl, bind_apply,
    read_hex_some _ 4 false ds rest s h]
  dsimp only
  rw [bind_apply, Option.getD_some, call_write16_in _ _ _ hin]
  rfl

/-- A `*XXXX` item at the cursor `0xE8FF` stores its high byte outside `mem`. -/
theorem loader_loop_star_out (n : Nat) (f1 ds rest : List Nat) (off : Nat)
    (log : List (StoreKind × Nat)) (s : State) (h : hex_field 4 f1 = some (ds, rest))
    (hout : MAX_MEM ≤ (CODE_START + off) % 65536 + 1) :
    loader_loop (n + 1) (42 :: f1) off log s = Res.undefined := by
  rw [loader_loop]
  rw [bind_apply, read_hex_nonhex 42 f1 1 s rfl]
  dsimp only
  rw [if_neg (by decide), if_neg (by decide), if_neg (by decide), if_pos rfl, bind_apply,
    read_hex_some _ 4 false ds rest s h]
  dsimp only
  rw [bind_apply, Option.getD_some, call_write16_out _ _ _ hout]

/-- The loader fails at the end of the input. -/
theorem loader_loop_eof (n : Nat) (off : Nat) (log : List (StoreKind × Nat)) (s : State) :
    loader_loop (n + 1) [] off log s = fatal_error 10 s := by
  rw [loader_loop]
  rw [bind_apply, read_hex_eof 1 true s]
  rfl

/-- The loader fails on a character that starts no item. -/
theorem loader_loop_badchar (n : Nat) (c : Nat) (rest : List Nat) (off : Nat)
    (log : List (StoreKind × Nat)) (s : State) (hx : isxdigit c = false)
    (h1 : c ≠ 13) (h2 : c ≠ 10) (h3 : c ≠ 59) (h4 : c ≠ 94) (h5 : c ≠ 42) (h6 : c ≠ 36) :
    loader_loop (n + 1) (c :: rest) off log s = fatal_error 10 s := by
  rw [loader_loop]
  rw [bind_apply, read_hex_nonhex c rest 1 s hx]
  dsimp only
  rw [if_neg (by omega), if_neg h3, if_neg h4, if_neg h5, if_neg h6]

/-- The loader fails inside a two-digit byte. -/
theorem loader_loop_byte_bad (n : Nat) (c : Nat) (f1 : List Nat) (off : Nat)
    (log : List (StoreKind × Nat)) (s : State) (hx : isxdigit c = true) (h : hex_field 1 f1 = none) :
    loader_loop (n + 1) (c :: f1) off log s = fatal_error 10 s := by
  rw [loader_loop]
  rw [bind_apply, read_hex_byte_bad c f1 s hx h]
  rfl

/-- The loader fails inside a four-digit field. -/
theorem loader_loop_field_bad (n : Nat) (c : Nat) (f1 : List Nat) (off : Nat)
    (log : List (StoreKind × Nat)) (s : State) (hc : c = 59 ∨ c = 94 ∨ c = 42)
    (h : hex_field 4 f1 = none) :
    loader_loop (n + 1) (c :: f1) off log s = fatal_error 10 s := by
  have hx : isxdigit c = false := by rcases hc with h | h | h <;> rw [h] <;> rfl
  rw [loader_loop]
  rw [bind_apply, read_hex_nonhex c f1 1 s hx]
  dsimp only
  rcases hc with h1 | h1 | h1
  · rw [h1, if_neg (by decide), if_pos rfl, bind_apply, read_hex_none _ 4 s h]
    rfl
  · rw [h1, if_neg (by decide), if_neg (by decide), if_pos rfl, bind_apply, read_hex_none _ 4 s h]
    rfl
  · rw [h1, if_neg (by decide), if_neg (by decide), if_neg (by decide), if_pos rfl, bind_apply,
      read_hex_none _ 4 s h]
    rfl

theorem bytes_of_word (x : Nat) :
    ((x % 65536) &&& 0xff) % 256 = x % 256 ∧ ((x % 65536) >>> 8) % 256 = x / 256 % 256 := by
  rw [low_byte, Nat.shiftRight_eq_div_pow]
  omega

/-- C8, amended. At any item boundary of the loader (cursor `cur`, globals
`s`), the item `^XXXX` whose address `A = (CODE_START + XXXX) mod 2^16` is at
most `0xFFFE` (so that both `A` and `A + 1` are inside `mem`) stores the low
byte of `CODE_START + cur` at `A` and the high byte at `A + 1`, changes no
other byte of memory and leaves `heap_start` and the cursor alone; a hex byte
item that follows is stored at subscript `CODE_START + cur` (when that is
inside `mem`, `CODE_START + cur ≤ 0xFFFF`). -/
theorem fixup_item (n : Nat) (a b c d h1 h2 : Nat) (rest : List Nat) (cur : Nat)
    (log : List (StoreKind × Nat)) (s : State)
    (xa : isxdigit a = true) (xb : isxdigit b = true) (xc : isxdigit c = true)
    (xd : isxdigit d = true) (x1 : isxdigit h1 = true) (x2 : isxdigit h2 = true)
    (hA : (CODE_START + strtoul16 [a, b, c, d]) % 65536 ≤ 0xFFFE) :
    ∃ s1 log1,
      (∀ tail, loader_loop (n + 1) (94 :: a :: b :: c :: d :: tail) cur log s
        = loader_loop n tail cur log1 s1) ∧
      (s1.mem ((CODE_START + strtoul16 [a, b, c, d]) % 65536)).val = (CODE_START + cur) % 256 ∧
      (s1.mem ((CODE_START + strtoul16 [a, b, c, d]) % 65536 + 1)).val = (CODE_START + cur) / 256 % 256 ∧
      (∀ x, x ≠ (CODE_START + strtoul16 [a, b, c, d]) % 65536 →
        x ≠ (CODE_START + strtoul16 [a, b, c, d]) % 65536 + 1 → s1.mem x = s.mem x) ∧
      s1.heap_start = s.heap_start ∧
      (CODE_START + cur ≤ 0xFFFF → ∃ s2 log2,
        loader_loop (n + 2) (94 :: a :: b :: c :: d :: h1 :: h2 :: rest) cur log s
          = loader_loop n rest ((cur + 1) % 65536) log2 s2 ∧
        (s2.mem (CODE_START + cur)).val = strtoul16 [h1, h2] % 256) := by
  have e : (CODE_START + strtoul16 [a, b, c, d]) % 65536
      = (CODE_START + strtoul16 [a, b, c, d] % 65536) % 65536 := by omega
  have hin : (CODE_START + strtoul16 [a, b, c, d] % 65536) % 65536 + 1 < MAX_MEM := by
    rw [← e]
    simp only [MAX_MEM]
    omega
  refine ⟨{ s with mem := write16 s.mem (CODE_START + strtoul16 [a, b, c, d] % 65536) (CODE_START + cur) },
    log ++ [(StoreKind.fixup, (CODE_START + strtoul16 [a, b, c, d] % 65536) % 65536),
      (StoreKind.fixup, (CODE_START + strtoul16 [a, b, c, d] % 65536) % 65536 + 1)],
    fun tail => loader_loop_fixup n _ [a, b, c, d] tail cur log s
      (hex_field_four a b c d tail xa xb xc xd) hin, ?_, ?_, ?_, rfl, fun hcur => ?_⟩
  · show (write16 s.mem (CODE_START + strtoul16 [a, b, c, d] % 65536) (CODE_START + cur)
      ((CODE_START + strtoul16 [a, b, c, d]) % 65536)).val = _
    rw [e, write16_lo, toByte_val]
    exact (bytes_of_word _).1
  · show (write16 s.mem (CODE_START + strtoul16 [a, b, c, d] % 65536) (CODE_START + cur)
      ((CODE_START + strtoul16 [a, b, c, d]) % 65536 + 1)).val = _
    rw [e, write16_hi, toByte_val]
    exact (bytes_of_word _).2
  · intro x hx1 hx2
    rw [e] at hx1 hx2
    exact write16_other _ _ _ _ hx1 hx2
  · refine ⟨raise_heap_start ((cur + 1) % 65536)
        { s with mem := setByte (write16 s.mem (CODE_START + strtoul16 [a, b, c, d] % 65536)
            (CODE_START + cur)) (CODE_START + cur) (strtoul16 [h1, h2] % 65536) },
      (log ++ [(StoreKind.fixup, (CODE_START + strtoul16 [a, b, c, d] % 65536) % 65536),
        (StoreKind.fixup, (CODE_START + strtoul16 [a, b, c, d] % 65536) % 65536 + 1)])
        ++ [(StoreKind.byte, CODE_START + cur)], ?_, ?_⟩
    · rw [loader_loop_fixup (n + 1) _ [a, b, c, d] (h1 :: h2 :: rest) cur log s
        (hex_field_four a b c d _ xa xb xc xd) hin,
        loader_loop_byte n h1 h2 rest cur _ _ x1 x2 (by simp only [MAX_MEM]; omega)]
    · have hm : ∀ t : State, (raise_heap_start ((cur + 1) % 65536) t).mem = t.mem := by
        intro t
        unfold raise_heap_start
        split <;> rfl
      rw [hm]
      show (setByte _ (CODE_START + cur) (strtoul16 [h1, h2] % 65536) (CODE_START + cur)).val = _
      rw [setByte_same, toByte_val]
      omega

theorem fixup_item_witness :
    ∃ s1 log1,
      (∀ tail, loader_loop (1 + 1) (94 :: 48 :: 48 :: 49 :: 48 :: tail) 2 [] (boot quietHost [] false false)
        = loader_loop 1 tail 2 log1 s1) ∧
      (s1.mem ((CODE_START + strtoul16 [48, 48, 49, 48]) % 65536)).val = (CODE_START + 2) % 256 ∧
      (s1.mem ((CODE_START + strtoul16 [48, 48, 49, 48]) % 65536 + 1)).val = (CODE_START + 2) / 256 % 256 ∧
      (∀ x, x ≠ (CODE_START + strtoul16 [48, 48, 49, 48]) % 65536 →
        x ≠ (CODE_START + strtoul16 [48, 48, 49, 48]) % 65536 + 1 →
        s1.mem x = (boot quietHost [] false false).mem x) ∧
      s1.heap_start = (boot quietHost [] false false).heap_start ∧
      ∃ s2 log2,
        loader_loop (1 + 2) (94 :: 48 :: 48 :: 49 :: 48 :: 65 :: 66 :: [36]) 2 []
            (boot quietHost [] false false)
          = loader_loop 1 [36] ((2 + 1) % 65536) log2 s2 ∧
        (s2.mem (CODE_START + 2)).val = strtoul16 [65, 66] % 256 :=
  (fixup_item 1 48 48 49 48 65 66 [36] 2 [] (boot quietHost [] false false)
    (by decide) (by decide) (by decide) (by decide) (by decide) (by decide) (by decide)).elim
    fun s1 h1 => h1.elim fun log1 h2 =>
      ⟨s1, log1, h2.1, h2.2.1, h2.2.2.1, h2.2.2.2.1, h2.2.2.2.2.1, h2.2.2.2.2.2 (by decide)⟩

/-- C8 as stated fails for `XXXX ≥ 0xE900`: on the stream `;0001^E900$` the
fixup (cursor 1, so the value is 0x1701) leaves `mem[CODE_START + 0xE900]`
untouched and stores 0x01 at address 0 and 0x17 at address 1, because
`write16` takes its address as a `uint16_t`. -/
theorem fixup_counterexample :
    isOk (loader (ascii ";0001^E900$") (boot quietHost [] false false)) = true ∧
      ((stateOr (loader (ascii ";0001^E900$") (boot quietHost [] false false))
          (boot quietHost [] false false)).mem (CODE_START + 0xE900)).val = 0 ∧
      (CODE_START + 1) % 256 = 1 ∧
      ((stateOr (loader (ascii ";0001^E900$") (boot quietHost [] false false))
          (boot quietHost [] false false)).mem 0).val = 1 ∧
      ((stateOr (loader (ascii ";0001^E900$") (boot quietHost [] false false))
          (boot quietHost [] false false)).mem 1).val = 0x17 ∧
      ((boot quietHost [] false false).mem 1).val = 0 := by
  decide!

/-- A fixup at the top of memory: on the stream `00^E8FF$` the address of the
fixup is 0xFFFF, the high byte would go to `mem[0x10000]`, and the loader has
no defined behaviour. -/
theorem fixup_at_top :
    (CODE_START + strtoul16 (ascii "E8FF")) % 65536 = 0xffff ∧
    loader (ascii "00^E8FF$") (boot quietHost [] false false) = Res.undefined :=
  ⟨by decide, undefined_spec _ (by decide!)⟩

theorem hex_field_succ_some (n c : Nat) (f ds r : List Nat) (h : hex_field (n + 1) (c :: f) = some (ds, r)) :
    isxdigit c = true ∧ ∃ ds1, ds = c :: ds1 ∧ hex_field n f = some (ds1, r) := by
  unfold hex_field at h
  by_cases hc : isxdigit c = true
  · rw [if_pos hc] at h
    cases hf : hex_field n f with
    | none => rw [hf] at h; cases h
    | some q =>
      rw [hf] at h
      cases h
      exact ⟨hc, q.1, rfl, rfl⟩
  · rw [if_neg hc] at h; cases h

theorem hex_field_four_inv (f ds r : List Nat) (h : hex_field 4 f = some (ds, r)) :
    ∃ a b c d, f = a :: b :: c :: d :: r ∧ ds = [a, b, c, d] ∧ isxdigit a = true ∧ isxdigit b = true ∧
      isxdigit c = true ∧ isxdigit d = true := by
  cases f with
  | nil => unfold hex_field at h; cases h
  | cons a f1 =>
    obtain ⟨xa, d1, e1, h1⟩ := hex_field_succ_some 3 a f1 ds r h
    cases f1 with
    | nil => unfold hex_field at h1; cases h1
    | cons b f2 =>
      obtain ⟨xb, d2, e2, h2⟩ := hex_field_succ_some 2 b f2 d1 r h1
      cases f2 with
      | nil => unfold hex_field at h2; cases h2
      | cons c f3 =>
        obtain ⟨xc, d3, e3, h3⟩ := hex_field_succ_some 1 c f3 d2 r h2
        cases f3 with
        | nil => unfold hex_field at h3; cases h3
        | cons d f4 =>
          obtain ⟨xd, d4, e4, h4⟩ := hex_field_succ_some 0 d f4 d3 r h3
          unfold hex_field at h4
          cases h4
          exact ⟨a, b, c, d, rfl, by rw [e1, e2, e3, e4], xa, xb, xc, xd⟩

theorem hex_field_one_bad (d : Nat) (r : List Nat) (hd : ¬ isxdigit d = true) :
    hex_field 1 (d :: r) = none := by
  unfold hex_field
  rw [if_neg hd]

/-- Every stream, read at any cursor, has one of the three shapes. -/
theorem stream_total_aux (n : Nat) : ∀ (f : List Nat) (cur : Nat), f.length ≤ n → ∃ v, Stream v cur f := by
  induction n using Nat.strong_induction_on with
  | _ n ih =>
    intro f cur hlen
    have rec_on : ∀ (r : List Nat) (k : Nat), r.length < f.length → ∃ v, Stream v k r :=
      fun r k hr => ih r.length (by omega) r k (Nat.le_refl _)
    cases f with
    | nil => exact ⟨_, Stream.eof cur⟩
    | cons c rest =>
      by_cases hx : isxdigit c = true
      · cases rest with
        | nil => exact ⟨_, Stream.badbyte cur c [] hx rfl⟩
        | cons d r =>
          by_cases hd : isxdigit d = true
          · by_cases hin : CODE_START + cur ≤ 0xFFFF
            · obtain ⟨v, h⟩ := rec_on r ((cur + 1) % 65536) (by simp only [List.length_cons]; omega)
              exact ⟨v, Stream.byte v cur c d r hx hd hin h⟩
            · exact ⟨_, Stream.byte_out cur c d r hx hd (by omega)⟩
          · exact ⟨_, Stream.badbyte cur c (d :: r) hx (hex_field_one_bad d r hd)⟩
      · have hx0 : isxdigit c = false := by simpa using hx
        by_cases hws : c = 13 ∨ c = 10
        · obtain ⟨v, h⟩ := rec_on rest cur (by simp only [List.length_cons]; omega)
          exact ⟨v, Stream.blank v cur c rest hws h⟩
        · by_cases hend : c = 36
          · rw [hend]; exact ⟨_, Stream.done cur rest⟩
          · by_cases hk : c = 59 ∨ c = 94 ∨ c = 42
            · cases hf : hex_field 4 rest with
              | none => exact ⟨_, Stream.badfield cur c rest hk hf⟩
              | some q =>
                obtain ⟨a, b, c1, d, e, _, xa, xb, xc, xd⟩ := hex_field_four_inv rest q.1 q.2 hf
                rw [e]
                have hlt : q.2.length < (c :: rest).length := by
                  rw [e]; simp only [List.length_cons]; omega
                rcases hk with hk | hk | hk
                · obtain ⟨v, h⟩ := rec_on q.2 (strtoul16 [a, b, c1, d] % 65536) hlt
                  rw [hk]
                  exact ⟨v, Stream.semi v cur a b c1 d q.2 xa xb xc xd h⟩
                · rw [hk]
                  by_cases hin : (CODE_START + strtoul16 [a, b, c1, d]) % 65536 ≤ 0xFFFE
                  · obtain ⟨v, h⟩ := rec_on q.2 cur hlt
                    exact ⟨v, Stream.fixup v cur a b c1 d q.2 xa xb xc xd hin h⟩
                  · exact ⟨_, Stream.fixup_out cur a b c1 d q.2 xa xb xc xd (by omega)⟩
                · rw [hk]
                  by_cases hin : (CODE_START + cur) % 65536 ≤ 0xFFFE
                  · obtain ⟨v, h⟩ := rec_on q.2 ((cur + 2) % 65536) hlt
                    exact ⟨v, Stream.star v cur a b c1 d q.2 xa xb xc xd hin h⟩
                  · exact ⟨_, Stream.star_out cur a b c1 d q.2 xa xb xc xd (by omega)⟩
            · exact ⟨_, Stream.badchar cur c rest hx0 (fun h => hws (Or.inl h))
                (fun h => hws (Or.inr h)) (fun h => hk (Or.inl h)) (fun h => hk (Or.inr (Or.inl h)))
                (fun h => hk (Or.inr (Or.inr h))) hend⟩

theorem stream_total (f : List Nat) (cur : Nat) : ∃ v, Stream v cur f :=
  stream_total_aux f.length f cur (Nat.le_refl _)

theorem fixup_addr (x : Nat) : (CODE_START + x % 65536) % 65536 = (CODE_START + x) % 65536 := by
  omega

theorem loader_loop_stream (v : Verdict) (cur : Nat) (f : List Nat) (h : Stream v cur f) :
    ∀ (n : Nat) (log : List (StoreKind × Nat)) (s : State), f.length < n →
      (v = Verdict.loads → ∃ log1 s1, loader_loop n f cur log s = Res.ok log1 s1) ∧
      (v = Verdict.fails →
        ∃ s1, loader_loop n f cur log s = Res.fatal s1 ∧ s1.err = 10 ∧ s1.run = false) ∧
      (v = Verdict.strays → loader_loop n f cur log s = Res.undefined) := by
  induction h with
  | done cur rest =>
    intro n log s hn
    obtain ⟨m, rfl⟩ : ∃ m, n = m + 1 := ⟨n - 1, by omega⟩
    exact ⟨fun _ => ⟨_, _, loader_loop_end m rest cur log s⟩, fun h => Verdict.noConfusion h,
      fun h => Verdict.noConfusion h⟩
  | eof cur =>
    intro n log s hn
    obtain ⟨m, rfl⟩ : ∃ m, n = m + 1 := ⟨n - 1, by omega⟩
    exact ⟨fun h => Verdict.noConfusion h, fun _ => ⟨_, loader_loop_eof m cur log s, rfl, rfl⟩,
      fun h => Verdict.noConfusion h⟩
  | badchar cur c rest hx h1 h2 h3 h4 h5 h6 =>
    intro n log s hn
    obtain ⟨m, rfl⟩ : ∃ m, n = m + 1 := ⟨n - 1, by omega⟩
    exact ⟨fun h => Verdict.noConfusion h,
      fun _ => ⟨_, loader_loop_badchar m c rest cur log s hx h1 h2 h3 h4 h5 h6, rfl, rfl⟩,
      fun h => Verdict.noConfusion h⟩
  | badbyte cur c rest hx h =>
    intro n log s hn
    obtain ⟨m, rfl⟩ : ∃ m, n = m + 1 := ⟨n - 1, by omega⟩
    exact ⟨fun h => Verdict.noConfusion h,
      fun _ => ⟨_, loader_loop_byte_bad m c rest cur log s hx h, rfl, rfl⟩,
      fun h => Verdict.noConfusion h⟩
  | badfield cur k rest hk h =>
    intro n log s hn
    obtain ⟨m, rfl⟩ : ∃ m, n = m + 1 := ⟨n - 1, by omega⟩
    exact ⟨fun h => Verdict.noConfusion h,
      fun _ => ⟨_, loader_loop_field_bad m k rest cur log s hk h, rfl, rfl⟩,
      fun h => Verdict.noConfusion h⟩
  | byte v cur h1 h2 rest x1 x2 hin _ ih =>
    intro n log s hn
    obtain ⟨m, rfl⟩ : ∃ m, n = m + 1 := ⟨n - 1, by omega⟩
    rw [loader_loop_byte m h1 h2 rest cur log s x1 x2 (by simp only [MAX_MEM]; omega)]
    exact ih m _ _ (by simp only [List.length_cons] at hn; omega)
  | byte_out cur h1 h2 rest x1 x2 hout =>
    intro n log s hn
    obtain ⟨m, rfl⟩ : ∃ m, n = m + 1 := ⟨n - 1, by omega⟩
    exact ⟨fun h => Verdict.noConfusion h, fun h => Verdict.noConfusion h,
      fun _ => loader_loop_byte_out m h1 h2 rest cur log s x1 x2 (by simp only [MAX_MEM]; omega)⟩
  | blank v cur c rest hc _ ih =>
    intro n log s hn
    obtain ⟨m, rfl⟩ : ∃ m, n = m + 1 := ⟨n - 1, by omega⟩
    rw [loader_loop_ws m c rest cur log s hc]
    exact ih m _ _ (by simp only [List.length_cons] at hn; omega)
  | semi v cur a b c d rest xa xb xc xd _ ih =>
    intro n log s hn
    obtain ⟨m, rfl⟩ : ∃ m, n = m + 1 := ⟨n - 1, by omega⟩
    rw [loader_loop_semi m _ _ rest cur log s (hex_field_four a b c d rest xa xb xc xd)]
    exact ih m _ _ (by simp only [List.length_cons] at hn; omega)
  | fixup v cur a b c d rest xa xb xc xd hin _ ih =>
    intro n log s hn
    obtain ⟨m, rfl⟩ : ∃ m, n = m + 1 := ⟨n - 1, by omega⟩
    rw [loader_loop_fixup m _ _ rest cur log s (hex_field_four a b c d rest xa xb xc xd)
      (by rw [fixup_addr]; simp only [MAX_MEM]; omega)]
    exact ih m _ _ (by simp only [List.length_cons] at hn; omega)
  | fixup_out cur a b c d rest xa xb xc xd hout =>
    intro n log s hn
    obtain ⟨m, rfl⟩ : ∃ m, n = m + 1 := ⟨n - 1, by omega⟩
    exact ⟨fun h => Verdict.noConfusion h, fun h => Verdict.noConfusion h,
      fun _ => loader_loop_fixup_out m _ _ rest cur log s (hex_field_four a b c d rest xa xb xc xd)
        (by rw [fixup_addr]; simp only [MAX_MEM]; omega)⟩
  | star v cur a b c d rest xa xb xc xd hin _ ih =>
    intro n log s hn
    obtain ⟨m, rfl⟩ : ∃ m, n = m + 1 := ⟨n - 1, by omega⟩
    rw [loader_loop_star m _ _ rest cur log s (hex_field_four a b c d rest xa xb xc xd)
      (by simp only [MAX_MEM]; omega)]
    exact ih m _ _ (by simp only [List.length_cons] at hn; omega)
  | star_out cur a b c d rest xa xb xc xd hout =>
    intro n log s hn
    obtain ⟨m, rfl⟩ : ∃ m, n = m + 1 := ⟨n - 1, by omega⟩
    exact ⟨fun h => Verdict.noConfusion h, fun h => Verdict.noConfusion h,
      fun _ => loader_loop_star_out m _ _ rest cur log s (hex_field_four a b c d rest xa xb xc xd)
        (by simp only [MAX_MEM]; omega)⟩

/-- C9, amended. Read from the start (cursor 0), every stream has one of three
shapes (`stream_total`).  On a stream that, after a sequence of well-formed
items storing inside `mem` and before any `$`, (a) ends, (b) shows at an item
boundary a character that is no hexadecimal digit, CR, LF, `;`, `^`, `*` or
`$`, or (c) shows a non-hexadecimal character inside a two-digit byte or a
four-digit field (`Stream fails`), the loader raises `LOADER_FAILURE`:
`err = 10` and `run` is cleared.  On a sequence of well-formed items storing
inside `mem` and closed by `$` (`Stream loads`) it returns.  On a stream in
which, before that, a well-formed item stores outside `mem` (`Stream strays`)
the loader has no defined behaviour. -/
theorem loader_outcome (v : Verdict) (f : List Nat) (s : State) (h : Stream v 0 f) :
    (v = Verdict.loads → ∃ log s1, loader f s = Res.ok log s1) ∧
    (v = Verdict.fails →
      ∃ s1, loader f s = Res.fatal s1 ∧ s1.err = ERR_LOADER_FAILURE ∧ s1.run = false) ∧
    (v = Verdict.strays → loader f s = Res.undefined) :=
  loader_loop_stream v 0 f h (f.length + 1) [] s (Nat.lt_succ_self _)

theorem loader_outcome_witness :
    (∃ log s1, loader (ascii "0B\n;0010^0001*0002FF$") (boot quietHost [] false false)
        = Res.ok log s1) ∧
    (∃ s1, loader (ascii "0B\n;0010^00") (boot quietHost [] false false)
        = Res.fatal s1 ∧ s1.err = ERR_LOADER_FAILURE ∧ s1.run = false) :=
  ⟨(loader_outcome Verdict.loads (ascii "0B\n;0010^0001*0002FF$") (boot quietHost [] false false)
      (Stream.byte Verdict.loads 0 48 66 _ (by decide) (by decide) (by decide)
        (Stream.blank Verdict.loads _ 10 _ (by decide)
          (Stream.semi Verdict.loads _ 48 48 49 48 _ (by decide) (by decide) (by decide) (by decide)
            (Stream.fixup Verdict.loads _ 48 48 48 49 _ (by decide) (by decide) (by decide)
              (by decide) (by decide)
              (Stream.star Verdict.loads _ 48 48 48 50 _ (by decide) (by decide) (by decide)
                (by decide) (by decide)
                (Stream.byte Verdict.loads _ 70 70 _ (by decide) (by decide) (by decide)
                  (Stream.done _ [])))))))).1 rfl,
   (loader_outcome Verdict.fails (ascii "0B\n;0010^00") (boot quietHost [] false false)
      (Stream.byte Verdict.fails 0 48 66 _ (by decide) (by decide) (by decide)
        (Stream.blank Verdict.fails _ 10 _ (by decide)
          (Stream.semi Verdict.fails _ 48 48 49 48 _ (by decide) (by decide) (by decide) (by decide)
            (Stream.badfield _ 94 [48, 48] (by decide) (by decide)))))).2.1 rfl⟩

/-- C9 as stated fails: the stream `;FFFF00$` is a sequence of well-formed
items closed by `$`, and the loader does not return on it (nor does it raise
`LOADER_FAILURE`): the byte item, read with the cursor at `0xFFFF`, is stored
at subscript `CODE_START + 0xFFFF = 0x116FF`, outside `mem`, and the loader has
no defined behaviour. -/
theorem loader_counterexample :
    hex_field 4 (ascii "FFFF00$") = some (ascii "FFFF", ascii "00$") ∧
    hex_field 2 (ascii "00$") = some (ascii "00", ascii "$") ∧
    strtoul16 (ascii "FFFF") = 0xFFFF ∧ MAX_MEM ≤ CODE_START + 0xFFFF ∧
    isOk (loader (ascii ";FFFF00$") (boot quietHost [] false false)) = false ∧
    faultOf (loader (ascii ";FFFF00$") (boot quietHost [] false false)) = none ∧
    loader (ascii ";FFFF00$") (boot quietHost [] false false) = Res.undefined :=
  ⟨by decide, by decide, by decide, by decide, by decide!, by decide!,
    (loader_loop_stream Verdict.strays 0 (ascii ";FFFF00$")
      (Stream.semi Verdict.strays 0 70 70 70 70 _ (by decide) (by decide) (by decide) (by decide)
        (Stream.byte_out _ 48 48 _ (by decide) (by decide) (by decide)))
      _ [] (boot quietHost [] false false) (Nat.lt_succ_self _)).2.2 rfl⟩

theorem raise_heap_start_mem (o : Nat) (t : State) : (raise_heap_start o t).mem = t.mem := by
  unfold raise_heap_start
  split <;> rfl

theorem raise_heap_start_val (o : Nat) (t : State) :
    (raise_heap_start o t).heap_start
      = if CODE_START + o > t.heap_start then (CODE_START + o) % 65536 else t.heap_start := by
  unfold raise_heap_start
  split <;> rfl

theorem leastAbove_fixup (log : List (StoreKind × Nat)) (hs a b : Nat) (h : LeastAbove log hs) :
    LeastAbove (log ++ [(StoreKind.fixup, a), (StoreKind.fixup, b)]) hs := by
  refine ⟨fun e he hk => ?_, fun c hc => h.2 c (fun e he hk => hc e (List.mem_append_left _ he) hk)⟩
  rcases List.mem_append.mp he with h1 | h1
  · exact h.1 e h1 hk
  · simp only [List.mem_cons, List.mem_singleton, List.not_mem_nil, or_false] at h1
    rcases h1 with h1 | h1 <;> rw [h1] at hk <;> exact absurd rfl hk

theorem leastAbove_store (log : List (StoreKind × Nat)) (hs a : Nat) (k : StoreKind)
    (hk : k ≠ StoreKind.fixup) (h : LeastAbove log hs) :
    LeastAbove (log ++ [(k, a)]) (if a + 1 > hs then a + 1 else hs) := by
  refine ⟨fun e he hk => ?_, fun c hc => ?_⟩
  · rcases List.mem_append.mp he with h1 | h1
    · have := h.1 e h1 hk
      split <;> omega
    · simp only [List.mem_singleton] at h1
      rw [h1]
      show a < _
      split <;> omega
  · have h1 : hs ≤ c := h.2 c (fun e he hk => hc e (List.mem_append_left _ he) hk)
    have h2 : a < c := hc (k, a) (List.mem_append_right _ (List.mem_singleton.mpr rfl)) hk
    split <;> omega

theorem loader_loop_log (v : Verdict) (off : Nat) (f : List Nat) (h : Stream v off f) :
    v = Verdict.loads → ∀ (n : Nat) (log0 : List (StoreKind × Nat)) (s : State)
      (log : List (StoreKind × Nat)) (s1 : State), f.length < n → off < 65536 →
      loader_loop n f off log0 s = Res.ok log s1 →
      (∃ ext, log = log0 ++ ext) ∧
      (∀ x, (∀ e ∈ log, e.2 ≠ x) → s1.mem x = s.mem x) ∧
      ((∀ e ∈ log, e.1 ≠ StoreKind.fixup → CODE_START ≤ e.2 ∧ e.2 ≤ 0xFFFE) →
        LeastAbove log0 s.heap_start → LeastAbove log s1.heap_start) := by
  induction h with
  | done off rest =>
    intro _ n log0 s log s1 hn _ hl
    obtain ⟨m, rfl⟩ : ∃ m, n = m + 1 := ⟨n - 1, by omega⟩
    rw [loader_loop_end m rest off log0 s] at hl
    cases hl
    exact ⟨⟨[], (List.append_nil _).symm⟩, fun _ _ => rfl, fun _ h => h⟩
  | eof off => intro h; cases h
  | badchar off c rest hx h1 h2 h3 h4 h5 h6 => intro h; cases h
  | badbyte off c rest hx h => intro h; cases h
  | badfield off k rest hk h => intro h; cases h
  | byte_out off h1 h2 rest x1 x2 hout => intro h; cases h
  | fixup_out off a b c d rest xa xb xc xd hout => intro h; cases h
  | star_out off a b c d rest xa xb xc xd hout => intro h; cases h
  | byte v off h1 h2 rest x1 x2 hin0 _ ih =>
    intro hok n log0 s log s1 hn hoff hl
    obtain ⟨m, rfl⟩ : ∃ m, n = m + 1 := ⟨n - 1, by omega⟩
    rw [loader_loop_byte m h1 h2 rest off log0 s x1 x2 (by simp only [MAX_MEM]; omega)] at hl
    obtain ⟨⟨ext, he⟩, hmem, hinv⟩ := ih hok m _ _ log s1
      (by simp only [List.length_cons] at hn; omega) (Nat.mod_lt _ (by decide)) hl
    have hin : (StoreKind.byte, CODE_START + off) ∈ log := by
      rw [he]
      exact List.mem_append_left _ (List.mem_append_right _ (List.mem_singleton.mpr rfl))
    refine ⟨⟨_, by rw [he, List.append_assoc]⟩, fun x hx => ?_, fun hr h0 => hinv hr ?_⟩
    · rw [hmem x hx, raise_heap_start_mem]
      exact setByte_other _ _ _ _ (fun h => hx _ hin h.symm)
    · have hA := (hr _ hin (fun h => StoreKind.noConfusion h)).2
      have ho : (off + 1) % 65536 = off + 1 := by
        simp only [CODE_START] at hA
        omega
      rw [raise_heap_start_val, ho]
      have e1 : CODE_START + (off + 1) = CODE_START + off + 1 := by omega
      have e2 : (CODE_START + off + 1) % 65536 = CODE_START + off + 1 := by
        simp only [CODE_START] at *
        omega
      rw [e1, e2]
      exact leastAbove_store log0 s.heap_start (CODE_START + off) StoreKind.byte (by decide) h0
  | blank v off c rest hc _ ih =>
    intro hok n log0 s log s1 hn hoff hl
    obtain ⟨m, rfl⟩ : ∃ m, n = m + 1 := ⟨n - 1, by omega⟩
    rw [loader_loop_ws m c rest off log0 s hc] at hl
    exact ih hok m log0 s log s1 (by simp only [List.length_cons] at hn; omega) hoff hl
  | semi v off a b c d rest xa xb xc xd _ ih =>
    intro hok n log0 s log s1 hn hoff hl
    obtain ⟨m, rfl⟩ : ∃ m, n = m + 1 := ⟨n - 1, by omega⟩
    have hf := hex_field_four a b c d rest xa xb xc xd
    have hm : rest.length < m := by simp only [List.length_cons] at hn; omega
    rw [loader_loop_semi m _ _ rest off log0 s hf] at hl
    exact ih hok m log0 s log s1 hm (Nat.mod_lt _ (by decide)) hl
  | fixup v off a b c d rest xa xb xc xd hin0 _ ih =>
    intro hok n log0 s log s1 hn hoff hl
    obtain ⟨m, rfl⟩ : ∃ m, n = m + 1 := ⟨n - 1, by omega⟩
    have hf := hex_field_four a b c d rest xa xb xc xd
    have hm : rest.length < m := by simp only [List.length_cons] at hn; omega
    rw [loader_loop_fixup m _ _ rest off log0 s hf
      (by rw [fixup_addr]; simp only [MAX_MEM]; omega)] at hl
    obtain ⟨⟨ext, he⟩, hmem, hinv⟩ := ih hok m _ _ log s1 hm hoff hl
    refine ⟨⟨_, by rw [he, List.append_assoc]⟩, fun x hx => ?_,
      fun hr h0 => hinv hr (leastAbove_fixup _ _ _ _ h0)⟩
    rw [hmem x hx]
    have i1 : (StoreKind.fixup, (CODE_START + strtoul16 [a, b, c, d] % 65536) % 65536) ∈ log := by
      rw [he]
      exact List.mem_append_left _ (List.mem_append_right _ (List.mem_cons_self _ _))
    have i2 : (StoreKind.fixup, (CODE_START + strtoul16 [a, b, c, d] % 65536) % 65536 + 1) ∈ log := by
      rw [he]
      exact List.mem_append_left _ (List.mem_append_right _
        (List.mem_cons_of_mem _ (List.mem_singleton.mpr rfl)))
    exact write16_other _ _ _ _ (fun h => hx _ i1 h.symm) (fun h => hx _ i2 h.symm)
  | star v off a b c d rest xa xb xc xd hin0 _ ih =>
    intro hok n log0 s log s1 hn hoff hl
    obtain ⟨m, rfl⟩ : ∃ m, n = m + 1 := ⟨n - 1, by omega⟩
    have hf := hex_field_four a b c d rest xa xb xc xd
    have hm : rest.length < m := by simp only [List.length_cons] at hn; omega
    rw [loader_loop_star m _ _ rest off log0 s hf (by simp only [MAX_MEM]; omega)] at hl
    obtain ⟨⟨ext, he⟩, hmem, hinv⟩ := ih hok m _ _ log s1 hm (Nat.mod_lt _ (by decide)) hl
    have i1 : (StoreKind.star, (CODE_START + off) % 65536) ∈ log := by
      rw [he]
      exact List.mem_append_left _ (List.mem_append_right _ (List.mem_cons_self _ _))
    have i2 : (StoreKind.star, (CODE_START + off) % 65536 + 1) ∈ log := by
      rw [he]
      exact List.mem_append_left _ (List.mem_append_right _
        (List.mem_cons_of_mem _ (List.mem_singleton.mpr rfl)))
    refine ⟨⟨_, by rw [he, List.append_assoc]⟩, fun x hx => ?_, fun hr h0 => hinv hr ?_⟩
    · rw [hmem x hx, raise_heap_start_mem]
      exact write16_other _ _ _ _ (fun h => hx _ i1 h.symm) (fun h => hx _ i2 h.symm)
    · have hW := (hr _ i1 (fun h => StoreKind.noConfusion h)).1
      have hW2 := (hr _ i2 (fun h => StoreKind.noConfusion h)).2
      have eW : (CODE_START + off) % 65536 = CODE_START + off := by
        simp only [CODE_START] at *
        omega
      rw [eW] at hW2
      have ho : (off + 2) % 65536 = off + 2 := by
        simp only [CODE_START] at hW2
        omega
      rw [raise_heap_start_val, ho, eW]
      have e1 : CODE_START + (off + 2) = CODE_START + off + 1 + 1 := by omega
      have e2 : (CODE_START + off + 1 + 1) % 65536 = CODE_START + off + 1 + 1 := by
        simp only [CODE_START] at *
        omega
      rw [e1, e2]
      have t1 := leastAbove_store log0 s.heap_start (CODE_START + off) StoreKind.star (by decide) h0
      have t2 := leastAbove_store _ _ (CODE_START + off + 1) StoreKind.star (by decide) t1
      rw [List.append_assoc] at t2
      have e3 : (if CODE_START + off + 1 + 1 > (if CODE_START + off + 1 > s.heap_start
          then CODE_START + off + 1 else s.heap_start) then CODE_START + off + 1 + 1
          else (if CODE_START + off + 1 > s.heap_start then CODE_START + off + 1 else s.heap_start))
          = (if CODE_START + off + 1 + 1 > s.heap_start then CODE_START + off + 1 + 1
             else s.heap_start) := by
        split_ifs <;> omega
      rw [e3] at t2
      exact t2

/-- C6, amended. For every object stream the loader accepts, starting from
`heap_start = 0` (so every store it made is inside `mem`), in which every
store made by a hex byte item or a `*XXXX` item lands in `CODE_START..0xFFFE`:
after loading, `heap_start` is the smallest address greater than every address
written by a hex byte item or a `*XXXX` item.  The stores of `^XXXX` fixups
are not counted: a fixup writes without raising `heap_start`.  (The ghost
trace `log` misses no store: a byte of memory at an address absent from it is
unchanged.) -/
theorem heap_start_least_above (f : List Nat) (s s1 : State) (log : List (StoreKind × Nat))
    (h : loader f s = Res.ok log s1) (h0 : s.heap_start = 0)
    (hr : ∀ e ∈ log, e.1 ≠ StoreKind.fixup → CODE_START ≤ e.2 ∧ e.2 ≤ 0xFFFE) :
    (∀ e ∈ log, e.1 ≠ StoreKind.fixup → e.2 < s1.heap_start) ∧
    (∀ b, (∀ e ∈ log, e.1 ≠ StoreKind.fixup → e.2 < b) → s1.heap_start ≤ b) ∧
    (∀ x, (∀ e ∈ log, e.2 ≠ x) → s1.mem x = s.mem x) := by
  obtain ⟨v, hv⟩ := stream_total f 0
  have hout := loader_loop_stream v 0 f hv (f.length + 1) [] s (Nat.lt_succ_self _)
  have hs : v = Verdict.loads := by
    cases v with
    | loads => rfl
    | fails =>
      obtain ⟨s2, h2, _⟩ := hout.2.1 rfl
      have h3 : loader f s = Res.fatal s2 := h2
      rw [h] at h3
      cases h3
    | strays =>
      have h3 : loader f s = Res.undefined := hout.2.2 rfl
      rw [h] at h3
      cases h3
  obtain ⟨_, hmem, hinv⟩ := loader_loop_log v 0 f hv hs (f.length + 1) [] s log s1
    (Nat.lt_succ_self _) (by decide) h
  have hl : LeastAbove log s1.heap_start := by
    apply hinv hr
    rw [h0]
    exact ⟨fun e he => absurd he (List.not_mem_nil e), fun b _ => Nat.zero_le b⟩
  exact ⟨hl.1, hl.2, hmem⟩

theorem ok_spec {α : Type} (r : Res α) (d : α) (s : State) (h : isOk r = true) :
    r = Res.ok (valueOr r d) (stateOr r s) := by
  cases r with
  | ok a s1 => rfl
  | fatal s1 => cases h
  | diverge => cases h
  | undefined => cases h

theorem heap_start_least_above_witness :
    (∀ e ∈ valueOr (loader (ascii "0B\n*0000;0010FF^0001$") (boot quietHost [] false false)) [],
      e.1 ≠ StoreKind.fixup →
      e.2 < (stateOr (loader (ascii "0B\n*0000;0010FF^0001$") (boot quietHost [] false false))
        (boot quietHost [] false false)).heap_start) ∧
    (∀ b, (∀ e ∈ valueOr (loader (ascii "0B\n*0000;0010FF^0001$") (boot quietHost [] false false)) [],
      e.1 ≠ StoreKind.fixup → e.2 < b) →
      (stateOr (loader (ascii "0B\n*0000;0010FF^0001$") (boot quietHost [] false false))
        (boot quietHost [] false false)).heap_start ≤ b) ∧
    (∀ x, (∀ e ∈ valueOr (loader (ascii "0B\n*0000;0010FF^0001$") (boot quietHost [] false false)) [],
      e.2 ≠ x) →
      (stateOr (loader (ascii "0B\n*0000;0010FF^0001$") (boot quietHost [] false false))
        (boot quietHost [] false false)).mem x = (boot quietHost [] false false).mem x) :=
  heap_start_least_above (ascii "0B\n*0000;0010FF^0001$") (boot quietHost [] false false) _ _
    (ok_spec _ [] (boot quietHost [] false false) (by decide!)) (by decide!) (by decide!)

/-- C6 as stated fails: on the stream `00^0010$` the fixup stores 0x01 at
0x1710 (and 0x17 at 0x1711), yet `heap_start` ends as 0x1701, which is not
greater than 0x1710. -/
theorem heap_start_counterexample :
    isOk (loader (ascii "00^0010$") (boot quietHost [] false false)) = true ∧
    (StoreKind.fixup, 0x1710) ∈ valueOr (loader (ascii "00^0010$") (boot quietHost [] false false)) [] ∧
    ((stateOr (loader (ascii "00^0010$") (boot quietHost [] false false))
        (boot quietHost [] false false)).mem 0x1710).val = 0x01 ∧
    ((boot quietHost [] false false).mem 0x1710).val = 0 ∧
    (stateOr (loader (ascii "00^0010$") (boot quietHost [] false false))
        (boot quietHost [] false false)).heap_start = 0x1701 ∧
    ¬ (0x1710 < (stateOr (loader (ascii "00^0010$") (boot quietHost [] false false))
        (boot quietHost [] false false)).heap_start) := by
  decide!

theorem hexDigit_spec (d : Nat) (h : d < 16) : isxdigit (hexDigit d) = true ∧ hexval (hexDigit d) = d := by
  interval_cases d <;> exact ⟨rfl, rfl⟩

theorem strtoul16_hex2 (b : Nat) (h : b < 256) : strtoul16 (hex2 b) = b := by
  have h1 := (hexDigit_spec (b / 16 % 16) (Nat.mod_lt _ (by decide))).2
  have h2 := (hexDigit_spec (b % 16) (Nat.mod_lt _ (by decide))).2
  show (0 * 16 + hexval (hexDigit (b / 16 % 16))) * 16 + hexval (hexDigit (b % 16)) = b
  rw [h1, h2]
  omega

theorem strtoul16_hex4 (o : Nat) (h : o < 65536) : strtoul16 (hex4 o) = o := by
  have h1 := (hexDigit_spec (o / 4096 % 16) (Nat.mod_lt _ (by decide))).2
  have h2 := (hexDigit_spec (o / 256 % 16) (Nat.mod_lt _ (by decide))).2
  have h3 := (hexDigit_spec (o / 16 % 16) (Nat.mod_lt _ (by decide))).2
  have h4 := (hexDigit_spec (o % 16) (Nat.mod_lt _ (by decide))).2
  show (((0 * 16 + hexval (hexDigit (o / 4096 % 16))) * 16 + hexval (hexDigit (o / 256 % 16))) * 16
    + hexval (hexDigit (o / 16 % 16))) * 16 + hexval (hexDigit (o % 16)) = o
  rw [h1, h2, h3, h4]
  omega

theorem storeBytes_apply (bs : List Nat) (m : Mem) (a x : Nat) :
    storeBytes m a bs x = if a ≤ x ∧ x < a + bs.length then toByte (bs.getD (x - a) 0) else m x := by
  induction bs generalizing m a with
  | nil =>
    unfold storeBytes
    rw [if_neg (by simp only [List.length_nil]; omega)]
  | cons b bs ih =>
    unfold storeBytes
    rw [ih]
    by_cases h1 : a + 1 ≤ x ∧ x < a + 1 + bs.length
    · rw [if_pos h1, if_pos (by simp only [List.length_cons]; omega)]
      have e : x - a = (x - (a + 1)) + 1 := by omega
      rw [e, List.getD_cons_succ]
    · rw [if_neg h1]
      by_cases h2 : x = a
      · rw [h2, setByte_same, if_pos (by simp only [List.length_cons]; omega), Nat.sub_self,
          List.getD_cons_zero]
      · rw [setByte_other _ _ _ _ h2, if_neg (by simp only [List.length_cons]; omega)]

theorem storeBytes_comm (m : Mem) (a1 a2 : Nat) (b1 b2 : List Nat)
    (h : a1 + b1.length ≤ a2 ∨ a2 + b2.length ≤ a1) :
    storeBytes (storeBytes m a1 b1) a2 b2 = storeBytes (storeBytes m a2 b2) a1 b1 := by
  funext x
  rw [storeBytes_apply, storeBytes_apply, storeBytes_apply, storeBytes_apply]
  by_cases h1 : a1 ≤ x ∧ x < a1 + b1.length <;> by_cases h2 : a2 ≤ x ∧ x < a2 + b2.length
  · omega
  · rw [if_neg h2, if_pos h1, if_pos h1]
  · rw [if_pos h2, if_neg h1, if_pos h2]
  · rw [if_neg h2, if_neg h1, if_neg h1, if_neg h2]

theorem hex_field_hex4 (o : Nat) (rest : List Nat) :
    hex_field 4 (hex4 o ++ rest) = some (hex4 o, rest) :=
  hex_field_four _ _ _ _ rest (hexDigit_spec _ (Nat.mod_lt _ (by decide))).1
    (hexDigit_spec _ (Nat.mod_lt _ (by decide))).1 (hexDigit_spec _ (Nat.mod_lt _ (by decide))).1
    (hexDigit_spec _ (Nat.mod_lt _ (by decide))).1

theorem loader_bytes (bs : List Nat) :
    ∀ (n off : Nat) (log : List (StoreKind × Nat)) (s : State) (rest : List Nat),
      (encodeBytes bs ++ rest).length < n → CODE_START + off + bs.length ≤ 0xFFFF →
      (∀ b ∈ bs, b < 256) →
      ∃ m log1 s1, rest.length < m ∧
        loader_loop n (encodeBytes bs ++ rest) off log s = loader_loop m rest (off + bs.length) log1 s1 ∧
        s1.mem = storeBytes s.mem (CODE_START + off) bs ∧
        s1.heap_start = (if bs = [] then s.heap_start
          else if CODE_START + off + bs.length > s.heap_start then CODE_START + off + bs.length
          else s.heap_start) := by
  induction bs with
  | nil =>
    intro n off log s rest hn _ _
    exact ⟨n, log, s, hn, rfl, rfl, rfl⟩
  | cons b bs ih =>
    intro n off log s rest hn hfit hb
    obtain ⟨k, rfl⟩ : ∃ k, n = k + 1 := ⟨n - 1, by omega⟩
    have hb1 : b < 256 := hb b (List.mem_cons_self _ _)
    have hlen : (b :: bs).length = bs.length + 1 := rfl
    rw [hlen] at hfit
    have ho : (off + 1) % 65536 = off + 1 := by
      simp only [CODE_START] at hfit
      omega
    have hx1 := (hexDigit_spec (b / 16 % 16) (Nat.mod_lt _ (by decide))).1
    have hx2 := (hexDigit_spec (b % 16) (Nat.mod_lt _ (by decide))).1
    have hv : strtoul16 [hexDigit (b / 16 % 16), hexDigit (b % 16)] % 65536 = b := by
      have := strtoul16_hex2 b hb1
      unfold hex2 at this
      rw [this]
      omega
    have hstep := loader_loop_byte k (hexDigit (b / 16 % 16)) (hexDigit (b % 16))
      (encodeBytes bs ++ rest) off log s hx1 hx2 (by simp only [MAX_MEM, CODE_START] at *; omega)
    rw [ho, hv] at hstep
    obtain ⟨m, log1, s1, hm, hrun, hmem, hhs⟩ := ih k (off + 1)
      (log ++ [(StoreKind.byte, CODE_START + off)])
      (raise_heap_start (off + 1) { s with mem := setByte s.mem (CODE_START + off) b }) rest
      (by
        have : (encodeBytes (b :: bs) ++ rest).length = (encodeBytes bs ++ rest).length + 2 := rfl
        omega)
      (by omega) (fun x hx => hb x (List.mem_cons_of_mem _ hx))
    refine ⟨m, log1, s1, hm, ?_, ?_, ?_⟩
    · have e : off + (bs.length + 1) = off + 1 + bs.length := by omega
      rw [hlen, e, ← hrun]
      exact hstep
    · rw [hmem, raise_heap_start_mem]
      rfl
    · rw [hhs, raise_heap_start_val, if_neg (List.cons_ne_nil b bs), hlen]
      have e1 : CODE_START + (off + 1) = CODE_START + off + 1 := by omega
      have e2 : (CODE_START + off + 1) % 65536 = CODE_START + off + 1 := by
        simp only [CODE_START] at *
        omega
      have e3 : CODE_START + (off + 1) + bs.length = CODE_START + off + (bs.length + 1) := by omega
      rw [e1, e2]
      show (if bs = [] then _ else _) = _
      by_cases hnil : bs = []
      · rw [if_pos hnil, hnil]
        rfl
      · rw [if_neg hnil]
        have hpos : 0 < bs.length := List.length_pos.mpr hnil
        show (if CODE_START + (off + 1) + bs.length >
              (if CODE_START + off + 1 > s.heap_start then CODE_START + off + 1 else s.heap_start)
            then CODE_START + (off + 1) + bs.length
            else (if CODE_START + off + 1 > s.heap_start then CODE_START + off + 1 else s.heap_start))
          = (if CODE_START + off + (bs.length + 1) > s.heap_start then CODE_START + off + (bs.length + 1)
             else s.heap_start)
        split_ifs <;> omega

theorem loader_chunk (c : Nat × List Nat) (n off : Nat) (log : List (StoreKind × Nat)) (s : State)
    (rest : List Nat) (hn : (encodeChunk c ++ rest).length < n) (hc : chunkHi c ≤ 0xFFFF)
    (hb : ∀ b ∈ c.2, b < 256) :
    ∃ m cur log1 s1, rest.length < m ∧
      loader_loop n (encodeChunk c ++ rest) off log s = loader_loop m rest cur log1 s1 ∧
      s1.mem = storeBytes s.mem (chunkLo c) c.2 ∧ s1.heap_start = chunkHs s.heap_start c := by
  obtain ⟨k, rfl⟩ : ∃ k, n = k + 1 := ⟨n - 1, by omega⟩
  unfold chunkHi at hc
  have ho : c.1 < 65536 := by
    simp only [CODE_START] at hc
    omega
  have hstep : loader_loop (k + 1) (encodeChunk c ++ rest) off log s
      = loader_loop k (encodeBytes c.2 ++ rest) c.1 log s := by
    have e : encodeChunk c ++ rest = 59 :: (hex4 c.1 ++ (encodeBytes c.2 ++ rest)) := by
      unfold encodeChunk
      rw [List.cons_append, List.append_assoc]
    rw [e, loader_loop_semi k _ (hex4 c.1) (encodeBytes c.2 ++ rest) off log s (hex_field_hex4 _ _),
      strtoul16_hex4 c.1 ho, Nat.mod_eq_of_lt ho]
  obtain ⟨m, log1, s1, hm, hrun, hmem, hhs⟩ := loader_bytes c.2 k c.1 log s rest
    (by
      have e : (encodeChunk c ++ rest).length = (encodeBytes c.2 ++ rest).length + 5 := by
        unfold encodeChunk hex4
        simp only [List.cons_append, List.length_cons, List.append_assoc, List.nil_append]
      omega)
    hc hb
  exact ⟨m, _, log1, s1, hm, hstep.trans hrun, hmem, hhs⟩

theorem loader_chunks (cs : List (Nat × List Nat)) :
    ∀ (n off : Nat) (log : List (StoreKind × Nat)) (s : State),
      (encodeChunks cs).length < n →
      (∀ c ∈ cs, chunkHi c ≤ 0xFFFF ∧ ∀ b ∈ c.2, b < 256) →
      ∃ log1 s1, loader_loop n (encodeChunks cs) off log s = Res.ok log1 s1 ∧
        s1.mem = cs.foldl (fun m c => storeBytes m (chunkLo c) c.2) s.mem ∧
        s1.heap_start = cs.foldl chunkHs s.heap_start := by
  induction cs with
  | nil =>
    intro n off log s hn _
    obtain ⟨k, rfl⟩ : ∃ k, n = k + 1 := ⟨n - 1, by omega⟩
    exact ⟨log, s, loader_loop_end k [] off log s, rfl, rfl⟩
  | cons c cs ih =>
    intro n off log s hn hok
    obtain ⟨m, cur, log1, s1, hm, hrun, hmem, hhs⟩ := loader_chunk c n off log s (encodeChunks cs) hn
      (hok c (List.mem_cons_self _ _)).1 (hok c (List.mem_cons_self _ _)).2
    obtain ⟨log2, s2, hrun2, hmem2, hhs2⟩ := ih m cur log1 s1 hm
      (fun d hd => hok d (List.mem_cons_of_mem _ hd))
    refine ⟨log2, s2, ?_, ?_, ?_⟩
    · show loader_loop n (encodeChunk c ++ encodeChunks cs) off log s = _
      rw [hrun, hrun2]
    · rw [hmem2, hmem]
      rfl
    · rw [hhs2, hhs]
      rfl

theorem chunkHs_comm (h : Nat) (x y : Nat × List Nat) :
    chunkHs (chunkHs h x) y = chunkHs (chunkHs h y) x := by
  unfold chunkHs
  by_cases hx : x.2 = [] <;> by_cases hy : y.2 = [] <;>
    simp only [hx, hy, if_true, if_false] <;> (try split_ifs) <;> (try omega)

theorem chunkStore_comm (cs : List (Nat × List Nat)) (hd : cs.Pairwise chunksApart) :
    ∀ x ∈ cs, ∀ y ∈ cs, ∀ m : Mem,
      storeBytes (storeBytes m (chunkLo x) x.2) (chunkLo y) y.2
        = storeBytes (storeBytes m (chunkLo y) y.2) (chunkLo x) x.2 := by
  intro x hx y hy m
  by_cases hxy : x = y
  · rw [hxy]
  · have hap : chunksApart x y :=
      List.Pairwise.forall (fun a b h => Or.symm h) hd hx hy hxy
    exact storeBytes_comm m _ _ _ _ hap

theorem foldl_append_one {α β : Type} (f : β → α → β) (init : β) (l : List α) (a : α) :
    (l ++ [a]).foldl f init = f (l.foldl f init) a := by
  rw [List.foldl_append]
  rfl

/-- C7, amended. For every list of chunks (offset, byte list) whose target
address ranges `[CODE_START+offset, CODE_START+offset+length)` are pairwise
disjoint and end at or below `0xFFFF`, loading the stream that encodes the
chunks as `;XXXX` followed by hex byte pairs and ends with `$` succeeds and
yields the same memory contents and the same `heap_start` for every ordering
of the chunks, and each chunk's bytes appear in order at `CODE_START+offset`. -/
theorem chunk_order_irrelevant (cs cs1 : List (Nat × List Nat)) (s : State)
    (hp : cs.Perm cs1)
    (hok : ∀ c ∈ cs, CODE_START + c.1 + c.2.length ≤ 0xFFFF ∧ ∀ b ∈ c.2, b < 256)
    (hd : cs.Pairwise chunksApart) :
    ∃ log log1 s1 s2, loader (encodeChunks cs) s = Res.ok log s1 ∧
      loader (encodeChunks cs1) s = Res.ok log1 s2 ∧
      s1.mem = s2.mem ∧ s1.heap_start = s2.heap_start ∧
      ∀ c ∈ cs, ∀ (i : Nat) (hi : i < c.2.length), (s1.mem (CODE_START + c.1 + i)).val = c.2[i] := by
  have hok1 : ∀ c ∈ cs1, chunkHi c ≤ 0xFFFF ∧ ∀ b ∈ c.2, b < 256 :=
    fun c hc => hok c (hp.mem_iff.mpr hc)
  obtain ⟨log, s1, hrun, hmem, hhs⟩ := loader_chunks cs ((encodeChunks cs).length + 1) 0 [] s
    (Nat.lt_succ_self _) hok
  obtain ⟨log1, s2, hrun1, hmem1, hhs1⟩ := loader_chunks cs1 ((encodeChunks cs1).length + 1) 0 [] s
    (Nat.lt_succ_self _) hok1
  have hcomm := chunkStore_comm cs hd
  refine ⟨log, log1, s1, s2, hrun, hrun1, ?_, ?_, ?_⟩
  · rw [hmem, hmem1]
    exact List.Perm.foldl_eq' hp (fun x hx y hy m => hcomm x hx y hy m) s.mem
  · rw [hhs, hhs1]
    exact List.Perm.foldl_eq' hp (fun x _ y _ h => chunkHs_comm h x y) s.heap_start
  · intro c hc i hi
    obtain ⟨l, hperm⟩ : ∃ l, cs.Perm (l ++ [c]) :=
      ⟨_, (List.perm_cons_erase hc).trans (List.perm_append_singleton c _).symm⟩
    have hfold : cs.foldl (fun m c => storeBytes m (chunkLo c) c.2) s.mem
        = (l ++ [c]).foldl (fun m c => storeBytes m (chunkLo c) c.2) s.mem :=
      List.Perm.foldl_eq' hperm (fun x hx y hy m => hcomm x hx y hy m) s.mem
    rw [hmem, hfold, foldl_append_one, storeBytes_apply]
    have e : CODE_START + c.1 + i - chunkLo c = i := by
      unfold chunkLo
      omega
    rw [if_pos (by unfold chunkLo; omega), e, toByte_val, List.getD_eq_getElem _ _ hi]
    exact Nat.mod_eq_of_lt ((hok c hc).2 _ (List.getElem_mem _))

theorem chunk_order_irrelevant_witness :
    ∃ log log1 s1 s2,
      loader (encodeChunks [(0x10, [0xAB, 0xCD]), (0, [1, 2, 3])]) (boot quietHost [] false false)
        = Res.ok log s1 ∧
      loader (encodeChunks [(0, [1, 2, 3]), (0x10, [0xAB, 0xCD])]) (boot quietHost [] false false)
        = Res.ok log1 s2 ∧
      s1.mem = s2.mem ∧ s1.heap_start = s2.heap_start ∧
      ∀ c ∈ [(0x10, [0xAB, 0xCD]), (0, [1, 2, 3])], ∀ (i : Nat) (hi : i < c.2.length),
        (s1.mem (CODE_START + c.1 + i)).val = c.2[i] :=
  chunk_order_irrelevant [(0x10, [0xAB, 0xCD]), (0, [1, 2, 3])] [(0, [1, 2, 3]), (0x10, [0xAB, 0xCD])]
    (boot quietHost [] false false) (List.Perm.swap _ _ _) (by decide)
    (List.Pairwise.cons (fun d hd => by
        rw [List.mem_singleton.mp hd]
        exact Or.inr (by decide))
      (List.Pairwise.cons (fun d hd => absurd hd (List.not_mem_nil d)) List.Pairwise.nil))

/-- C7 as stated fails: the chunks `(0xE8FF, [1])` and `(0, [2])` have the
disjoint target ranges `[0xFFFF, 0x10000)` and `[0x1700, 0x1701)` inside the
64 KiB memory, and both orderings are accepted, but `heap_start` ends as
0x1701 in one ordering and as 0 in the other (0x10000 does not fit the
16-bit `heap_start`). -/
theorem chunk_order_counterexample :
    chunksApart (0xE8FF, [1]) (0, [2]) ∧ chunkHi (0xE8FF, [1]) ≤ 0x10000 ∧ chunkHi (0, [2]) ≤ 0x10000 ∧
    isOk (loader (encodeChunks [(0xE8FF, [1]), (0, [2])]) (boot quietHost [] false false)) = true ∧
    isOk (loader (encodeChunks [(0, [2]), (0xE8FF, [1])]) (boot quietHost [] false false)) = true ∧
    (stateOr (loader (encodeChunks [(0xE8FF, [1]), (0, [2])]) (boot quietHost [] false false))
      (boot quietHost [] false false)).heap_start = 0x1701 ∧
    (stateOr (loader (encodeChunks [(0, [2]), (0xE8FF, [1])]) (boot quietHost [] false false))
      (boot quietHost [] false false)).heap_start = 0 := by
  refine ⟨Or.inr (by decide), by decide, by decide, by decide!, by decide!, by decide!, by decide!⟩

theorem interp_init_ok (s : State) (hfit : s.heap_start + 6 ≤ 0xFFFF) (hlim : s.heap_limit = 0x5fff) :
    interp_init s = Res.ok ()
      { s with
        sp := INITIAL_STACK
        mem := setByte (write16 (write16 (setByte (setByte s.mem 0xffff 0) s.heap_start (0 <<< 1))
                (s.heap_start + 1) (s.display 0)) (s.heap_start + 3) 0xffff) (s.heap_start + 5) 0
        hp := s.heap_start + 6
        level := 0
        display := fun l => if l = 0 then s.heap_start + 6 else s.display l
        pc := CODE_START % 65536
        run := true
        rerun := false
        trap := true } := by
  unfold interp_init
  simp only [bind_apply, modifyState_apply]
  have hsp : ((INITIAL_STACK : Nat) : Int) < ((0x5fff : Nat) : Int) - 2 := by decide
  rw [← hlim] at hsp
  rw [do_call_fit 0 CODE_START _ (by exact hsp) (by exact hfit)]

/-- C10, amended. For every image loaded by `main` (`heap_limit = 0x5FFF`)
with `heap_start + 6 ≤ 0xFFFF`, `interp` starts the program as a level-0 call
to `CODE_START` from a caller whose return address is 0xFFFF with
`mem[0xFFFF] = 0x00`: `sp = 0x01FF`, `level = 0`, `pc = 0x1700`,
`display[0] = hp = heap_start + 6`, the frame's saved return pc is 0xFFFF and
`run` is set.  The images `06$` (`ret`) and `00$` (`exi`) end with
`run = false`, `err = 0`, exit status 0 and no output; after the `ret` the
next opcode is fetched at `pc = 0xFFFF`, where the EXIT byte is. -/
theorem interp_entry (s : State) (hfit : s.heap_start + 6 ≤ 0xFFFF) (hlim : s.heap_limit = 0x5fff) :
    (∃ s1, interp_init s = Res.ok () s1 ∧ s1.sp = 0x01ff ∧ s1.level = 0 ∧ s1.pc = 0x1700 ∧
      s1.hp = s.heap_start + 6 ∧ s1.display 0 = s.heap_start + 6 ∧
      read16 s1.mem (s1.display 0 - 3) = 0xffff ∧ (s1.mem 0xffff).val = 0 ∧ s1.run = true) ∧
    (main 100 1 (ascii "06$") (boot quietHost [] false false)).map
        (fun r => (r.fst, r.snd.run, r.snd.err, r.snd.stdout)) = some (0, false, 0, []) ∧
    (main 100 1 (ascii "00$") (boot quietHost [] false false)).map
        (fun r => (r.fst, r.snd.run, r.snd.err, r.snd.stdout)) = some (0, false, 0, []) ∧
    (stateOr (interp_step (stateOr ((loader (ascii "06$") >>= fun _ => interp_init)
        (boot quietHost [] false false)) (boot quietHost [] false false)))
        (boot quietHost [] false false)).pc = 0xffff ∧
    ((stateOr (interp_step (stateOr ((loader (ascii "06$") >>= fun _ => interp_init)
        (boot quietHost [] false false)) (boot quietHost [] false false)))
        (boot quietHost [] false false)).mem 0xffff).val = 0 := by
  refine ⟨⟨_, interp_init_ok s hfit hlim, rfl, rfl, rfl, rfl, rfl, ?_, ?_, rfl⟩,
    by decide!, by decide!, by decide!, by decide!⟩
  · show read16 (setByte (write16 (write16 (setByte (setByte s.mem 0xffff 0) s.heap_start (0 <<< 1))
        (s.heap_start + 1) (s.display 0)) (s.heap_start + 3) 0xffff) (s.heap_start + 5) 0)
        (s.heap_start + 6 - 3) = 0xffff
    have e : s.heap_start + 6 - 3 = s.heap_start + 3 := by omega
    rw [e, read16_setByte_other _ _ _ _ (by omega) (by omega), read16_write16]
  · show (setByte (write16 (write16 (setByte (setByte s.mem 0xffff 0) s.heap_start (0 <<< 1))
        (s.heap_start + 1) (s.display 0)) (s.heap_start + 3) 0xffff) (s.heap_start + 5) 0 0xffff).val = 0
    rw [setByte_other _ _ _ _ (by omega), write16_other _ _ _ _ (by omega) (by omega),
      write16_other _ _ _ _ (by omega) (by omega), setByte_other _ _ _ _ (by omega), setByte_same]
    rfl

theorem interp_entry_witness :
    (∃ s1, interp_init afterLoad = Res.ok () s1 ∧ s1.sp = 0x01ff ∧ s1.level = 0 ∧ s1.pc = 0x1700 ∧
      s1.hp = afterLoad.heap_start + 6 ∧ s1.display 0 = afterLoad.heap_start + 6 ∧
      read16 s1.mem (s1.display 0 - 3) = 0xffff ∧ (s1.mem 0xffff).val = 0 ∧ s1.run = true) ∧
    (main 100 1 (ascii "06$") (boot quietHost [] false false)).map
        (fun r => (r.fst, r.snd.run, r.snd.err, r.snd.stdout)) = some (0, false, 0, []) ∧
    (main 100 1 (ascii "00$") (boot quietHost [] false false)).map
        (fun r => (r.fst, r.snd.run, r.snd.err, r.snd.stdout)) = some (0, false, 0, []) ∧
    (stateOr (interp_step (stateOr ((loader (ascii "06$") >>= fun _ => interp_init)
        (boot quietHost [] false false)) (boot quietHost [] false false)))
        (boot quietHost [] false false)).pc = 0xffff ∧
    ((stateOr (interp_step (stateOr ((loader (ascii "06$") >>= fun _ => interp_init)
        (boot quietHost [] false false)) (boot quietHost [] false false)))
        (boot quietHost [] false false)).mem 0xffff).val = 0 :=
  interp_entry afterLoad (by decide!) (by decide!)

/-- C10 as stated fails for an image that reaches the top of memory: the
stream `;E8F900$` is accepted with `heap_start = 0xFFFA`, `interp` sets up the
frame at `0xFFFA..0xFFFF` without a fault, and `hp` ends as 0, not
`heap_start + 6` (the heap pointer is a `uint16_t` and wraps). -/
theorem interp_entry_counterexample :
    isOk (loader (ascii ";E8F900$") (boot quietHost [] false false)) = true ∧
    (stateOr (loader (ascii ";E8F900$") (boot quietHost [] false false))
      (boot quietHost [] false false)).heap_start = 0xfffa ∧
    isOk ((loader (ascii ";E8F900$") >>= fun _ => interp_init) (boot quietHost [] false false)) = true ∧
    (stateOr ((loader (ascii ";E8F900$") >>= fun _ => interp_init) (boot quietHost [] false false))
      (boot quietHost [] false false)).hp = 0 ∧
    (stateOr ((loader (ascii ";E8F900$") >>= fun _ => interp_init) (boot quietHost [] false false))
      (boot quietHost [] false false)).display 0 = 0 := by
  decide!

theorem tos16_binResult (s : State) (v : Nat) : tos16 (binResult s v) = v % 65536 := by
  rw [tos16_eq]
  show (setByte (setByte s.mem (s.sp + 4) ((v % 65536) &&& 0xff)) (s.sp + 3) ((v % 65536) >>> 8)
      (s.sp + 3)).val * 256 +
    (setByte (setByte s.mem (s.sp + 4) ((v % 65536) &&& 0xff)) (s.sp + 3) ((v % 65536) >>> 8)
      (s.sp + 4)).val = v % 65536
  rw [setByte_same, setByte_other _ _ _ _ (by omega), setByte_same, toByte_val, toByte_val, low_byte,
    Nat.shiftRight_eq_div_pow]
  omega

theorem tos16_unResult (s : State) (v : Nat) : tos16 (unResult s v) = v % 65536 := by
  rw [tos16_eq]
  show (setByte (setByte s.mem (s.sp + 2) ((v % 65536) &&& 0xff)) (s.sp + 1) ((v % 65536) >>> 8)
      (s.sp + 1)).val * 256 +
    (setByte (setByte s.mem (s.sp + 2) ((v % 65536) &&& 0xff)) (s.sp + 1) ((v % 65536) >>> 8)
      (s.sp + 2)).val = v % 65536
  rw [setByte_same, setByte_other _ _ _ _ (by omega), setByte_same, toByte_val, toByte_val, low_byte,
    Nat.shiftRight_eq_div_pow]
  omega

theorem binResult_mem (s : State) (v x : Nat) (h3 : x ≠ s.sp + 3) (h4 : x ≠ s.sp + 4) :
    (binResult s v).mem x = s.mem x := by
  show setByte (setByte s.mem (s.sp + 4) _) (s.sp + 3) _ x = s.mem x
  rw [setByte_other _ _ _ _ h3, setByte_other _ _ _ _ h4]

theorem unResult_mem (s : State) (v x : Nat) (h1 : x ≠ s.sp + 1) (h2 : x ≠ s.sp + 2) :
    (unResult s v).mem x = s.mem x := by
  show setByte (setByte s.mem (s.sp + 2) _) (s.sp + 1) _ x = s.mem x
  rw [setByte_other _ _ _ _ h1, setByte_other _ _ _ _ h2]

/-- Two pops followed by a push of a function of the popped words. -/
theorem binop_ok (f : Nat → Nat → Nat) (s : State) (hsp1 : 0x0100 ≤ s.sp) (hsp2 : s.sp + 4 ≤ 0x01ff) :
    (pop16 >>= fun op2 => pop16 >>= fun op1 => push16 (f op1 op2)) s =
      Res.ok () (binResult s (f (nos16 s) (tos16 s))) := by
  have hpush := push16_ok (f (nos16 s) (tos16 s)) { s with sp := s.sp + 4 }
    (by show 0x0102 ≤ s.sp + 4; omega) (by show s.sp + 4 < 65536; omega)
  rw [bind_apply, pop16_ok s (by omega)]
  dsimp only
  rw [bind_apply, pop16_ok _ (by show s.sp + 2 < 0x01fe; omega), tos16_after_pop]
  dsimp only
  rw [hpush]
  rfl

/-- One pop followed by a push of a function of the popped word. -/
theorem unop_ok (f : Nat → Nat) (s : State) (hsp1 : 0x0100 ≤ s.sp) (hsp2 : s.sp + 2 ≤ 0x01ff) :
    (pop16 >>= fun op1 => push16 (f op1)) s = Res.ok () (unResult s (f (tos16 s))) := by
  have hpush := push16_ok (f (tos16 s)) { s with sp := s.sp + 2 }
    (by show 0x0102 ≤ s.sp + 2; omega) (by show s.sp + 2 < 65536; omega)
  rw [bind_apply, pop16_ok s (by omega)]
  dsimp only
  rw [hpush]
  rfl

theorem boolWord_decide (p : Prop) [Decidable p] : boolWord (decide p) = if p then 0xffff else 0 := by
  by_cases h : p
  · rw [if_pos h, decide_eq_true h]
    rfl
  · rw [if_neg h, decide_eq_false h]
    rfl

/-- C15. With `left` in NOS and `right` in TOS (the stack inside its page),
each of `ge`, `gt`, `le`, `lt` pops both words and pushes 0xFFFF when
`left ≥ right`, `left > right`, `left ≤ right`, `left < right` holds for the
words read as signed 16-bit integers, and 0x0000 otherwise; `eq` and `ne` push
0xFFFF or 0x0000 according to equality of the two bit patterns.  In each case
`sp` ends two higher, the pushed word is the new TOS, and no other byte of
memory changes. -/
theorem compare_ops (s : State) (hsp1 : 0x0100 ≤ s.sp) (hsp2 : s.sp + 4 ≤ 0x01ff) :
    op_ge s = Res.ok () (binResult s (if toInt16 (nos16 s) ≥ toInt16 (tos16 s) then 0xffff else 0)) ∧
    op_gt s = Res.ok () (binResult s (if toInt16 (nos16 s) > toInt16 (tos16 s) then 0xffff else 0)) ∧
    op_le s = Res.ok () (binResult s (if toInt16 (nos16 s) ≤ toInt16 (tos16 s) then 0xffff else 0)) ∧
    op_lt s = Res.ok () (binResult s (if toInt16 (nos16 s) < toInt16 (tos16 s) then 0xffff else 0)) ∧
    op_eq s = Res.ok () (binResult s (if nos16 s = tos16 s then 0xffff else 0)) ∧
    op_ne s = Res.ok () (binResult s (if nos16 s ≠ tos16 s then 0xffff else 0)) ∧
    (∀ v, v < 65536 → (binResult s v).sp = s.sp + 2 ∧ tos16 (binResult s v) = v ∧
      ∀ x, x ≠ s.sp + 3 → x ≠ s.sp + 4 → (binResult s v).mem x = s.mem x) := by
  refine ⟨?_, ?_, ?_, ?_, ?_, ?_, fun v hv => ⟨rfl, ?_, fun x h3 h4 => binResult_mem s v x h3 h4⟩⟩
  · rw [← boolWord_decide]
    exact binop_ok (fun a b => boolWord (decide (toInt16 a ≥ toInt16 b))) s hsp1 hsp2
  · rw [← boolWord_decide]
    exact binop_ok (fun a b => boolWord (decide (toInt16 a > toInt16 b))) s hsp1 hsp2
  · rw [← boolWord_decide]
    exact binop_ok (fun a b => boolWord (decide (toInt16 a ≤ toInt16 b))) s hsp1 hsp2
  · rw [← boolWord_decide]
    exact binop_ok (fun a b => boolWord (decide (toInt16 a < toInt16 b))) s hsp1 hsp2
  · rw [← boolWord_decide]
    exact binop_ok (fun a b => boolWord (decide (a = b))) s hsp1 hsp2
  · rw [← boolWord_decide]
    exact binop_ok (fun a b => boolWord (decide (a ≠ b))) s hsp1 hsp2
  · rw [tos16_binResult, Nat.mod_eq_of_lt hv]

theorem compare_ops_witness :
    op_ge (stack2 5 7) = Res.ok () (binResult (stack2 5 7)
      (if toInt16 (nos16 (stack2 5 7)) ≥ toInt16 (tos16 (stack2 5 7)) then 0xffff else 0)) :=
  (compare_ops (stack2 5 7) (by decide) (by decide)).1

theorem op_for_apply (s : State) (h : s.sp + 4 ≤ 0x01ff) :
    op_for s =
      (if toInt16 (nos16 s) - toInt16 (tos16 s) ≤ 0 then
         Res.ok () { s with sp := s.sp + 4,
                            pc := (s.mem ((s.pc + 1) % 65536)).val * 256 + (s.mem s.pc).val }
       else Res.ok () { s with sp := s.sp + 2, pc := (s.pc + 2) % 65536 }) := by
  have e : ((s.pc + 1) % 65536 + 1) % 65536 = (s.pc + 2) % 65536 := by omega
  unfold op_for
  rw [bind_apply, fetch16_apply, fetch16_value]
  dsimp only
  rw [bind_apply, pop16_ok _ (by show s.sp < 0x01fe; omega)]
  dsimp only
  rw [bind_apply, peek_tos16_apply]
  dsimp only
  simp only [show ∀ p, tos16 { s with pc := p, sp := s.sp + 2 } = nos16 s from fun _ => rfl,
    show ∀ p, tos16 { s with pc := p } = tos16 s from fun _ => rfl]
  by_cases hc : toInt16 (nos16 s) - toInt16 (tos16 s) ≤ 0
  · rw [if_pos hc, if_pos hc, bind_apply, pop16_ok _ (by show s.sp + 2 < 0x01fe; omega)]
    rfl
  · rw [if_neg hc, if_neg hc, e]
    rfl

/-- C14. In every state whose stack holds at least two 16-bit words, `for addr`
pops `v` (TOS) and reads `limit` (NOS, the new TOS).  The test `limit - v ≤ 0`
is made on the signed 16-bit readings with the difference taken over the
integers, so it is `limit ≤ v`.  When it holds, `limit` is popped too and
`pc := addr` (the little-endian operand); otherwise `limit` stays on the stack
as TOS and `pc` is the address just after the two operand bytes.  Nothing else
changes. -/
theorem for_loop_step (s : State) (h : s.sp + 4 ≤ 0x01ff) :
    (toInt16 (nos16 s) - toInt16 (tos16 s) ≤ 0 ↔ toInt16 (nos16 s) ≤ toInt16 (tos16 s)) ∧
    (toInt16 (nos16 s) ≤ toInt16 (tos16 s) →
      op_for s = Res.ok () { s with sp := s.sp + 4,
                                    pc := (s.mem ((s.pc + 1) % 65536)).val * 256 + (s.mem s.pc).val }) ∧
    (toInt16 (tos16 s) < toInt16 (nos16 s) →
      op_for s = Res.ok () { s with sp := s.sp + 2, pc := (s.pc + 2) % 65536 } ∧
      tos16 { s with sp := s.sp + 2, pc := (s.pc + 2) % 65536 } = nos16 s) := by
  refine ⟨by omega, fun hle => ?_, fun hlt => ⟨?_, rfl⟩⟩
  · rw [op_for_apply s h, if_pos (by omega)]
  · rw [op_for_apply s h, if_neg (by omega)]

theorem for_loop_step_witness :
    toInt16 (nos16 (stack2 5 7)) - toInt16 (tos16 (stack2 5 7)) ≤ 0 ↔
      toInt16 (nos16 (stack2 5 7)) ≤ toInt16 (tos16 (stack2 5 7)) :=
  (for_loop_step (stack2 5 7) (by decide)).1

theorem binResult_mod (s : State) (v : Nat) : binResult s (v % 65536) = binResult s v := by
  unfold binResult
  rw [Nat.mod_mod]

theorem u16_lt (i : Int) : u16 i < 65536 := by
  unfold u16
  omega

theorem toInt16_emod (v : Nat) : toInt16 v % 65536 = (v : Int) % 65536 := by
  unfold toInt16
  split <;> omega

/-- C16. With `left` in NOS and `right` in TOS (the stack inside its page),
`add`, `sub` and `muy` pop both words and push `(left + right) mod 2^16`,
`(left - right) mod 2^16` and `(left * right) mod 2^16`; the product is taken
on the signed readings, which gives the same word as the product of the
unsigned ones.  With one word on the stack `neg` replaces TOS by
`(-TOS) mod 2^16`.  The image `imm 7; imm 6; muy; imm 2; sub; exi` ends with
exit status 0 and the single word 40 on the stack. -/
theorem arith_ops (s : State) (hsp1 : 0x0100 ≤ s.sp) (hsp2 : s.sp + 2 ≤ 0x01ff) :
    (s.sp + 4 ≤ 0x01ff →
      op_add s = Res.ok () (binResult s ((nos16 s + tos16 s) % 65536)) ∧
      op_sub s = Res.ok () (binResult s (((nos16 s : Int) - (tos16 s : Int)) % 65536).toNat) ∧
      op_muy s = Res.ok () (binResult s ((toInt16 (nos16 s) * toInt16 (tos16 s)) % 65536).toNat) ∧
      ((toInt16 (nos16 s) * toInt16 (tos16 s)) % 65536).toNat = (nos16 s * tos16 s) % 65536) ∧
    op_neg s = Res.ok () (unResult s ((-(toInt16 (tos16 s))) % 65536).toNat) ∧
    ((-(toInt16 (tos16 s))) % 65536).toNat = (65536 - tos16 s) % 65536 ∧
    (∀ v, v < 65536 → (binResult s v).sp = s.sp + 2 ∧ tos16 (binResult s v) = v ∧
      (unResult s v).sp = s.sp ∧ tos16 (unResult s v) = v) ∧
    (main 100 1 (ascii "0B07000B06000F0B02000E00$") (boot quietHost [] false false)).map
      (fun r => (r.fst, tos16 r.snd, r.snd.sp)) = some (0, 40, 0x01fd) := by
  refine ⟨fun h4 => ⟨?_, ?_, ?_, ?_⟩, ?_, ?_, fun v hv => ⟨rfl, ?_, rfl, ?_⟩, by decide!⟩
  · rw [binResult_mod]
    exact binop_ok (fun a b => a + b) s hsp1 h4
  · exact binop_ok (fun a b => u16 ((a : Int) - (b : Int))) s hsp1 h4
  · exact binop_ok (fun a b => u16 (toInt16 a * toInt16 b)) s hsp1 h4
  · have h1 : (toInt16 (nos16 s) * toInt16 (tos16 s)) % 65536
        = (((nos16 s * tos16 s : Nat) : Int)) % 65536 := by
      rw [Int.mul_emod, toInt16_emod, toInt16_emod, ← Int.mul_emod]
      push_cast
      rfl
    rw [h1]
    omega
  · exact unop_ok (fun a => u16 (-(toInt16 a))) s hsp1 hsp2
  · have ht := tos16_lt s
    unfold toInt16
    split <;> omega
  · rw [tos16_binResult, Nat.mod_eq_of_lt hv]
  · rw [tos16_unResult, Nat.mod_eq_of_lt hv]

theorem arith_ops_witness :
    op_neg (stack2 5 7) = Res.ok () (unResult (stack2 5 7) ((-(toInt16 (tos16 (stack2 5 7)))) % 65536).toNat) :=
  (arith_ops (stack2 5 7) (by decide) (by decide)).2.1

/-- C17. In every state whose stack (inside its page) holds at least one 16-bit
word and whose `heap_limit` is a 16-bit value, `reserve` pops `size`.  If
`hp + size > heap_limit`, the sum taken without wraparound, it raises
`HEAP_OVERFLOW`: `err = 2`, `run` cleared, `hp` and memory as before.
Otherwise it returns with `hp := hp + size` and the old `hp` pushed: `sp` is
as before the pop, the old `hp` is TOS, and no byte of memory other than the
two of that stack slot has changed. -/
theorem reserve_spec (s : State) (hsp1 : 0x0100 ≤ s.sp) (hsp2 : s.sp + 2 ≤ 0x01ff)
    (hlim : s.heap_limit ≤ 0xffff) :
    (s.hp + tos16 s > s.heap_limit →
      intrinsic_reserve s = Res.fatal { s with sp := s.sp + 2, err := 2, run := false }) ∧
    (s.hp + tos16 s ≤ s.heap_limit →
      intrinsic_reserve s = Res.ok () (unResult { s with hp := s.hp + tos16 s } s.hp) ∧
      (unResult { s with hp := s.hp + tos16 s } s.hp).hp = s.hp + tos16 s ∧
      (unResult { s with hp := s.hp + tos16 s } s.hp).sp = s.sp ∧
      tos16 (unResult { s with hp := s.hp + tos16 s } s.hp) = s.hp ∧
      ∀ x, x ≠ s.sp + 1 → x ≠ s.sp + 2 →
        (unResult { s with hp := s.hp + tos16 s } s.hp).mem x = s.mem x) := by
  have happ : intrinsic_reserve s =
      (if s.hp + tos16 s > s.heap_limit then fatal_error ERR_HEAP_OVERFLOW
       else do
         modifyState fun s1 => { s1 with hp := (s1.hp + tos16 s) % 65536 }
         push16 s.hp) { s with sp := s.sp + 2 } := by
    unfold intrinsic_reserve
    rw [bind_apply, getState_apply]
    dsimp only
    rw [bind_apply, pop16_ok s (by omega)]
  refine ⟨fun hgt => ?_, fun hle => ⟨?_, rfl, rfl, ?_, fun x h1 h2 => ?_⟩⟩
  · rw [happ, if_pos hgt]
    rfl
  · have hpush := push16_ok s.hp { s with sp := s.sp + 2, hp := s.hp + tos16 s }
      (by show 0x0102 ≤ s.sp + 2; omega) (by show s.sp + 2 < 65536; omega)
    have e : (s.hp + tos16 s) % 65536 = s.hp + tos16 s := Nat.mod_eq_of_lt (by omega)
    rw [happ, if_neg (by omega), bind_apply, modifyState_apply]
    dsimp only
    rw [e, hpush]
    rfl
  · rw [tos16_unResult]
    exact Nat.mod_eq_of_lt (by omega)
  · exact unResult_mem _ _ x h1 h2

theorem reserve_spec_witness :
    tos16 (unResult { stack2 5 7 with hp := (stack2 5 7).hp + tos16 (stack2 5 7) } (stack2 5 7).hp)
      = (stack2 5 7).hp :=
  ((reserve_spec (stack2 5 7) (by decide) (by decide) (by decide)).2 (by decide)).2.2.2.1

theorem faults_pure {α : Type} {P : Nat → Prop} (a : α) : Faults P (pure a : M α) := by
  intro s s1 h
  cases h

theorem faults_bind {α β : Type} {P : Nat → Prop} {x : M α} {f : α → M β}
    (hx : Faults P x) (hf : ∀ a, Faults P (f a)) : Faults P (x >>= f) := by
  intro s s2 h
  rw [bind_apply] at h
  cases hxs : x s with
  | ok a s1 =>
    rw [hxs] at h
    exact hf a s1 s2 h
  | fatal s1 =>
    rw [hxs] at h
    have e : s1 = s2 := by injection h
    rw [← e]
    exact hx s s1 hxs
  | diverge => rw [hxs] at h; cases h
  | undefined => rw [hxs] at h; cases h

theorem faults_getState {P : Nat → Prop} : Faults P getState := by
  intro s s1 h
  cases h

theorem faults_modifyState {P : Nat → Prop} (f : State → State) : Faults P (modifyState f) := by
  intro s s1 h
  cases h

theorem faults_fatal_error {α : Type} {P : Nat → Prop} (num : Nat) (h : P num) :
    Faults P (fatal_error num : M α) := by
  intro s s1 hs
  cases hs
  exact h

theorem faults_undefined {α : Type} {P : Nat → Prop} : Faults P (fun _ => Res.undefined : M α) := by
  intro s s1 h
  cases h

theorem faults_runtime_error {P : Nat → Prop} (num : Nat) (h : P num) : Faults P (runtime_error num) := by
  intro s s1 hs
  unfold runtime_error at hs
  split at hs
  · cases hs
  · cases hs
    exact h

theorem faults_pop8 {P : Nat → Prop} (h : P 16) : Faults P pop8 := by
  intro s s1 hs
  unfold pop8 at hs
  split at hs <;> cases hs
  exact h

theorem faults_pop16 {P : Nat → Prop} (h : P 16) : Faults P pop16 := by
  intro s s1 hs
  unfold pop16 at hs
  split at hs <;> cases hs
  exact h

theorem faults_push16 {P : Nat → Prop} (h : P 17) (v : Nat) : Faults P (push16 v) := by
  intro s s1 hs
  unfold push16 at hs
  split at hs <;> cases hs
  exact h

theorem faults_peek_tos16 {P : Nat → Prop} : Faults P peek_tos16 := by
  intro s s1 h
  cases h

theorem faults_fetch8 {P : Nat → Prop} : Faults P fetch8 := by
  intro s s1 h
  cases h

theorem faults_heap_pop_8 {P : Nat → Prop} (h : P 18) : Faults P heap_pop_8 := by
  intro s s1 hs
  unfold heap_pop_8 at hs
  split at hs <;> cases hs
  exact h

theorem faults_heap_pop_16 {P : Nat → Prop} (h : P 18) : Faults P heap_pop_16 := by
  intro s s1 hs
  unfold heap_pop_16 at hs
  split at hs <;> cases hs
  exact h

theorem faults_heap_push_8 {P : Nat → Prop} (h : P 2) (v : Nat) : Faults P (heap_push_8 v) := by
  intro s s1 hs
  unfold heap_push_8 at hs
  split at hs <;> cases hs
  exact h

theorem faults_heap_push_16 {P : Nat → Prop} (h : P 2) (v : Nat) : Faults P (heap_push_16 v) := by
  intro s s1 hs
  unfold heap_push_16 at hs
  split at hs
  · cases hs
    exact h
  · split at hs <;> cases hs

theorem faults_mem_assign {P : Nat → Prop} (a v : Nat) : Faults P (mem_assign a v) := by
  intro s s1 hs
  unfold mem_assign at hs
  split at hs <;> cases hs

theorem faults_call_write16 {P : Nat → Prop} (a d : Nat) : Faults P (call_write16 a d) := by
  intro s s1 hs
  unfold call_write16 at hs
  split at hs <;> cases hs

theorem faults_fgetc_stdin {P : Nat → Prop} : Faults P fgetc_stdin := by
  intro s s1 h
  unfold fgetc_stdin at h
  split at h <;> cases h

theorem faults_fgetc_disk {P : Nat → Prop} (f : List Nat) : Faults P (fgetc_disk f) := by
  intro s s1 h
  unfold fgetc_disk at h
  split at h <;> cases h

theorem faults_fputc_stdout {P : Nat → Prop} (c : Nat) : Faults P (fputc_stdout c) := by
  intro s s1 h
  unfold fputc_stdout at h
  split at h <;> cases h

theorem faults_fputc_disk {P : Nat → Prop} (f : List Nat) (c : Nat) : Faults P (fputc_disk f c) := by
  intro s s1 h
  unfold fputc_disk at h
  split at h <;> cases h

theorem faults_fprintf_stdout {P : Nat → Prop} (l : List Nat) : Faults P (fprintf_stdout l) := by
  induction l with
  | nil => exact faults_pure ()
  | cons c rest ih =>
    unfold fprintf_stdout
    exact faults_bind (faults_fputc_stdout c) (fun _ => ih)

theorem faults_op_arg_loop {P : Nat → Prop} (h : P 16) (count left : Nat) :
    Faults P (op_arg_loop count left) := by
  induction left with
  | zero => exact faults_pure ()
  | succ n ih =>
    unfold op_arg_loop
    repeat (first
      | exact faults_pop8 h
      | exact ih
      | exact faults_getState
      | exact faults_mem_assign _ _
      | refine faults_bind ?_ (fun _ => ?_))

theorem faults_text_loop {P : Nat → Prop} (h : P 3) (n si : Nat) : Faults P (text_loop n si) := by
  induction n generalizing si with
  | zero => intro s s1 h; cases h
  | succ n ih =>
    unfold text_loop
    repeat (first
      | exact faults_fputc_stdout _
      | exact ih _
      | exact faults_getState
      | exact faults_pure _
      | exact faults_runtime_error _ h
      | refine faults_bind ?_ (fun _ => ?_)
      | split
      | dsimp only)

/-- The fatal faults an intrinsic can raise: heap overflow, I/O error, abort,
unimplemented intrinsic, stack underflow and stack overflow. -/
theorem faults_intrinsic {P : Nat → Prop} (h2 : P 2) (h3 : P 3) (h12 : P 12) (h14 : P 14)
    (h16 : P 16) (h17 : P 17) (inum : Nat) (fn : M Unit) (h : intrinsic inum = some fn) :
    Faults P fn := by
  unfold intrinsic at h
  split at h <;> cases h
  all_goals
    simp only [intrinsic_abs, intrinsic_ran, intrinsic_rem, intrinsic_reserve, intrinsic_swap,
      intrinsic_extend, intrinsic_restart, intrinsic_chin, intrinsic_chout, intrinsic_crlf,
      intrinsic_numin, intrinsic_numout, intrinsic_text, intrinsic_openi, intrinsic_openo,
      intrinsic_close, intrinsic_abort, intrinsic_trap, intrinsic_space, intrinsic_rerun,
      intrinsic_gethp, intrinsic_sethp, intrinsic_errflg, intrinsic_cursor, intrinsic_setrun,
      intrinsic_hexin, intrinsic_hexout, chin_finish]
    repeat (with_reducible first
      | exact faults_pop16 h16
      | exact faults_push16 h17 _
      | exact faults_fgetc_stdin
      | exact faults_fgetc_disk _
      | exact faults_fputc_stdout _
      | exact faults_fputc_disk _ _
      | exact faults_fprintf_stdout _
      | exact faults_text_loop h3 _ _
      | exact faults_getState
      | exact faults_pure _
      | exact faults_fatal_error _ h2
      | exact faults_fatal_error _ h12
      | exact faults_fatal_error _ h14
      | exact faults_undefined
      | exact faults_runtime_error _ h3
      | exact faults_modifyState _
      | refine faults_bind ?_ (fun _ => ?_)
      | split
      | dsimp only)

theorem faults_cml {P : Nat → Prop} (h2 : P 2) (h3 : P 3) (h5 : P 5) (h12 : P 12) (h14 : P 14)
    (h16 : P 16) (h17 : P 17) : Faults P op_cml := by
  unfold op_cml
  refine faults_bind faults_fetch8 (fun b => ?_)
  dsimp only
  split
  · exact faults_fatal_error _ h5
  · split
    · exact faults_fatal_error _ h5
    · next fn hi => exact faults_intrinsic h2 h3 h12 h14 h16 h17 _ fn hi

/-- The fatal faults an opcode handler can raise; `BAD_OPCODE` (4) is not
among them. -/
theorem faults_op {P : Nat → Prop} (h1 : P 1) (h2 : P 2) (h3 : P 3) (h5 : P 5) (h12 : P 12)
    (h13 : P 13) (h14 : P 14) (h15 : P 15) (h16 : P 16) (h17 : P 17) (h18 : P 18)
    (opcode : Nat) (fn : M Unit) (h : (op opcode).1 = some fn) : Faults P fn := by
  unfold op at h
  split at h <;> cases h
  case h_13 => exact faults_cml h2 h3 h5 h12 h14 h16 h17
  all_goals
    simp only [op_exit, op_lod, op_ldx, op_sto, op_stx, op_cal, do_call, op_ret, op_jmp, op_jpc,
      op_hpi, op_arg, op_imm, op_add, op_sub, op_muy, op_div, op_neg, op_eq, op_ne, op_ge, op_gt,
      op_le, op_lt, op_for, op_inc, op_or, op_and, op_not, op_dupcat, op_dba, op_std, op_dbi,
      op_adr, op_ldi, op_lda, op_ims, op_cjp, op_jsr, op_rts, op_drp, op_ecl,
      fetch16, fetch_level]
    repeat (with_reducible first
      | exact faults_pop16 h16
      | exact faults_push16 h17 _
      | exact faults_peek_tos16
      | exact faults_fetch8
      | exact faults_heap_pop_8 h18
      | exact faults_heap_pop_16 h18
      | exact faults_heap_push_8 h2 _
      | exact faults_heap_push_16 h2 _
      | exact faults_op_arg_loop h16 _ _
      | exact faults_mem_assign _ _
      | exact faults_call_write16 _ _
      | exact faults_getState
      | exact faults_pure _
      | exact faults_fatal_error _ h1
      | exact faults_fatal_error _ h13
      | exact faults_fatal_error _ h15
      | exact faults_modifyState _
      | refine faults_bind ?_ (fun _ => ?_)
      | split
      | dsimp only)

/-- A round of the dispatcher on an opcode below 0x80 that has a handler. -/
theorem interp_step_op (s : State) (fn : M Unit) (hlt : (s.mem s.pc).val < 0x80)
    (hfn : (op (s.mem s.pc).val).1 = some fn) (hcls : class_bytes (op (s.mem s.pc).val).2 ≠ 0) :
    interp_step s = fn { s with pc := (s.pc + 1) % 65536 } := by
  have hge : ¬ (s.mem s.pc).val ≥ 0x80 := by omega
  unfold interp_step
  rw [bind_apply, fetch8_apply]
  dsimp only
  rw [if_neg hge, if_neg hcls, if_neg hge, hfn]

theorem op_none (b : Nat) (h : 0x2a ≤ b) : op b = (none, 0) := by
  unfold op
  split <;> first | rfl | (exfalso; omega)

theorem op_some (b : Nat) (h : b ≤ 0x29) : ∃ fn, (op b).1 = some fn ∧ class_bytes (op b).2 ≠ 0 := by
  interval_cases b <;> exact ⟨_, rfl, by decide⟩

/-- C20. Dispatching an opcode byte `b` with `0x2A ≤ b ≤ 0x7F` raises
`BAD_OPCODE`: the round ends in a fatal fault with `err = 4` and `run`
cleared, and apart from `pc` (which has passed the opcode byte) nothing has
changed: `sp`, `hp`, `level`, `display` and memory are as before.  Every byte
`b ≤ 0x29` has a registered handler, the dispatcher runs that handler, and no
fatal fault of that round carries error number 4. -/
theorem bad_opcode (s : State) :
    (0x2a ≤ (s.mem s.pc).val → (s.mem s.pc).val ≤ 0x7f →
      interp_step s = Res.fatal { s with pc := (s.pc + 1) % 65536, err := 4, run := false }) ∧
    ((s.mem s.pc).val ≤ 0x29 →
      ∃ fn, (op (s.mem s.pc).val).1 = some fn ∧
        interp_step s = fn { s with pc := (s.pc + 1) % 65536 } ∧
        ∀ s1, interp_step s = Res.fatal s1 → s1.err ≠ 4) := by
  refine ⟨fun h1 h2 => ?_, fun h => ?_⟩
  · have hge : ¬ (s.mem s.pc).val ≥ 0x80 := by omega
    unfold interp_step
    rw [bind_apply, fetch8_apply]
    dsimp only
    rw [if_neg hge, op_none _ h1, if_neg (by decide), if_neg hge]
    rfl
  · obtain ⟨fn, hfn, hcls⟩ := op_some _ h
    have hstep := interp_step_op s fn (by omega) hfn hcls
    refine ⟨fn, hfn, hstep, fun s1 hs => ?_⟩
    rw [hstep] at hs
    exact faults_op (P := fun e => e ≠ 4) (by decide) (by decide) (by decide) (by decide) (by decide)
      (by decide) (by decide) (by decide) (by decide) (by decide) (by decide) _ fn hfn _ s1 hs

theorem push16_pc (v p : Nat) (s : State) : push16 v { s with pc := p } = setPc p (push16 v s) := by
  unfold push16 setPc
  by_cases h : s.sp < STACK_MIN + 2
  · simp only [if_pos h]
    rfl
  · simp only [if_neg h]

theorem or_high_bit (k : Nat) (hk : k < 128) : 0x80 ||| k = 128 + k := by
  interval_cases k <;> rfl

/-- C13. Let memory hold the one-byte opcode `0x80 | k` (`k < 128`) at address
`p` and the three bytes `01 00 2k` (`lod` with level byte 0 and offset byte
`2k`) at address `q`.  A round of the dispatcher started at `p` and one
started at `q` both do `push16(mem16(display[0] + 2k))` on the same state and
differ only in the final `pc`, which is `p + 1` resp. `q + 3`: they yield the
same `sp`, memory (stack contents included), `hp`, `level` and `display`, and
the same fault if there is one.  With room on the stack the pushed word
`mem16(display[0] + 2k)` is the new TOS; without, both raise `STACK_OVERFLOW`. -/
theorem short_load_is_lod (s : State) (k p q : Nat) (hk : k < 128)
    (hshort : (s.mem p).val = 0x80 ||| k)
    (hlod : (s.mem q).val = 0x01) (hlv : (s.mem ((q + 1) % 65536)).val = 0)
    (hoff : (s.mem ((q + 2) % 65536)).val = 2 * k) :
    interp_step { s with pc := p } =
      setPc ((p + 1) % 65536) (push16 (read16 s.mem (s.display 0 + 2 * k)) s) ∧
    interp_step { s with pc := q } =
      setPc ((q + 3) % 65536) (push16 (read16 s.mem (s.display 0 + 2 * k)) s) ∧
    (0x0102 ≤ s.sp → s.sp < 65536 →
      ∃ s1, push16 (read16 s.mem (s.display 0 + 2 * k)) s = Res.ok () s1 ∧
        tos16 s1 = read16 s.mem (s.display 0 + 2 * k) ∧ s1.sp = s.sp - 2 ∧ s1.hp = s.hp ∧
        s1.level = s.level ∧ s1.display = s.display) ∧
    (s.sp < 0x0102 →
      push16 (read16 s.mem (s.display 0 + 2 * k)) s =
        Res.fatal { s with err := 17, run := false }) := by
  refine ⟨?_, ?_, fun h1 h2 => ⟨_, push16_ok _ s h1 h2, ?_, rfl, rfl, rfl, rfl⟩, fun h => ?_⟩
  · have hb : (s.mem p).val = 128 + k := by rw [hshort, or_high_bit k hk]
    have hge : (s.mem p).val ≥ 0x80 := by omega
    have hoffs : (((s.mem p).val &&& 0x7f) <<< 1) % 65536 = 2 * k := by
      have e := Nat.and_pow_two_sub_one_eq_mod (s.mem p).val 7
      have e1 : (s.mem p).val &&& 0x7f = k := by
        rw [show (0x7f : Nat) = 2 ^ 7 - 1 from rfl, e, hb]
        omega
      rw [e1, Nat.shiftLeft_eq]
      omega
    unfold interp_step
    rw [bind_apply, fetch8_apply]
    dsimp only
    rw [if_pos hge, if_neg (by decide), if_pos hge, bind_apply, getState_apply]
    dsimp only
    rw [hoffs]
    exact push16_pc _ _ s
  · have hstep := interp_step_op { s with pc := q } op_lod
      (by show (s.mem q).val < 0x80; omega)
      (by show (op (s.mem q).val).1 = some op_lod; rw [hlod]; rfl)
      (by show class_bytes (op (s.mem q).val).2 ≠ 0; rw [hlod]; decide)
    have e3 : ((q + 2) % 65536 + 1) % 65536 = (q + 3) % 65536 := by omega
    have e2 : ((q + 1) % 65536 + 1) % 65536 = (q + 2) % 65536 := by omega
    rw [hstep]
    unfold op_lod
    rw [bind_apply, fetch_level_ok _ 0 (by show (s.mem ((q + 1) % 65536)).val = 2 * 0; rw [hlv])
      (by decide)]
    dsimp only
    rw [bind_apply, fetch8_apply]
    dsimp only
    rw [bind_apply, getState_apply]
    dsimp only
    rw [e2, hoff, e3]
    exact push16_pc _ _ s
  · exact (tos16_pushed s.mem s.sp _ _ h1 rfl rfl).trans (Nat.mod_eq_of_lt (read16_lt _ _))
  · unfold push16
    rw [if_pos (by simp only [STACK_MIN]; omega)]
    rfl

theorem short_load_is_lod_witness :
    interp_step { bootImage "8501000A00$" with pc := 0x1700 } =
      setPc ((0x1700 + 1) % 65536)
        (push16 (read16 (bootImage "8501000A00$").mem ((bootImage "8501000A00$").display 0 + 2 * 5))
          (bootImage "8501000A00$")) :=
  (short_load_is_lod (bootImage "8501000A00$") 5 0x1700 0x1701 (by decide) (by decide!) (by decide!)
    (by decide!) (by decide!)).1

/-- C18. A call `runtime_error(num)` returns, with `err := 3` and nothing
else changed, exactly when `num = IO_ERROR` (3) and `trap` is false; in every
other case it is fatal with `err := num` and `run` cleared.  Raised by an
intrinsic, here `chin` on a device other than 0, 3 and 7: with `trap` false
the round of the dispatcher returns with the device word popped, `err = 3`,
`run` as before and `pc` at the next opcode; with `trap` true the round ends
in a fatal fault with `err = 3` and `run` cleared.  The image
`imm 0; cml trap; imm 1; cml chin; exi` passes the `chin` with `run` still set
and `err = 3` and goes on to the `exi`; with `imm 1; cml trap` instead, the
round of the `chin` is fatal with error 3.  Both end with exit status 3. -/
theorem runtime_error_policy (num : Nat) (s : State) :
    ((∃ s1, runtime_error num s = Res.ok () s1) ↔ (num = 3 ∧ s.trap = false)) ∧
    (num = 3 ∧ s.trap = false → runtime_error num s = Res.ok () { s with err := 3 }) ∧
    (¬ (num = 3 ∧ s.trap = false) →
      runtime_error num s = Res.fatal { s with err := num, run := false }) ∧
    ((s.mem s.pc).val = 0x0c → (s.mem ((s.pc + 1) % 65536)).val = 0x47 → s.sp + 2 ≤ 0x01ff →
      tos16 s ≠ 0 → tos16 s ≠ 3 → tos16 s ≠ 7 →
      (s.trap = false →
        interp_step s = Res.ok () { s with pc := (s.pc + 2) % 65536, sp := s.sp + 2, err := 3 }) ∧
      (s.trap = true →
        interp_step s =
          Res.fatal { s with pc := (s.pc + 2) % 65536, sp := s.sp + 2, err := 3, run := false })) ∧
    (runSteps 4 (bootImage "0B00000C510B01000C4700$")).map (fun t => (t.run, t.err, t.pc, t.sp))
      = some (true, 3, 0x170a, 0x01ff) ∧
    (main 100 1 (ascii "0B00000C510B01000C4700$") (boot quietHost [] false false)).map
      (fun r => (r.fst, r.snd.run, r.snd.pc)) = some (3, false, 0x170b) ∧
    (runSteps 3 (bootImage "0B01000C510B01000C4700$")).map
      (fun t => (t.run, t.trap, faultOf (interp_step t))) = some (true, true, some 3) ∧
    (main 100 1 (ascii "0B01000C510B01000C4700$") (boot quietHost [] false false)).map
      (fun r => (r.fst, r.snd.run, r.snd.pc)) = some (3, false, 0x170a) := by
  have hok : num = 3 ∧ s.trap = false → runtime_error num s = Res.ok () { s with err := 3 } := by
    intro h
    unfold runtime_error
    rw [if_pos h, h.1]
  have hfatal : ¬ (num = 3 ∧ s.trap = false) →
      runtime_error num s = Res.fatal { s with err := num, run := false } := by
    intro h
    unfold runtime_error
    rw [if_neg h]
    rfl
  refine ⟨⟨fun h => ?_, fun h => ⟨_, hok h⟩⟩, hok, hfatal, ?_, by decide!, by decide!, by decide!,
    by decide!⟩
  · by_contra hn
    obtain ⟨s1, h1⟩ := h
    rw [hfatal hn] at h1
    cases h1
  · intro hop harg hsp h0 h3 h7
    have e2 : ((s.pc + 1) % 65536 + 1) % 65536 = (s.pc + 2) % 65536 := by omega
    have hstep := interp_step_op s op_cml (by omega) (by rw [hop]; rfl) (by rw [hop]; decide)
    have hchin : interp_step s = runtime_error ERR_IO_ERROR
        { s with pc := (s.pc + 2) % 65536, sp := s.sp + 2 } := by
      rw [hstep]
      unfold op_cml
      rw [bind_apply, fetch8_apply]
      dsimp only
      rw [harg, if_neg (by decide)]
      show intrinsic_chin _ = _
      unfold intrinsic_chin
      rw [bind_apply, pop16_ok _ (by show s.sp < 0x01fe; omega)]
      dsimp only
      rw [bind_apply, getState_apply]
      dsimp only
      rw [show ∀ p, tos16 { s with pc := p } = tos16 s from fun _ => rfl, if_neg h0, if_neg h3,
        if_neg h7, e2]
    refine ⟨fun ht => ?_, fun ht => ?_⟩
    · rw [hchin]
      unfold runtime_error
      rw [if_pos ⟨rfl, ht⟩]
    · rw [hchin]
      unfold runtime_error
      rw [if_neg (by rw [show ({ s with pc := (s.pc + 2) % 65536, sp := s.sp + 2 } : State).trap
        = s.trap from rfl, ht]; exact fun h => Bool.noConfusion h.2)]
      rfl

theorem lvl_chain : Chain SameLevel := ⟨fun _ => rfl, fun _ _ _ h1 h2 => h2.trans h1⟩

theorem lvl_of_eq {s s1 : State} (h : s1.level = s.level) : SameLevel s s1 := h

theorem lvl_pop8 : Sat SameLevel pop8 := by
  intro s a s1 h
  unfold pop8 at h
  split at h <;> cases h
  exact rfl

theorem lvl_pop16 : Sat SameLevel pop16 := by
  intro s a s1 h
  unfold pop16 at h
  split at h <;> cases h
  exact rfl

theorem lvl_push16 (v : Nat) : Sat SameLevel (push16 v) := by
  intro s a s1 h
  unfold push16 at h
  split at h <;> cases h
  exact rfl

theorem lvl_peek_tos16 : Sat SameLevel peek_tos16 := by
  intro s a s1 h
  cases h
  exact rfl

theorem lvl_fetch8 : Sat SameLevel fetch8 := by
  intro s a s1 h
  cases h
  exact rfl

theorem lvl_fgetc_stdin : Sat SameLevel fgetc_stdin := by
  intro s a s1 h
  unfold fgetc_stdin at h
  split at h <;> cases h <;> exact rfl

theorem lvl_fgetc_disk (f : List Nat) : Sat SameLevel (fgetc_disk f) := by
  intro s a s1 h
  unfold fgetc_disk at h
  split at h <;> cases h <;> exact rfl

theorem lvl_fputc_stdout (c : Nat) : Sat SameLevel (fputc_stdout c) := by
  intro s a s1 h
  unfold fputc_stdout at h
  split at h <;> cases h <;> exact rfl

theorem lvl_fputc_disk (f : List Nat) (c : Nat) : Sat SameLevel (fputc_disk f c) := by
  intro s a s1 h
  unfold fputc_disk at h
  split at h <;> cases h <;> exact rfl

theorem lvl_fprintf_stdout (l : List Nat) : Sat SameLevel (fprintf_stdout l) := by
  induction l with
  | nil => exact sat_pure lvl_chain ()
  | cons c rest ih =>
    unfold fprintf_stdout
    exact sat_bind lvl_chain (lvl_fputc_stdout c) (fun _ => ih)

theorem lvl_err (s : State) (n : Nat) : SameLevel s { s with err := n } := rfl

theorem lvl_op_arg_loop (count left : Nat) : Sat SameLevel (op_arg_loop count left) := by
  induction left with
  | zero => exact sat_pure lvl_chain ()
  | succ n ih =>
    unfold op_arg_loop
    repeat (first
      | exact lvl_pop8
      | exact ih
      | exact sat_getState lvl_chain
      | exact sat_mem_assign (fun _ _ => lvl_of_eq rfl) _ _
      | refine sat_bind lvl_chain ?_ (fun _ => ?_))

theorem lvl_text_loop (n si : Nat) : Sat SameLevel (text_loop n si) := by
  induction n generalizing si with
  | zero => intro s a s1 h; cases h
  | succ n ih =>
    unfold text_loop
    repeat (first
      | exact lvl_fputc_stdout _
      | exact ih _
      | exact sat_getState lvl_chain
      | exact sat_pure lvl_chain _
      | exact sat_runtime_error lvl_err _
      | refine sat_bind lvl_chain ?_ (fun _ => ?_)
      | split
      | dsimp only)

theorem lvl_intrinsic (inum : Nat) (fn : M Unit) (h : intrinsic inum = some fn) :
    Sat SameLevel fn := by
  unfold intrinsic at h
  split at h <;> cases h
  all_goals
    simp only [intrinsic_abs, intrinsic_ran, intrinsic_rem, intrinsic_reserve, intrinsic_swap,
      intrinsic_extend, intrinsic_restart, intrinsic_chin, intrinsic_chout, intrinsic_crlf,
      intrinsic_numin, intrinsic_numout, intrinsic_text, intrinsic_openi, intrinsic_openo,
      intrinsic_close, intrinsic_abort, intrinsic_trap, intrinsic_space, intrinsic_rerun,
      intrinsic_gethp, intrinsic_sethp, intrinsic_errflg, intrinsic_cursor, intrinsic_setrun,
      intrinsic_hexin, intrinsic_hexout, chin_finish]
    repeat (with_reducible first
      | exact lvl_pop16
      | exact lvl_push16 _
      | exact lvl_fgetc_stdin
      | exact lvl_fgetc_disk _
      | exact lvl_fputc_stdout _
      | exact lvl_fputc_disk _ _
      | exact lvl_fprintf_stdout _
      | exact lvl_text_loop _ _
      | exact sat_getState lvl_chain
      | exact sat_pure lvl_chain _
      | exact sat_fatal_error _
      | exact sat_undefined
      | exact sat_runtime_error lvl_err _
      | exact sat_modifyState (fun _ => lvl_of_eq rfl)
      | refine sat_bind lvl_chain ?_ (fun _ => ?_)
      | split
      | dsimp only)

theorem lvl_cml : Sat SameLevel op_cml := by
  unfold op_cml
  refine sat_bind lvl_chain lvl_fetch8 (fun b => ?_)
  dsimp only
  split
  · exact sat_fatal_error _
  · split
    · exact sat_fatal_error _
    · next fn hi => exact lvl_intrinsic _ fn hi

/-- Every opcode handler other than `cal` and `ret` leaves `level` alone. -/
theorem lvl_op (opcode : Nat) (fn : M Unit) (h : (op opcode).1 = some fn)
    (h5 : opcode ≠ 0x05) (h6 : opcode ≠ 0x06) : Sat SameLevel fn := by
  unfold op at h
  split at h <;> cases h
  case h_6 => exact absurd rfl h5
  case h_7 => exact absurd rfl h6
  case h_13 => exact lvl_cml
  all_goals
    simp only [op_exit, op_lod, op_ldx, op_sto, op_stx, op_jmp, op_jpc, op_hpi,
      op_arg, op_imm, op_add, op_sub, op_muy, op_div, op_neg, op_eq, op_ne, op_ge, op_gt,
      op_le, op_lt, op_for, op_inc, op_or, op_and, op_not, op_dupcat, op_dba, op_std, op_dbi,
      op_adr, op_ldi, op_lda, op_ims, op_cjp, op_jsr, op_rts, op_drp, op_ecl,
      fetch16, fetch_level]
    repeat (with_reducible first
      | exact lvl_pop16
      | exact lvl_push16 _
      | exact lvl_peek_tos16
      | exact lvl_fetch8
      | exact lvl_op_arg_loop _ _
      | exact sat_mem_assign (fun _ _ => lvl_of_eq rfl) _ _
      | exact sat_call_write16 (fun _ _ => lvl_of_eq rfl) _ _
      | exact sat_getState lvl_chain
      | exact sat_pure lvl_chain _
      | exact sat_fatal_error _
      | exact sat_modifyState (fun _ => lvl_of_eq rfl)
      | refine sat_bind lvl_chain ?_ (fun _ => ?_)
      | split
      | dsimp only)

theorem fetch_level_lt (s s1 : State) (L : Nat) (h : fetch_level s = Res.ok L s1) : L < 8 := by
  unfold fetch_level at h
  rw [bind_apply, fetch8_apply] at h
  dsimp only at h
  split at h
  · cases h
  · split at h
    · cases h
    · next hlt =>
      cases h
      simp only [MAX_LEVEL] at hlt
      omega

theorem lvl_heap_push_8 (v : Nat) : Sat SameLevel (heap_push_8 v) := by
  intro s a s1 h
  unfold heap_push_8 at h
  split at h <;> cases h
  exact rfl

theorem lvl_heap_push_16 (v : Nat) : Sat SameLevel (heap_push_16 v) := by
  intro s a s1 h
  unfold heap_push_16 at h
  split at h
  · cases h
  · split at h <;> cases h
    exact rfl

theorem do_call_level (L T : Nat) (s s1 : State) (h : do_call L T s = Res.ok () s1) :
    s1.level = L := by
  unfold do_call at h
  rw [bind_apply, getState_apply] at h
  dsimp only at h
  rw [bind_apply] at h
  cases hp : heap_push_8 (s.level <<< 1) s with
  | ok a s2 =>
    rw [hp] at h
    dsimp only at h
    rw [bind_apply, modifyState_apply] at h
    dsimp only at h
    have e : s1.level = ({ s2 with level := L } : State).level := by
      refine (?_ : Sat SameLevel _) _ _ _ h
      repeat (with_reducible first
        | exact lvl_heap_push_8 _
        | exact lvl_heap_push_16 _
        | exact sat_getState lvl_chain
        | exact sat_modifyState (fun _ => lvl_of_eq rfl)
        | refine sat_bind lvl_chain ?_ (fun _ => ?_))
    exact e
  | fatal s2 => rw [hp] at h; cases h
  | diverge => rw [hp] at h; cases h
  | undefined => rw [hp] at h; cases h

theorem op_cal_level (s s1 : State) (h : op_cal s = Res.ok () s1) : s1.level < 8 := by
  unfold op_cal at h
  rw [bind_apply] at h
  cases hl : fetch_level s with
  | ok L s2 =>
    rw [hl] at h
    dsimp only at h
    rw [bind_apply, fetch16_apply] at h
    dsimp only at h
    rw [do_call_level _ _ _ _ h]
    exact fetch_level_lt s s2 L hl
  | fatal s2 => rw [hl] at h; cases h
  | diverge => rw [hl] at h; cases h
  | undefined => rw [hl] at h; cases h

theorem shr_byte_lt (b : Fin 256) : b.val >>> 1 < 128 := by
  have h := b.isLt
  rw [Nat.shiftRight_eq_div_pow]
  omega

theorem bind_ok_inv {α β : Type} {x : M α} {f : α → M β} {s s2 : State} {b : β}
    (h : (x >>= f) s = Res.ok b s2) : ∃ a s1, x s = Res.ok a s1 ∧ f a s1 = Res.ok b s2 := by
  rw [bind_apply] at h
  cases hx : x s with
  | ok a s1 => rw [hx] at h; exact ⟨a, s1, rfl, h⟩
  | fatal s1 => rw [hx] at h; cases h
  | diverge => rw [hx] at h; cases h
  | undefined => rw [hx] at h; cases h

theorem heap_pop_8_inv (s s1 : State) (v : Nat) (h : heap_pop_8 s = Res.ok v s1) :
    v = (s.mem ((s.hp + 65535) % 65536)).val ∧ s1 = { s with hp := (s.hp + 65535) % 65536 } := by
  unfold heap_pop_8 at h
  split at h
  · cases h
  · cases h
    exact ⟨rfl, rfl⟩

theorem heap_pop_16_inv (s s1 : State) (v : Nat) (h : heap_pop_16 s = Res.ok v s1) :
    s1 = { s with hp := (s.hp + 65534) % 65536 } := by
  unfold heap_pop_16 at h
  split at h
  · cases h
  · cases h
    rfl

theorem op_ret_level (s s1 : State) (h : op_ret s = Res.ok () s1) :
    s1.level < 128 ∧
      ∀ f, s.display s.level = f + 6 → f + 6 < 65536 → s1.level = (s.mem f).val >>> 1 := by
  unfold op_ret at h
  obtain ⟨_, t0, h0, h⟩ := bind_ok_inv h
  obtain ⟨_, t1, h1, h⟩ := bind_ok_inv h
  obtain ⟨pc, t2, h2, h⟩ := bind_ok_inv h
  obtain ⟨_, t3, h3, h⟩ := bind_ok_inv h
  obtain ⟨od, t4, h4, h⟩ := bind_ok_inv h
  obtain ⟨b, t5, h5, h⟩ := bind_ok_inv h
  obtain ⟨_, t6, h6, h⟩ := bind_ok_inv h
  cases h0
  obtain ⟨_, e1⟩ := heap_pop_8_inv _ _ _ h1
  have e2 := heap_pop_16_inv _ _ _ h2
  cases h3
  have e4 := heap_pop_16_inv _ _ _ h4
  obtain ⟨eb, e5⟩ := heap_pop_8_inv _ _ _ h5
  cases h6
  cases h
  subst e1 e2 e4
  show b >>> 1 < 128 ∧ ∀ f, s.display s.level = f + 6 → f + 6 < 65536 → b >>> 1 = (s.mem f).val >>> 1
  rw [eb]
  refine ⟨shr_byte_lt _, fun f hd hf => ?_⟩
  dsimp only
  have e : ((((s.display s.level + 65535) % 65536 + 65534) % 65536 + 65534) % 65536
    + 65535) % 65536 = f := by omega
  rw [e]

/-- C19, amended. A round of the dispatcher that returns (without a fault and
with all its stores inside `mem`), started with `level < 8`, ends with
`level < 8` unless the instruction is `ret` (0x06):
`cal` sets `level` to its checked level operand and every other opcode and
intrinsic leaves `level` as it is.  After `ret`, `level` is the prev_level
byte of the current activation record (at `display[level] - 6`) shifted right
by one, which is below 128 but need not be below 8.  The block of `interp`
that sets up the registers ends with `level = 0`. -/
theorem level_bound_kept (s s1 : State) (h : interp_step s = Res.ok () s1) (hl : s.level < 8) :
    ((s.mem s.pc).val ≠ 0x06 → s1.level < 8) ∧
    ((s.mem s.pc).val ≠ 0x05 → (s.mem s.pc).val ≠ 0x06 → s1.level = s.level) ∧
    ((s.mem s.pc).val = 0x06 → s1.level < 128 ∧
      ∀ f, s.display s.level = f + 6 → f + 6 < 65536 → s1.level = (s.mem f).val >>> 1) ∧
    (∀ t t1, interp_init t = Res.ok () t1 → t1.level = 0) := by
  have key : ((s.mem s.pc).val ≠ 0x05 → (s.mem s.pc).val ≠ 0x06 → s1.level = s.level) ∧
      ((s.mem s.pc).val = 0x05 → s1.level < 8) ∧
      ((s.mem s.pc).val = 0x06 → s1.level < 128 ∧
        ∀ f, s.display s.level = f + 6 → f + 6 < 65536 → s1.level = (s.mem f).val >>> 1) := by
    unfold interp_step at h
    rw [bind_apply, fetch8_apply] at h
    dsimp only at h
    by_cases hb : class_bytes (if (s.mem s.pc).val ≥ 128 then CLASS_NO_OPERAND else (op (s.mem s.pc).val).2) = 0
    · rw [if_pos hb] at h; cases h
    · rw [if_neg hb] at h
      by_cases hs : (s.mem s.pc).val ≥ 128
      · rw [if_pos hs] at h
        have e : SameLevel { s with pc := (s.pc + 1) % 65536 } s1 :=
          sat_bind lvl_chain (sat_getState lvl_chain) (fun _ => lvl_push16 _) _ _ _ h
        exact ⟨fun _ _ => e, fun h5 => by omega, fun h6 => by omega⟩
      · rw [if_neg hs] at h
        generalize hi : (op (s.mem s.pc).val).1 = r at h
        cases r with
        | none => cases h
        | some fn =>
          have e : (s.mem s.pc).val ≠ 0x05 → (s.mem s.pc).val ≠ 0x06 →
              SameLevel { s with pc := (s.pc + 1) % 65536 } s1 :=
            fun h5 h6 => lvl_op _ fn hi h5 h6 _ _ _ h
          refine ⟨e, fun h5 => ?_, fun h6 => ?_⟩
          · rw [h5] at hi
            cases hi
            exact op_cal_level { s with pc := (s.pc + 1) % 65536 } s1 h
          · rw [h6] at hi
            cases hi
            exact op_ret_level { s with pc := (s.pc + 1) % 65536 } s1 h
  refine ⟨fun h6 => ?_, key.1, key.2.2, fun t t1 ht => ?_⟩
  · by_cases h5 : (s.mem s.pc).val = 0x05
    · exact key.2.1 h5
    · rw [key.1 h5 h6]
      exact hl
  · unfold interp_init at ht
    obtain ⟨_, t2, h0, ht⟩ := bind_ok_inv ht
    obtain ⟨_, t3, h1, ht⟩ := bind_ok_inv ht
    obtain ⟨_, t4, h2, ht⟩ := bind_ok_inv ht
    obtain ⟨_, t5, h3, ht⟩ := bind_ok_inv ht
    obtain ⟨_, t6, h4, ht⟩ := bind_ok_inv ht
    obtain ⟨_, t7, h5, ht⟩ := bind_ok_inv ht
    obtain ⟨_, t8, h6, ht⟩ := bind_ok_inv ht
    obtain ⟨_, t9, h7, ht⟩ := bind_ok_inv ht
    cases h6
    cases h7
    cases ht
    have e : t7.level = 0 := do_call_level 0 CODE_START t6 t7 h5
    exact e

theorem level_bound_kept_witness : afterImm.level < 8 :=
  (level_bound_kept afterInit afterImm rfl (by decide!)).1 (by decide!)

/-- C19 as stated fails: the image `imm 0x170A; imm 0x20; stx 0,0; ret` runs
four rounds without any fault; the `stx` overwrites the prev_level byte of the
main program's activation record and the `ret` then leaves `level = 16`, with
`run` still set. -/
theorem level_counterexample :
    Reachable afterRet ∧ afterRet.level = 16 ∧ afterRet.run = true ∧ ¬ afterRet.level < 8 :=
  ⟨reachable_runSteps 4 _ afterRet
      (reachable_bootImage "0B0A170B200004000006$" (by decide!))
      (getD_some _ _ (by decide!)),
    by decide!, by decide!, by decide!⟩

theorem pop8_ok (s : State) (h : s.sp < 0x01ff) :
    pop8 s = Res.ok (s.mem (s.sp + 1)).val { s with sp := s.sp + 1 } := by
  unfold pop8
  have e1 : (s.sp + 1) % 65536 = s.sp + 1 := by omega
  rw [if_neg (by simp only [INITIAL_STACK]; omega)]
  simp only [e1]

theorem toByte_val_self (b : Fin 256) : toByte b.val = b :=
  Fin.ext (Nat.mod_eq_of_lt b.isLt)

/-- The loop of `op_arg` from round `t` on, when the stack holds enough bytes. -/
theorem op_arg_loop_ok (s : State) (n left t : Nat) (ht : t + left = n + 1)
    (hsp : s.sp + n + 1 ≤ 0x01ff) (hin : s.hp + 6 + n ≤ 0xFFFF) :
    op_arg_loop n left { s with sp := s.sp + t, mem := arg_copy s.mem s.hp s.sp n t } =
      Res.ok () { s with sp := s.sp + n + 1, mem := arg_copy s.mem s.hp s.sp n (n + 1) } := by
  induction left generalizing t with
  | zero =>
    have e : t = n + 1 := by omega
    subst e
    rfl
  | succ left ih =>
    have e : n - left = t := by omega
    have e1 : s.sp + t + 1 = s.sp + 1 + t := by omega
    unfold op_arg_loop
    dsimp only
    rw [bind_apply, pop8_ok _ (by show s.sp + t < 0x01ff; omega)]
    dsimp only
    rw [bind_apply, getState_apply]
    dsimp only
    rw [bind_apply, mem_assign_in _ _ _ (by show s.hp + 6 + (n - (n - left)) < 65536; omega)]
    dsimp only
    rw [e, e1]
    have h := ih (t + 1) (by omega)
    have e2 : s.sp + (t + 1) = s.sp + 1 + t := by omega
    rw [e2] at h
    exact h

/-- The loop of `op_arg` when the stack runs out before the last round. -/
theorem op_arg_loop_underflow (n left : Nat) (st : State) (h : 0x01ff < st.sp + left)
    (hl : 0 < left) (hin : st.hp + 6 + n ≤ 0xFFFF) :
    ∃ s1, op_arg_loop n left st = Res.fatal s1 ∧ s1.err = 16 ∧ s1.run = false ∧ s1.hp = st.hp := by
  induction left generalizing st with
  | zero => omega
  | succ left ih =>
    unfold op_arg_loop
    dsimp only
    rw [bind_apply]
    by_cases hs : st.sp < 0x01ff
    · rw [pop8_ok st hs]
      dsimp only
      rw [bind_apply, getState_apply]
      dsimp only
      rw [bind_apply, mem_assign_in _ _ _ (by show st.hp + 6 + (n - (n - left)) < 65536; omega)]
      dsimp only
      exact ih _ (by show 0x01ff < st.sp + 1 + left; omega) (by omega) (by exact hin)
    · unfold pop8
      rw [if_pos (by simp only [INITIAL_STACK]; omega)]
      exact ⟨_, rfl, rfl, rfl, rfl⟩

theorem arg_copy_other (m : Mem) (hp sp n t x : Nat) (h : x < hp + 6 ∨ hp + 6 + n < x) :
    arg_copy m hp sp n t x = m x := by
  induction t with
  | zero => rfl
  | succ t ih =>
    unfold arg_copy
    rw [setByte_other _ _ _ _ (by omega), ih]

theorem arg_copy_written (m : Mem) (hp sp n t j : Nat) (hj : j < t) (ht : t ≤ n + 1) :
    arg_copy m hp sp n t (hp + 6 + n - j) = arg_copy m hp sp n j (sp + 1 + j) := by
  induction t with
  | zero => omega
  | succ t ih =>
    rw [arg_copy]
    by_cases e : j = t
    · subst e
      have e1 : hp + 6 + n - j = hp + 6 + (n - j) := by omega
      rw [e1, setByte_same, toByte_val_self]
    · rw [setByte_other _ _ _ _ (by omega), ih (by omega) (by omega)]

theorem op_arg_ok (s : State) (n : Nat) (hn : (s.mem s.pc).val = n) (hsp : s.sp + n + 1 ≤ 0x01ff)
    (hin : s.hp + 6 + n ≤ 0xFFFF) :
    op_arg s = Res.ok ()
      { s with pc := (s.pc + 1) % 65536, sp := s.sp + n + 1, mem := arg_copy s.mem s.hp s.sp n (n + 1) } := by
  unfold op_arg
  rw [bind_apply, fetch8_apply, hn]
  exact op_arg_loop_ok { s with pc := (s.pc + 1) % 65536 } n (n + 1) 0 (by omega) hsp hin

/-- The loop of `op_arg` stores outside `mem` in its first round when
`hp + 6 + n` is not a subscript of the array. -/
theorem op_arg_out (s : State) (n : Nat) (hn : (s.mem s.pc).val = n) (hsp : s.sp < 0x01ff)
    (hout : 0xFFFF < s.hp + 6 + n) : op_arg s = Res.undefined := by
  unfold op_arg
  rw [bind_apply, fetch8_apply, hn]
  dsimp only
  unfold op_arg_loop
  dsimp only
  rw [bind_apply, pop8_ok _ (by exact hsp)]
  dsimp only
  rw [bind_apply, getState_apply]
  dsimp only
  rw [bind_apply, mem_assign_out _ _ _ (by show 65536 ≤ s.hp + 6 + (n - (n - n)); omega)]

/-- C12, amended. Let `n` be the operand byte of `arg`, with the target bytes
inside `mem`: `hp + 6 + n ≤ 0xFFFF`.  When the stack holds at least `n + 1`
bytes, `arg n` returns with `sp` increased by `n + 1` and `hp` (and
everything but `pc`, `sp` and memory) unchanged; memory is the result of the
`n + 1` assignments `mem[hp+6+n-j] = (byte popped in round j)`, `j = 0..n`:
at the end `mem[hp+6+n-j]` holds the byte that the `j`-th pop returned, which
for `j = 0` is the byte on top of the stack, and no address outside
`hp+6 .. hp+6+n` has changed.  When the target bytes lie apart from the popped
stack bytes, the `j`-th popped byte is the byte the stack held at `sp + 1 + j`
before the instruction.  In particular `arg 0` pops exactly one byte into
`mem[hp+6]`.  With fewer than `n + 1` bytes on the stack `arg n` raises
`STACK_UNDERFLOW` (error 16, `run` cleared). -/
theorem arg_reverse_copy (s : State) (n : Nat) (hn : (s.mem s.pc).val = n)
    (hin : s.hp + 6 + n ≤ 0xFFFF) :
    (s.sp + n + 1 ≤ 0x01ff →
      op_arg s = Res.ok () { s with pc := (s.pc + 1) % 65536, sp := s.sp + n + 1,
                                    mem := arg_copy s.mem s.hp s.sp n (n + 1) } ∧
      (∀ j, j ≤ n → arg_copy s.mem s.hp s.sp n (n + 1) (s.hp + 6 + n - j)
                      = arg_copy s.mem s.hp s.sp n j (s.sp + 1 + j)) ∧
      arg_copy s.mem s.hp s.sp n (n + 1) (s.hp + 6 + n) = s.mem (s.sp + 1) ∧
      (∀ x, x < s.hp + 6 ∨ s.hp + 6 + n < x → arg_copy s.mem s.hp s.sp n (n + 1) x = s.mem x) ∧
      (s.sp + n + 1 < s.hp + 6 ∨ s.hp + 6 + n < s.sp + 1 →
        ∀ j, j ≤ n → arg_copy s.mem s.hp s.sp n (n + 1) (s.hp + 6 + n - j) = s.mem (s.sp + 1 + j)) ∧
      (n = 0 → op_arg s = Res.ok () { s with pc := (s.pc + 1) % 65536, sp := s.sp + 1,
                                             mem := setByte s.mem (s.hp + 6) (s.mem (s.sp + 1)).val })) ∧
    (0x01ff < s.sp + n + 1 →
      ∃ s1, op_arg s = Res.fatal s1 ∧ s1.err = 16 ∧ s1.run = false ∧ s1.hp = s.hp) := by
  have happ : op_arg s = op_arg_loop n (n + 1) { s with pc := (s.pc + 1) % 65536 } := by
    unfold op_arg
    rw [bind_apply, fetch8_apply, hn]
  refine ⟨fun hsp => ?_, fun hsp => ?_⟩
  · have hrun := op_arg_ok s n hn hsp hin
    refine ⟨hrun, fun j hj => arg_copy_written _ _ _ _ _ _ (by omega) (Nat.le_refl _), ?_,
      fun x hx => arg_copy_other _ _ _ _ _ _ hx, fun hd j hj => ?_, fun h0 => ?_⟩
    · exact arg_copy_written s.mem s.hp s.sp n (n + 1) 0 (by omega) (Nat.le_refl _)
    · rw [arg_copy_written _ _ _ _ _ _ (by omega) (Nat.le_refl _)]
      exact arg_copy_other _ _ _ _ _ _ (by omega)
    · rw [hrun]
      subst h0
      rfl
  · rw [happ]
    exact op_arg_loop_underflow n (n + 1) { s with pc := (s.pc + 1) % 65536 } hsp (by omega)
      (by exact hin)

theorem arg_reverse_copy_witness :
    op_arg argState = Res.ok ()
      { argState with pc := (argState.pc + 1) % 65536, sp := argState.sp + 2 + 1,
                      mem := arg_copy argState.mem argState.hp argState.sp 2 (2 + 1) } :=
  ((arg_reverse_copy argState 2 (by decide) (by decide)).1 (by decide)).1

/-- C12 as stated fails: the image `imm 0xFFFF; cml sethp; imm 0; arg 0` runs
three rounds without a fault and reaches `arg 0` with two bytes on the stack
(`sp = 0x01FD`) and `hp = 0xFFFF`.  The target `mem[hp + 6]` of the one byte to
pop has the subscript 0x10005, outside `mem`: the round has no defined
behaviour, it does not return with the byte stored and `hp` unchanged (and it
raises no fault). -/
theorem arg_counterexample :
    Reachable argStray ∧ argStray.run = true ∧ (argStray.mem argStray.pc).val = 0x0a ∧
    (argStray.mem (argStray.pc + 1)).val = 0 ∧ argStray.sp = 0x01fd ∧ argStray.hp = 0xffff ∧
    MAX_MEM ≤ argStray.hp + 6 + 0 ∧
    op_arg { argStray with pc := argStray.pc + 1 } = Res.undefined ∧
    ¬ ((∃ a s1, op_arg { argStray with pc := argStray.pc + 1 } = Res.ok a s1) ∨
       (∃ s1, op_arg { argStray with pc := argStray.pc + 1 } = Res.fatal s1)) ∧
    interp_step argStray = Res.undefined :=
  ⟨reachable_runSteps 3 _ argStray
      (reachable_bootImage "0BFFFF0C550B00000A0000$" (by decide!))
      (getD_some _ _ (by decide!)),
    by decide!, by decide!, by decide!, by decide!, by decide!, by decide!,
    undefined_spec _ (by decide!), undefined_not_ok _ (undefined_spec _ (by decide!)),
    undefined_spec _ (by decide!)⟩

theorem push16_inv (v : Nat) (s s1 : State) (hsp : s.sp < 65536) (h : push16 v s = Res.ok () s1) :
    0x0102 ≤ s.sp ∧
      s1 = { s with mem := setByte (setByte s.mem s.sp ((v % 65536) &&& 0xff)) (s.sp - 1) ((v % 65536) >>> 8),
                    sp := s.sp - 2 } := by
  by_cases h1 : 0x0102 ≤ s.sp
  · rw [push16_ok v s h1 hsp] at h
    cases h
    exact ⟨h1, rfl⟩
  · unfold push16 at h
    rw [if_pos (by simp only [STACK_MIN]; omega)] at h
    cases h

/-- The stack after a list of words was pushed: word `i` of the list lies at
`sp0 - 2i - 1` (high byte) and `sp0 - 2i` (low byte), where `sp0` is the stack
pointer before the pushes. -/
theorem push_all_ok (l : List Nat) (s0 s : State) (hsp0 : s0.sp ≤ 0x01ff)
    (h : push_all l s0 = Res.ok () s) :
    s.sp + 2 * l.length = s0.sp ∧ (l.length = 0 ∨ 0x0100 + 2 * l.length ≤ s0.sp) ∧
    (∀ x, s0.sp < x → s.mem x = s0.mem x) ∧
    (∀ (i : Nat) (hi : i < l.length), (s.mem (s0.sp - 2 * i)).val = l[i] % 65536 % 256 ∧
      (s.mem (s0.sp - 2 * i - 1)).val = l[i] % 65536 / 256) := by
  induction l generalizing s0 with
  | nil =>
    cases h
    exact ⟨rfl, Or.inl rfl, fun _ _ => rfl, fun i hi => absurd hi (Nat.not_lt_zero i)⟩
  | cons a rest ih =>
    unfold push_all at h
    obtain ⟨_, s1, h1, h2⟩ := bind_ok_inv h
    obtain ⟨hlo, e1⟩ := push16_inv a s0 s1 (by omega) h1
    subst e1
    obtain ⟨i1, i2, i3, i4⟩ := ih _ (by show s0.sp - 2 ≤ 0x01ff; omega) h2
    have j1 : s.sp + 2 * rest.length = s0.sp - 2 := i1
    have j2 : rest.length = 0 ∨ 0x0100 + 2 * rest.length ≤ s0.sp - 2 := i2
    have j3 : ∀ x, s0.sp - 2 < x → s.mem x =
        setByte (setByte s0.mem s0.sp ((a % 65536) &&& 0xff)) (s0.sp - 1) ((a % 65536) >>> 8) x := i3
    have j4 : ∀ (i : Nat) (hi : i < rest.length),
        (s.mem (s0.sp - 2 - 2 * i)).val = rest[i] % 65536 % 256 ∧
        (s.mem (s0.sp - 2 - 2 * i - 1)).val = rest[i] % 65536 / 256 := i4
    have hlen : (a :: rest).length = rest.length + 1 := rfl
    refine ⟨by omega, Or.inr (by omega), fun x hx => ?_, fun i hi => ?_⟩
    · rw [j3 x (by omega), setByte_other _ _ _ _ (by omega), setByte_other _ _ _ _ (by omega)]
    · cases i with
      | zero =>
        have e0 : s0.sp - 2 * 0 = s0.sp := by omega
        have e1 : s0.sp - 1 ≠ s0.sp := by omega
        rw [e0]
        refine ⟨?_, ?_⟩
        · rw [j3 _ (by omega), setByte_other _ _ _ _ (Ne.symm e1), setByte_same, toByte_val, low_byte]
          simp only [List.getElem_cons_zero]
          omega
        · rw [j3 _ (by omega), setByte_same, toByte_val, Nat.shiftRight_eq_div_pow]
          simp only [List.getElem_cons_zero]
          omega
      | succ i =>
        have hi1 : i < rest.length := by omega
        have e0 : s0.sp - 2 * (i + 1) = s0.sp - 2 - 2 * i := by omega
        rw [e0]
        simp only [List.getElem_cons_succ]
        exact j4 i hi1

theorem op_cal_apply (s : State) (L T : Nat) (hL : L < 8) (hlv : (s.mem s.pc).val = 2 * L)
    (hT : (s.mem ((s.pc + 2) % 65536)).val * 256 + (s.mem ((s.pc + 1) % 65536)).val = T) :
    op_cal s = do_call L T { s with pc := (s.pc + 3) % 65536 } := by
  unfold op_cal
  simp only [bind_apply]
  rw [fetch_level_ok s L hlv hL]
  simp only [fetch16_apply, fetch16_value]
  have e2 : ((s.pc + 1) % 65536 + 1) % 65536 = (s.pc + 2) % 65536 := by omega
  have e3 : ((s.pc + 2) % 65536 + 1) % 65536 = (s.pc + 3) % 65536 := by omega
  simp only [e2, e3, hT]

/-- A round of the dispatcher on `cal L,T` when the heap pushes pass their test. -/
theorem interp_step_cal (s : State) (L T : Nat) (hop : (s.mem s.pc).val = 0x05)
    (hlv : (s.mem ((s.pc + 1) % 65536)).val = 2 * L) (hL : L < 8)
    (hT : (s.mem ((s.pc + 3) % 65536)).val * 256 + (s.mem ((s.pc + 2) % 65536)).val = T)
    (hsp : (s.sp : Int) < (s.heap_limit : Int) - 2) (hfit : s.hp + 6 ≤ 0xFFFF) :
    interp_step s = Res.ok ()
      { s with
        mem := setByte (write16 (write16 (setByte s.mem s.hp (s.level <<< 1)) (s.hp + 1) (s.display L))
                (s.hp + 3) ((s.pc + 4) % 65536)) (s.hp + 5) 0
        hp := s.hp + 6
        level := L
        display := fun l => if l = L then s.hp + 6 else s.display l
        pc := T % 65536 } := by
  have e3 : ((s.pc + 1) % 65536 + 2) % 65536 = (s.pc + 3) % 65536 := by omega
  have e2 : ((s.pc + 1) % 65536 + 1) % 65536 = (s.pc + 2) % 65536 := by omega
  have e4 : ((s.pc + 1) % 65536 + 3) % 65536 = (s.pc + 4) % 65536 := by omega
  rw [interp_step_op s op_cal (by omega) (by rw [hop]; rfl) (by rw [hop]; decide),
    op_cal_apply _ L T hL (by exact hlv) (by
      show (s.mem (((s.pc + 1) % 65536 + 2) % 65536)).val * 256 +
        (s.mem (((s.pc + 1) % 65536 + 1) % 65536)).val = T
      rw [e3, e2]; exact hT),
    do_call_fit L T _ (by exact hsp) (by exact hfit)]
  show Res.ok () _ = Res.ok () _
  simp only [e4]

/-- A round of the dispatcher on `arg n` when the stack holds `n + 1` bytes. -/
theorem interp_step_arg (s : State) (n : Nat) (hop : (s.mem s.pc).val = 0x0a)
    (hn : (s.mem ((s.pc + 1) % 65536)).val = n) (hsp : s.sp + n + 1 ≤ 0x01ff)
    (hin : s.hp + 6 + n ≤ 0xFFFF) :
    interp_step s = Res.ok ()
      { s with pc := (s.pc + 2) % 65536, sp := s.sp + n + 1, mem := arg_copy s.mem s.hp s.sp n (n + 1) } := by
  have e2 : ((s.pc + 1) % 65536 + 1) % 65536 = (s.pc + 2) % 65536 := by omega
  have h := op_arg_ok { s with pc := (s.pc + 1) % 65536 } n (by exact hn) (by exact hsp)
    (by exact hin)
  rw [interp_step_op s op_arg (by omega) (by rw [hop]; rfl) (by rw [hop]; decide), h]
  show Res.ok () _ = Res.ok () _
  simp only [e2]

theorem arg_copy_static (m : Mem) (hp sp n j : Nat) (hj : j ≤ n) (hd : sp + n + 1 < hp + 6) :
    arg_copy m hp sp n (n + 1) (hp + 6 + n - j) = m (sp + 1 + j) := by
  rw [arg_copy_written _ _ _ _ _ _ (by omega) (Nat.le_refl _)]
  exact arg_copy_other _ _ _ _ _ _ (by omega)

/-- C11. Let the words `a_0, …, a_(k-1)` (`1 ≤ k ≤ 127`) be pushed in that
order onto a stack inside its page, and let the next two instructions be
`arg (2k-1)` and `cal L,T`, where the frame and the arguments fit in the heap
above `hp` (`hp + 6 + 2k ≤ heap_limit`), which lies above the stack page and
the two instructions.  Then both rounds of the dispatcher return, the machine
is at level `L` with `pc = T`, `display[L] = hp + 6` and the stack pointer it
had before the pushes, and the arguments are the first locals of the new
frame: `mem16(display[L] + 2i) = a_i` for every `i < k`, so `lod L, 2i` pushes
`a_i`. -/
theorem arg_cal_locals (s0 s : State) (l : List Nat) (L T : Nat)
    (hk1 : 1 ≤ l.length) (hk2 : l.length ≤ 127) (hval : ∀ a ∈ l, a < 65536)
    (hsp0 : s0.sp ≤ 0x01ff) (hpush : push_all l s0 = Res.ok () s)
    (harg : (s.mem s.pc).val = 0x0a) (hn : (s.mem (s.pc + 1)).val = 2 * l.length - 1)
    (hcal : (s.mem (s.pc + 2)).val = 0x05) (hlv : (s.mem (s.pc + 3)).val = 2 * L) (hL : L < 8)
    (hT : (s.mem (s.pc + 5)).val * 256 + (s.mem (s.pc + 4)).val = T)
    (hcode : s.pc + 6 ≤ s.hp) (hstk : 0x01ff < s.hp)
    (hfit : s.hp + 6 + 2 * l.length ≤ s.heap_limit) (hlim : s.heap_limit ≤ 0xffff) :
    ∃ s1 s2, interp_step s = Res.ok () s1 ∧ interp_step s1 = Res.ok () s2 ∧
      s2.level = L ∧ s2.pc = T ∧ s2.display L = s.hp + 6 ∧ s2.sp = s0.sp ∧
      (∀ (i : Nat) (hi : i < l.length), read16 s2.mem (s2.display L + 2 * i) = l[i]) ∧
      (∀ (i : Nat) (hi : i < l.length) (p : Nat), (s2.mem p).val = 2 * L →
        (s2.mem ((p + 1) % 65536)).val = 2 * i →
        ∃ s3, op_lod { s2 with pc := p } = Res.ok () s3 ∧ tos16 s3 = l[i]) := by
  obtain ⟨p1, p2, p3, p4⟩ := push_all_ok l s0 s hsp0 hpush
  have e1 : (s.pc + 1) % 65536 = s.pc + 1 := by omega
  have e2 : (s.pc + 2) % 65536 = s.pc + 2 := by omega
  have e3 : (s.pc + 2 + 1) % 65536 = s.pc + 3 := by omega
  have e4 : (s.pc + 2 + 2) % 65536 = s.pc + 4 := by omega
  have e5 : (s.pc + 2 + 3) % 65536 = s.pc + 5 := by omega
  have hTlt : T < 65536 := by
    have h1 := (s.mem (s.pc + 5)).isLt
    have h2 := (s.mem (s.pc + 4)).isLt
    omega
  have hA := interp_step_arg s (2 * l.length - 1) harg (by rw [e1]; exact hn) (by omega) (by omega)
  rw [e2] at hA
  have hm : ∀ x, x < s.hp + 6 →
      arg_copy s.mem s.hp s.sp (2 * l.length - 1) (2 * l.length - 1 + 1) x = s.mem x :=
    fun x hx => arg_copy_other _ _ _ _ _ _ (Or.inl hx)
  have hB := interp_step_cal
    { s with pc := s.pc + 2, sp := s.sp + (2 * l.length - 1) + 1,
             mem := arg_copy s.mem s.hp s.sp (2 * l.length - 1) (2 * l.length - 1 + 1) } L T
    (by show (arg_copy s.mem s.hp s.sp (2 * l.length - 1) (2 * l.length - 1 + 1) (s.pc + 2)).val = 0x05
        rw [hm _ (by omega)]; exact hcal)
    (by show (arg_copy s.mem s.hp s.sp (2 * l.length - 1) (2 * l.length - 1 + 1)
          ((s.pc + 2 + 1) % 65536)).val = 2 * L
        rw [e3, hm _ (by omega)]; exact hlv)
    hL
    (by show (arg_copy s.mem s.hp s.sp (2 * l.length - 1) (2 * l.length - 1 + 1)
          ((s.pc + 2 + 3) % 65536)).val * 256 +
          (arg_copy s.mem s.hp s.sp (2 * l.length - 1) (2 * l.length - 1 + 1)
          ((s.pc + 2 + 2) % 65536)).val = T
        rw [e5, e4, hm _ (by omega), hm _ (by omega)]; exact hT)
    (by show ((s.sp + (2 * l.length - 1) + 1 : Nat) : Int) < (s.heap_limit : Int) - 2; omega)
    (by show s.hp + 6 ≤ 0xFFFF; omega)
  have hloc : ∀ (i : Nat) (hi : i < l.length),
      read16 (setByte (write16 (write16 (setByte
        (arg_copy s.mem s.hp s.sp (2 * l.length - 1) (2 * l.length - 1 + 1)) s.hp (s.level <<< 1))
        (s.hp + 1) (s.display L)) (s.hp + 3) ((s.pc + 2 + 4) % 65536)) (s.hp + 5) 0)
        (s.hp + 6 + 2 * i) = l[i] := by
    intro i hi
    have ha : l[i] < 65536 := hval _ (List.getElem_mem hi)
    have ea : (s.hp + 6 + 2 * i) % 65536 = s.hp + 6 + 2 * i := by omega
    have ej0 : s.hp + 6 + 2 * i = s.hp + 6 + (2 * l.length - 1) - (2 * l.length - 1 - 2 * i) := by omega
    have ej1 : s.hp + 6 + 2 * i + 1
        = s.hp + 6 + (2 * l.length - 1) - (2 * l.length - 1 - 2 * i - 1) := by omega
    have es0 : s.sp + 1 + (2 * l.length - 1 - 2 * i) = s0.sp - 2 * i := by omega
    have es1 : s.sp + 1 + (2 * l.length - 1 - 2 * i - 1) = s0.sp - 2 * i - 1 := by omega
    rw [read16_setByte_other _ _ _ _ (by omega) (by omega),
      read16_write16_other _ _ _ _ (by omega) (by omega) (by omega),
      read16_write16_other _ _ _ _ (by omega) (by omega) (by omega),
      read16_setByte_other _ _ _ _ (by omega) (by omega), read16_eq, ea]
    rw [ej1, arg_copy_static _ _ _ _ _ (by omega) (by omega), es1, (p4 i hi).2]
    rw [ej0, arg_copy_static _ _ _ _ _ (by omega) (by omega), es0, (p4 i hi).1]
    omega
  refine ⟨_, _, hA, hB, rfl, Nat.mod_eq_of_lt hTlt, if_pos rfl, ?_, fun i hi => ?_, fun i hi p hp1 hp2 => ?_⟩
  · show s.sp + (2 * l.length - 1) + 1 = s0.sp
    omega
  · show read16 _ ((if L = L then s.hp + 6 else s.display L) + 2 * i) = l[i]
    rw [if_pos rfl]
    exact hloc i hi
  · have ha : l[i] < 65536 := hval _ (List.getElem_mem hi)
    unfold op_lod
    rw [bind_apply, fetch_level_ok _ L (by exact hp1) hL]
    dsimp only
    rw [bind_apply, fetch8_apply]
    dsimp only
    rw [bind_apply, getState_apply]
    dsimp only
    rw [hp2, if_pos rfl, hloc i hi]
    refine ⟨_, push16_ok _ _ (by show 0x0102 ≤ s.sp + (2 * l.length - 1) + 1; omega)
      (by show s.sp + (2 * l.length - 1) + 1 < 65536; omega), ?_⟩
    exact (tos16_pushed _ _ _ _ (by show 0x0102 ≤ s.sp + (2 * l.length - 1) + 1; omega) rfl rfl).trans
      (Nat.mod_eq_of_lt ha)

theorem arg_cal_locals_witness :
    ∃ s1 s2, interp_step argPushed = Res.ok () s1 ∧ interp_step s1 = Res.ok () s2 ∧
      s2.level = 1 ∧ s2.pc = 0x1710 ∧ read16 s2.mem (s2.display 1 + 2 * 0) = 0x1234 := by
  obtain ⟨s1, s2, h1, h2, h3, h4, _, _, h7, _⟩ :=
    arg_cal_locals argImage argPushed [0x1234] 1 0x1710 (by decide) (by decide) (by decide)
      (by decide!) (stateOr_spec (push_all [0x1234]) argImage (by decide!)) (by decide!) (by decide!)
      (by decide!) (by decide!) (by decide) (by decide!) (by decide!) (by decide!) (by decide!)
      (by decide!)
  exact ⟨s1, s2, h1, h2, h3, h4, h7 0 (by decide)⟩

/-- C25. For every address `a` in `[0, 0xFFFE]`, every 16-bit value `v` and
every memory, `write16(a, v)` followed by `read16(a)` returns `v`; the write
stores the low byte of `v` at `a` and the high byte at `a + 1` and changes no
other byte. -/
theorem write16_read16_roundtrip (m : Mem) (a v : Nat) (ha : a ≤ 0xfffe) (hv : v < 65536) :
    read16 (write16 m a v) a = v ∧
    (write16 m a v a).val = v % 256 ∧ (write16 m a v (a + 1)).val = v / 256 ∧
    ∀ x, x ≠ a → x ≠ a + 1 → write16 m a v x = m x := by
  have ea : a % 65536 = a := Nat.mod_eq_of_lt (by omega)
  have ev : v % 65536 = v := Nat.mod_eq_of_lt hv
  have hlo := write16_lo m a v
  have hhi := write16_hi m a v
  rw [ea, ev] at hlo hhi
  refine ⟨?_, ?_, ?_, fun x h1 h2 => ?_⟩
  · rw [read16_write16, ev]
  · rw [hlo, toByte_val, low_byte]
    omega
  · rw [hhi, toByte_val, Nat.shiftRight_eq_div_pow]
    omega
  · exact write16_other m a v x (by rw [ea]; exact h1) (by rw [ea]; exact h2)

theorem write16_read16_roundtrip_witness :
    read16 (write16 (fun _ => 0) 0xfffe 0xabcd) 0xfffe = 0xabcd :=
  (write16_read16_roundtrip (fun _ => 0) 0xfffe 0xabcd (by decide) (by decide)).1

theorem high_bit_iff (b : Fin 256) : b.val &&& 0x80 ≠ 0 ↔ 128 ≤ b.val := by
  revert b
  decide!

/-- C26. Let `b` be the operand byte of `ims`.  In every state with room for
one more 16-bit word on the stack (inside its page), `ims b` returns with
`pc` moved past the operand byte, `sp` two lower and the pushed word as TOS:
`b` if `b < 128` and `b | 0xFF00` otherwise; no byte of memory outside the new
stack slot changes. -/
theorem ims_sign_extends (s : State) (b : Nat) (hb : (s.mem s.pc).val = b)
    (hsp1 : 0x0102 ≤ s.sp) (hsp2 : s.sp ≤ 0x01ff) :
    ∃ s1, op_ims s = Res.ok () s1 ∧ s1.pc = (s.pc + 1) % 65536 ∧ s1.sp = s.sp - 2 ∧
      tos16 s1 = (if b < 128 then b else b ||| 0xff00) ∧
      (∀ x, x ≠ s.sp → x ≠ s.sp - 1 → s1.mem x = s.mem x) ∧
      s1.hp = s.hp ∧ s1.level = s.level ∧ s1.display = s.display := by
  have hlt : b < 256 := by rw [← hb]; exact (s.mem s.pc).isLt
  have hbit := high_bit_iff (s.mem s.pc)
  rw [hb] at hbit
  have hval : (if b &&& 0x80 ≠ 0 then b ||| 0xff00 else b) = (if b < 128 then b else b ||| 0xff00) := by
    by_cases h : b < 128
    · rw [if_pos h, if_neg (by rw [hbit]; omega)]
    · rw [if_neg h, if_pos (by rw [hbit]; omega)]
  have hor : b ||| 0xff00 < 65536 := Nat.or_lt_two_pow (n := 16) (by omega) (by decide)
  have hrun : op_ims s = push16 (if b < 128 then b else b ||| 0xff00)
      { s with pc := (s.pc + 1) % 65536 } := by
    unfold op_ims
    rw [bind_apply, fetch8_apply, hb]
    dsimp only
    rw [hval]
  refine ⟨_, hrun.trans (push16_ok _ _ (by exact hsp1) (by show s.sp < 65536; omega)), rfl, rfl,
    ?_, fun x h1 h2 => ?_, rfl, rfl, rfl⟩
  · refine (tos16_pushed _ _ _ _ (by exact hsp1) rfl rfl).trans (Nat.mod_eq_of_lt ?_)
    by_cases h : b < 128
    · rw [if_pos h]; omega
    · rw [if_neg h]; exact hor
  · show setByte (setByte s.mem s.sp _) (s.sp - 1) _ x = s.mem x
    rw [setByte_other _ _ _ _ h2, setByte_other _ _ _ _ h1]

theorem ims_sign_extends_witness :
    ∃ s1, op_ims argState = Res.ok () s1 ∧ tos16 s1 = (if 2 < 128 then 2 else 2 ||| 0xff00) := by
  obtain ⟨s1, h1, _, _, h4, _⟩ := ims_sign_extends argState 2 (by decide) (by decide) (by decide)
  exact ⟨s1, h1, h4⟩

theorem errflg_ok (s : State) (h1 : 0x0102 ≤ s.sp) (h2 : s.sp ≤ 0x01ff) :
    intrinsic_errflg s = Res.ok ()
      { s with mem := setByte (setByte s.mem s.sp (((if s.err ≠ 0 then 0xffff else 0x0000) % 65536) &&& 0xff))
                        (s.sp - 1) (((if s.err ≠ 0 then 0xffff else 0x0000) % 65536) >>> 8),
               sp := s.sp - 2, err := 0 } := by
  unfold intrinsic_errflg
  rw [bind_apply, getState_apply]
  dsimp only
  rw [bind_apply, push16_ok _ s h1 (by omega)]
  rfl

theorem nos16_pushed (m : Mem) (sp v : Nat) (s s1 : State) (h1 : 0x0102 ≤ sp)
    (hm : s1.mem = setByte (setByte m sp ((v % 65536) &&& 0xff)) (sp - 1) ((v % 65536) >>> 8))
    (hsp : s1.sp = sp - 2) (hs : s.mem = m) (hs2 : s.sp = sp) : nos16 s1 = tos16 s := by
  have e3 : sp - 2 + 3 = sp + 1 := by omega
  have e4 : sp - 2 + 4 = sp + 2 := by omega
  rw [nos16_eq, tos16_eq, hm, hsp, hs, hs2, e3, e4, setByte_other _ _ _ _ (by omega),
    setByte_other _ _ _ _ (by omega), setByte_other _ _ _ _ (by omega),
    setByte_other _ _ _ _ (by omega)]

/-- C27. In every state, whatever the value of `err`, with room for two 16-bit
words on the stack (inside its page), two consecutive `errflg` calls return;
the first pushes 0xFFFF if `err` was non-zero and 0x0000 otherwise and clears
`err`; the second pushes 0x0000 (on top of the first result) and leaves
`err = 0`. -/
theorem errflg_twice (s : State) (h1 : 0x0104 ≤ s.sp) (h2 : s.sp ≤ 0x01ff) :
    ∃ s1 s2, intrinsic_errflg s = Res.ok () s1 ∧ intrinsic_errflg s1 = Res.ok () s2 ∧
      tos16 s1 = (if s.err ≠ 0 then 0xffff else 0x0000) ∧ s1.err = 0 ∧ s1.sp = s.sp - 2 ∧
      tos16 s2 = 0x0000 ∧ s2.err = 0 ∧ s2.sp = s.sp - 4 ∧ nos16 s2 = tos16 s1 := by
  obtain ⟨s1, hs1, hm1, hsp1, herr1⟩ : ∃ s1 : State, intrinsic_errflg s = Res.ok () s1 ∧
      s1.mem = setByte (setByte s.mem s.sp (((if s.err ≠ 0 then 0xffff else 0x0000) % 65536) &&& 0xff))
        (s.sp - 1) (((if s.err ≠ 0 then 0xffff else 0x0000) % 65536) >>> 8) ∧
      s1.sp = s.sp - 2 ∧ s1.err = 0 :=
    ⟨_, errflg_ok s (by omega) h2, rfl, rfl, rfl⟩
  obtain ⟨s2, hs2, hm2, hsp2, herr2⟩ : ∃ s2 : State, intrinsic_errflg s1 = Res.ok () s2 ∧
      s2.mem = setByte (setByte s1.mem s1.sp (((if s1.err ≠ 0 then 0xffff else 0x0000) % 65536) &&& 0xff))
        (s1.sp - 1) (((if s1.err ≠ 0 then 0xffff else 0x0000) % 65536) >>> 8) ∧
      s2.sp = s1.sp - 2 ∧ s2.err = 0 :=
    ⟨_, errflg_ok s1 (by omega) (by omega), rfl, rfl, rfl⟩
  refine ⟨s1, s2, hs1, hs2, ?_, herr1, hsp1, ?_, herr2, by omega, ?_⟩
  · refine (tos16_pushed _ _ _ _ (by omega) hm1 hsp1).trans (Nat.mod_eq_of_lt ?_)
    split <;> decide
  · refine (tos16_pushed _ _ _ _ (by omega) hm2 hsp2).trans ?_
    rw [herr1]
    rfl
  · exact nos16_pushed s1.mem s1.sp _ s1 s2 (by omega) hm2 hsp2 rfl rfl

theorem errflg_twice_witness :
    ∃ s1 s2, intrinsic_errflg argState = Res.ok () s1 ∧ intrinsic_errflg s1 = Res.ok () s2 ∧
      tos16 s2 = 0x0000 ∧ s2.err = 0 := by
  obtain ⟨s1, s2, h1, h2, _, _, _, h6, h7, _⟩ := errflg_twice argState (by decide) (by decide)
  exact ⟨s1, s2, h1, h2, h6, h7⟩

theorem op_dupcat_apply (s : State) : op_dupcat s = push16 (tos16 s) s := by
  unfold op_dupcat
  rw [bind_apply, peek_tos16_apply]

/-- C29. The handler `dupcat` never raises `STACK_UNDERFLOW`: it reads TOS
through the unchecked `peek_tos16`.  On an empty stack (`sp = 0x01FF`) it
returns with `sp = 0x01FD`, having pushed the word whose high byte is
`mem[0x0200]` and whose low byte is `mem[0x0201]`; on a non-empty stack with
room for one more word it pushes a copy of TOS, so that TOS and NOS both hold
the old TOS. -/
theorem dupcat_unchecked (s : State) :
    (∀ s1, op_dupcat s = Res.fatal s1 → s1.err ≠ 16) ∧
    (s.sp = 0x01ff → ∃ s1, op_dupcat s = Res.ok () s1 ∧ s1.sp = 0x01fd ∧
      tos16 s1 = (s.mem 0x0200).val * 256 + (s.mem 0x0201).val) ∧
    (0x0102 ≤ s.sp → s.sp + 2 ≤ 0x01ff → ∃ s1, op_dupcat s = Res.ok () s1 ∧ s1.sp = s.sp - 2 ∧
      tos16 s1 = tos16 s ∧ nos16 s1 = tos16 s) := by
  refine ⟨fun s1 h => ?_, fun hsp => ?_, fun h1 h2 => ?_⟩
  · exact faults_bind (P := fun e => e ≠ 16) faults_peek_tos16 (fun _ => faults_push16 (by decide) _)
      s s1 h
  · have ht : tos16 s = (s.mem 0x0200).val * 256 + (s.mem 0x0201).val := by
      rw [tos16_eq, hsp]
    refine ⟨_, (op_dupcat_apply s).trans (push16_ok _ s (by omega) (by omega)), ?_, ?_⟩
    · show s.sp - 2 = 0x01fd
      omega
    · rw [← ht]
      exact (tos16_pushed _ _ _ _ (by omega) rfl rfl).trans (Nat.mod_eq_of_lt (tos16_lt s))
  · refine ⟨_, (op_dupcat_apply s).trans (push16_ok _ s h1 (by omega)), rfl, ?_, ?_⟩
    · exact (tos16_pushed _ _ _ _ h1 rfl rfl).trans (Nat.mod_eq_of_lt (tos16_lt s))
    · exact nos16_pushed s.mem s.sp _ s _ h1 rfl rfl rfl rfl

theorem intrinsic_some (i : Nat) (h : i ≤ 0x17 ∨ (0x19 ≤ i ∧ i ≤ 0x1b)) :
    ∃ fn, intrinsic i = some fn := by
  rcases h with h | ⟨h1, h2⟩
  · interval_cases i <;> exact ⟨_, rfl⟩
  · interval_cases i <;> exact ⟨_, rfl⟩

theorem intrinsic_none (i : Nat) (h : ¬ (i ≤ 0x17 ∨ (0x19 ≤ i ∧ i ≤ 0x1b))) : intrinsic i = none := by
  unfold intrinsic
  split <;> first | rfl | (exfalso; omega)

theorem op_cml_some (s : State) (fn : M Unit) (h1 : 0x40 ≤ (s.mem s.pc).val)
    (h2 : (s.mem s.pc).val < 0xc0) (hfn : intrinsic ((s.mem s.pc).val - 0x40) = some fn) :
    op_cml s = fn { s with pc := (s.pc + 1) % 65536 } := by
  have e1 : (INTRINSIC_OFFSET : Int) = 64 := rfl
  have e2 : (INTRINSIC_MAX : Int) = 128 := rfl
  have e3 : ((((s.mem s.pc).val : Nat) : Int) - (INTRINSIC_OFFSET : Int)).toNat = (s.mem s.pc).val - 0x40 := by
    omega
  unfold op_cml
  rw [bind_apply, fetch8_apply]
  dsimp only
  rw [if_neg (by omega), e3, hfn]

theorem op_cml_bad (s : State)
    (h : (s.mem s.pc).val < 0x40 ∨ 0xc0 ≤ (s.mem s.pc).val ∨ intrinsic ((s.mem s.pc).val - 0x40) = none) :
    op_cml s = Res.fatal { s with pc := (s.pc + 1) % 65536, err := 5, run := false } := by
  have e1 : (INTRINSIC_OFFSET : Int) = 64 := rfl
  have e2 : (INTRINSIC_MAX : Int) = 128 := rfl
  unfold op_cml
  rw [bind_apply, fetch8_apply]
  dsimp only
  by_cases hr : (((s.mem s.pc).val : Nat) : Int) - (INTRINSIC_OFFSET : Int) < 0 ∨
      (((s.mem s.pc).val : Nat) : Int) - (INTRINSIC_OFFSET : Int) ≥ (INTRINSIC_MAX : Int)
  · rw [if_pos hr]
    rfl
  · have e3 : ((((s.mem s.pc).val : Nat) : Int) - (INTRINSIC_OFFSET : Int)).toNat
        = (s.mem s.pc).val - 0x40 := by omega
    have hn : intrinsic ((s.mem s.pc).val - 0x40) = none := by
      rcases h with h | h | h
      · omega
      · omega
      · exact h
    rw [if_neg hr, e3, hn]
    rfl

/-- C21. Let `i8` be the operand byte of `cml`.  If `i8` lies in `0x40..0x57`
or `0x59..0x5B`, the index `i8 - 0x40` has a handler in the table `intrinsic`,
`cml` runs that handler (with `pc` past the operand), and no fatal fault of it
carries error number 5.  For every other `i8` (below 0x40, the hole 0x58, or
above 0x5B) `cml` raises `BAD_INTRINSIC`: fatal, `err = 5`, `run` cleared,
nothing else but `pc` changed.  So `cml i8` raises `BAD_INTRINSIC` if and only
if `i8` is outside these ranges.  The table has exactly 27 handlers, at the
indices `0x00..0x17` and `0x19..0x1B`. -/
theorem cml_dispatch (s : State) :
    ((0x40 ≤ (s.mem s.pc).val ∧ (s.mem s.pc).val ≤ 0x57) ∨
        (0x59 ≤ (s.mem s.pc).val ∧ (s.mem s.pc).val ≤ 0x5b) →
      ∃ fn, intrinsic ((s.mem s.pc).val - 0x40) = some fn ∧
        op_cml s = fn { s with pc := (s.pc + 1) % 65536 } ∧
        ∀ s1, op_cml s = Res.fatal s1 → s1.err ≠ 5) ∧
    (¬ ((0x40 ≤ (s.mem s.pc).val ∧ (s.mem s.pc).val ≤ 0x57) ∨
        (0x59 ≤ (s.mem s.pc).val ∧ (s.mem s.pc).val ≤ 0x5b)) →
      op_cml s = Res.fatal { s with pc := (s.pc + 1) % 65536, err := 5, run := false }) ∧
    ((∃ s1, op_cml s = Res.fatal s1 ∧ s1.err = 5) ↔
      ¬ ((0x40 ≤ (s.mem s.pc).val ∧ (s.mem s.pc).val ≤ 0x57) ∨
        (0x59 ≤ (s.mem s.pc).val ∧ (s.mem s.pc).val ≤ 0x5b))) ∧
    (∀ i, (intrinsic i).isSome = true ↔ (i ≤ 0x17 ∨ (0x19 ≤ i ∧ i ≤ 0x1b))) ∧
    ((List.range 128).filter (fun i => (intrinsic i).isSome)).length = 27 := by
  have hreg : (0x40 ≤ (s.mem s.pc).val ∧ (s.mem s.pc).val ≤ 0x57) ∨
        (0x59 ≤ (s.mem s.pc).val ∧ (s.mem s.pc).val ≤ 0x5b) →
      ∃ fn, intrinsic ((s.mem s.pc).val - 0x40) = some fn ∧
        op_cml s = fn { s with pc := (s.pc + 1) % 65536 } ∧
        ∀ s1, op_cml s = Res.fatal s1 → s1.err ≠ 5 := by
    intro h
    obtain ⟨fn, hfn⟩ := intrinsic_some ((s.mem s.pc).val - 0x40) (by omega)
    have hrun := op_cml_some s fn (by omega) (by omega) hfn
    refine ⟨fn, hfn, hrun, fun s1 hs => ?_⟩
    rw [hrun] at hs
    exact faults_intrinsic (P := fun e => e ≠ 5) (by decide) (by decide) (by decide) (by decide)
      (by decide) (by decide) _ fn hfn _ s1 hs
  have hbad : ¬ ((0x40 ≤ (s.mem s.pc).val ∧ (s.mem s.pc).val ≤ 0x57) ∨
        (0x59 ≤ (s.mem s.pc).val ∧ (s.mem s.pc).val ≤ 0x5b)) →
      op_cml s = Res.fatal { s with pc := (s.pc + 1) % 65536, err := 5, run := false } := by
    intro h
    by_cases h1 : (s.mem s.pc).val < 0x40
    · exact op_cml_bad s (Or.inl h1)
    · exact op_cml_bad s (Or.inr (Or.inr (intrinsic_none _ (by omega))))
  refine ⟨hreg, hbad, ⟨fun h => ?_, fun h => ⟨_, hbad h, rfl⟩⟩, fun i => ⟨fun h => ?_, fun h => ?_⟩,
    by decide⟩
  · intro hr
    obtain ⟨s1, h1, h5⟩ := h
    obtain ⟨fn, _, _, hne⟩ := hreg hr
    exact hne s1 h1 h5
  · by_contra hn
    rw [intrinsic_none i hn] at h
    cases h
  · obtain ⟨fn, hfn⟩ := intrinsic_some i h
    rw [hfn]
    rfl

theorem runtime_error_trap (s : State) (h : s.trap = true) :
    runtime_error ERR_IO_ERROR s = Res.fatal { s with err := 3, run := false } := by
  unfold runtime_error
  rw [if_neg (by rw [h]; exact fun hc => Bool.noConfusion hc.2)]
  rfl

theorem runtime_error_latch (s : State) (h : s.trap = false) :
    runtime_error ERR_IO_ERROR s = Res.ok () { s with err := 3 } := by
  unfold runtime_error
  rw [if_pos ⟨rfl, h⟩]

theorem fprintf_stdout_err (l : List Nat) (s : State) :
    ∃ s1, fprintf_stdout l s = Res.ok () s1 ∧ s1.err = s.err ∧ s1.sp = s.sp ∧ s1.mem = s.mem := by
  induction l generalizing s with
  | nil => exact ⟨s, rfl, rfl, rfl, rfl⟩
  | cons c rest ih =>
    unfold fprintf_stdout
    rw [bind_apply]
    unfold fputc_stdout
    by_cases h : s.host.stdout_ok = true
    · rw [if_pos h]
      exact ih _
    · rw [if_neg h]
      exact ih _

theorem chout_null (s : State) (hsp : s.sp + 4 ≤ 0x01ff) (hdev : nos16 s = 7) :
    intrinsic_chout s = Res.ok () { s with sp := s.sp + 4 } := by
  unfold intrinsic_chout
  rw [bind_apply, pop16_ok s (by omega)]
  dsimp only
  rw [bind_apply, pop16_ok _ (by show s.sp + 2 < 0x01fe; omega), tos16_after_pop]
  dsimp only
  rw [bind_apply, getState_apply]
  dsimp only
  rw [hdev, if_neg (by decide), if_neg (by decide), if_pos rfl]
  rfl

theorem crlf_apply (s : State) (hsp : s.sp + 2 ≤ 0x01ff) (hdev : tos16 s ≠ 0) :
    intrinsic_crlf s = (runtime_error ERR_IO_ERROR >>= fun _ => fprintf_stdout [10])
      { s with sp := s.sp + 2 } := by
  unfold intrinsic_crlf
  rw [bind_apply, pop16_ok s (by omega)]
  dsimp only
  rw [if_pos hdev]

theorem numout_apply (s : State) (hsp : s.sp + 4 ≤ 0x01ff) (hdev : nos16 s ≠ 0) :
    intrinsic_numout s =
      (runtime_error ERR_IO_ERROR >>= fun _ => fprintf_stdout (format_d (toInt16 (tos16 s))))
        { s with sp := s.sp + 4 } := by
  unfold intrinsic_numout
  rw [bind_apply, pop16_ok s (by omega)]
  dsimp only
  rw [bind_apply, pop16_ok _ (by show s.sp + 2 < 0x01fe; omega), tos16_after_pop]
  dsimp only
  rw [if_pos hdev]

theorem hexout_apply (s : State) (hsp : s.sp + 4 ≤ 0x01ff) (hdev : nos16 s ≠ 0) :
    intrinsic_hexout s =
      (runtime_error ERR_IO_ERROR >>= fun _ => fprintf_stdout (format_x (tos16 s)))
        { s with sp := s.sp + 4 } := by
  unfold intrinsic_hexout
  rw [bind_apply, pop16_ok s (by omega)]
  dsimp only
  rw [bind_apply, pop16_ok _ (by show s.sp + 2 < 0x01fe; omega), tos16_after_pop]
  dsimp only
  rw [if_pos hdev]

theorem text_apply_bad (s : State) (hsp : s.sp + 4 ≤ 0x01ff) (hdev : nos16 s ≠ 0) :
    intrinsic_text s =
      (runtime_error ERR_IO_ERROR >>= fun _ => text_loop 65536 (tos16 s)) { s with sp := s.sp + 4 } := by
  unfold intrinsic_text
  rw [bind_apply, pop16_ok s (by omega)]
  dsimp only
  rw [bind_apply, pop16_ok _ (by show s.sp + 2 < 0x01fe; omega), tos16_after_pop]
  dsimp only
  rw [if_pos hdev]

theorem text_apply_console (s : State) (hsp : s.sp + 4 ≤ 0x01ff) (hdev : nos16 s = 0) :
    intrinsic_text s = text_loop 65536 (tos16 s) { s with sp := s.sp + 4 } := by
  unfold intrinsic_text
  rw [bind_apply, pop16_ok s (by omega)]
  dsimp only
  rw [bind_apply, pop16_ok _ (by show s.sp + 2 < 0x01fe; omega), tos16_after_pop]
  dsimp only
  rw [if_neg (by rw [hdev]; exact fun h => h rfl)]
  rfl

theorem bind_fatal {α β : Type} (x : M α) (f : α → M β) (s s1 : State) (h : x s = Res.fatal s1) :
    (x >>= f) s = Res.fatal s1 := by
  rw [bind_apply, h]

theorem bind_ok {α β : Type} (x : M α) (f : α → M β) (s s1 : State) (a : α) (h : x s = Res.ok a s1) :
    (x >>= f) s = f a s1 := by
  rw [bind_apply, h]

/-- C23, amended. Called with device number 7, `chout` discards the byte: it
returns with both words popped and nothing else changed (nothing is written to
the console or to the disk stream, `err` is as before), whatever the trap
flag.  The intrinsics `crlf`, `numout`, `hexout` and `text` accept device 0
only: with device 7 and `trap` set they raise the fatal fault `IO_ERROR`
(`err = 3`, `run` cleared, nothing written); with `trap` clear `crlf`,
`numout` and `hexout` return with `err = 3`.  The image
`imm 7; imm 65; cml chout; exi` ends with exit status 0 and no output. -/
theorem null_device_writes (s : State) (hsp : s.sp + 4 ≤ 0x01ff) :
    (nos16 s = 7 → intrinsic_chout s = Res.ok () { s with sp := s.sp + 4 }) ∧
    (s.trap = true → tos16 s = 7 →
      intrinsic_crlf s = Res.fatal { s with sp := s.sp + 2, err := 3, run := false }) ∧
    (s.trap = true → nos16 s = 7 →
      intrinsic_numout s = Res.fatal { s with sp := s.sp + 4, err := 3, run := false } ∧
      intrinsic_hexout s = Res.fatal { s with sp := s.sp + 4, err := 3, run := false } ∧
      intrinsic_text s = Res.fatal { s with sp := s.sp + 4, err := 3, run := false }) ∧
    (s.trap = false → tos16 s = 7 → ∃ s1, intrinsic_crlf s = Res.ok () s1 ∧ s1.err = 3) ∧
    (s.trap = false → nos16 s = 7 →
      (∃ s1, intrinsic_numout s = Res.ok () s1 ∧ s1.err = 3) ∧
      (∃ s1, intrinsic_hexout s = Res.ok () s1 ∧ s1.err = 3)) ∧
    (main 100 1 (ascii "0B07000B41000C4800$") (boot quietHost [] false false)).map
      (fun r => (r.fst, r.snd.err, r.snd.stdout, r.snd.disk_out_f)) = some (0, 0, [], none) := by
  refine ⟨fun hdev => chout_null s hsp hdev, fun ht hdev => ?_, fun ht hdev => ⟨?_, ?_, ?_⟩,
    fun ht hdev => ?_, fun ht hdev => ⟨?_, ?_⟩, by decide!⟩
  · rw [crlf_apply s (by omega) (by rw [hdev]; decide)]
    exact bind_fatal _ _ _ _ (runtime_error_trap _ (by exact ht))
  · rw [numout_apply s hsp (by rw [hdev]; decide)]
    exact bind_fatal _ _ _ _ (runtime_error_trap _ (by exact ht))
  · rw [hexout_apply s hsp (by rw [hdev]; decide)]
    exact bind_fatal _ _ _ _ (runtime_error_trap _ (by exact ht))
  · rw [text_apply_bad s hsp (by rw [hdev]; decide)]
    exact bind_fatal _ _ _ _ (runtime_error_trap _ (by exact ht))
  · rw [crlf_apply s (by omega) (by rw [hdev]; decide),
      bind_ok _ _ _ _ _ (runtime_error_latch _ (by exact ht))]
    obtain ⟨s1, h1, h2, _⟩ := fprintf_stdout_err [10] { s with sp := s.sp + 2, err := 3 }
    exact ⟨s1, h1, h2⟩
  · rw [numout_apply s hsp (by rw [hdev]; decide),
      bind_ok _ _ _ _ _ (runtime_error_latch _ (by exact ht))]
    obtain ⟨s1, h1, h2, _⟩ := fprintf_stdout_err (format_d (toInt16 (tos16 s)))
      { s with sp := s.sp + 4, err := 3 }
    exact ⟨s1, h1, h2⟩
  · rw [hexout_apply s hsp (by rw [hdev]; decide),
      bind_ok _ _ _ _ _ (runtime_error_latch _ (by exact ht))]
    obtain ⟨s1, h1, h2, _⟩ := fprintf_stdout_err (format_x (tos16 s))
      { s with sp := s.sp + 4, err := 3 }
    exact ⟨s1, h1, h2⟩

theorem null_device_writes_witness :
    intrinsic_chout nullDev = Res.ok () { nullDev with sp := nullDev.sp + 4 } :=
  (null_device_writes nullDev (by decide)).1 (by decide)

/-- C23 as stated fails for `crlf`: with device number 7 on the stack and
`trap` set, `crlf` ends in the fatal fault `IO_ERROR`, and the image
`imm 7; cml crlf; exi` ends with exit status 3. -/
theorem null_device_counterexample :
    nullDev.trap = true ∧ nos16 nullDev = 7 ∧
    tos16 { nullDev with sp := nullDev.sp + 2 } = 7 ∧
    faultOf (intrinsic_crlf { nullDev with sp := nullDev.sp + 2 }) = some 3 ∧
    faultOf (intrinsic_numout nullDev) = some 3 ∧
    (main 100 1 (ascii "0B07000C4900$") (boot quietHost [] false false)).map
      (fun r => (r.fst, r.snd.err, r.snd.run)) = some (3, 3, false) := by
  decide!

theorem mask_byte (v : Nat) : (v &&& 0x7f) % 256 = v &&& 0x7f :=
  Nat.mod_eq_of_lt (Nat.lt_of_le_of_lt Nat.and_le_right (by decide))

theorem text_bytes_length (m : Mem) (si k : Nat) : (text_bytes m si k).length = k := by
  induction k generalizing si with
  | zero => rfl
  | succ k ih =>
    rw [text_bytes, List.length_cons, ih]

theorem text_bytes_getD (m : Mem) (si k i : Nat) (h : i < k) :
    (text_bytes m si k).getD i 0 = (m (si + i)).val &&& 0x7f := by
  induction k generalizing si i with
  | zero => omega
  | succ k ih =>
    rw [text_bytes]
    cases i with
    | zero => rfl
    | succ i =>
      rw [List.getD_cons_succ, ih (si + 1) i (by omega)]
      have e : si + 1 + i = si + (i + 1) := by omega
      rw [e]

/-- One round of the loop of `intrinsic_text` on a console that accepts bytes. -/
theorem text_loop_step (n si : Nat) (s : State) (hout : s.host.stdout_ok = true) :
    text_loop (n + 1) si s =
      (if (s.mem si).val &&& 0x80 ≠ 0 then
         Res.ok () { s with stdout := s.stdout ++ [(s.mem si).val &&& 0x7f] }
       else text_loop n ((si + 1) % 65536) { s with stdout := s.stdout ++ [(s.mem si).val &&& 0x7f] }) := by
  rw [text_loop]
  rw [bind_apply, getState_apply]
  dsimp only
  rw [bind_apply]
  unfold fputc_stdout
  rw [if_pos hout, mask_byte]
  dsimp only
  by_cases h : (s.mem si).val &&& 0x80 ≠ 0
  · rw [if_pos h, if_pos h]
    rfl
  · rw [if_neg h, if_neg h]
    rfl

/-- The loop of `intrinsic_text` up to the first byte with the high bit set. -/
theorem text_loop_emits (k n si : Nat) (s : State) (hout : s.host.stdout_ok = true)
    (hn : k < n) (hfit : si + k ≤ 0xffff) (hhigh : (s.mem (si + k)).val &&& 0x80 ≠ 0)
    (hlow : ∀ x, si ≤ x → x < si + k → (s.mem x).val &&& 0x80 = 0) :
    text_loop n si s = Res.ok () { s with stdout := s.stdout ++ text_bytes s.mem si (k + 1) } := by
  induction k generalizing n si s with
  | zero =>
    obtain ⟨n, rfl⟩ : ∃ n1, n = n1 + 1 := ⟨n - 1, by omega⟩
    have hh : (s.mem si).val &&& 0x80 ≠ 0 := hhigh
    rw [text_loop_step n si s hout, if_pos hh]
    rfl
  | succ k ih =>
    obtain ⟨n, rfl⟩ : ∃ n1, n = n1 + 1 := ⟨n - 1, by omega⟩
    have e : (si + 1) % 65536 = si + 1 := by omega
    have hl : (s.mem si).val &&& 0x80 = 0 := hlow si (Nat.le_refl _) (by omega)
    rw [text_loop_step n si s hout, if_neg (by rw [hl]; exact fun h => h rfl), e,
      ih n (si + 1) { s with stdout := s.stdout ++ [(s.mem si).val &&& 0x7f] } (by exact hout)
        (by omega) (by omega)
        (by show (s.mem (si + 1 + k)).val &&& 0x80 ≠ 0
            have e1 : si + 1 + k = si + (k + 1) := by omega
            rw [e1]; exact hhigh)
        (fun x h1 h2 => hlow x (by omega) (by omega))]
    dsimp only
    rw [List.append_assoc]
    rfl

theorem text_closed (s : State) (hsp : s.sp + 4 ≤ 0x01ff) (hdev : nos16 s = 0)
    (hout : s.host.stdout_ok = false) (ht : s.trap = true) :
    intrinsic_text s = Res.fatal { s with sp := s.sp + 4, err := 3, run := false } := by
  rw [text_apply_console s hsp hdev, text_loop]
  rw [bind_apply, getState_apply]
  dsimp only
  rw [bind_apply]
  unfold fputc_stdout
  dsimp only
  rw [hout, if_neg (by decide)]
  dsimp only
  rw [if_pos rfl, bind_apply, runtime_error_trap _ (by exact ht)]

/-- C22, amended. Let the stack hold the device word 0 and, on top, a string
address `si`, and let `a0` with `si ≤ a0 ≤ 0xFFFF` be the first address at or
after `si` whose byte has the high bit set.  On a console that accepts every
byte, `text` returns, whatever the trap flag, having popped both words and
written exactly the `a0 - si + 1 ≥ 1` bytes `mem[si], …, mem[a0]`, each
masked with 0x7F, and nothing else changes.  On a console that rejects the
bytes and with `trap` set, `text` ends in the fatal fault `IO_ERROR` and
writes nothing. -/
theorem text_emits (s : State) (a0 : Nat) (hsp : s.sp + 4 ≤ 0x01ff) (hdev : nos16 s = 0)
    (h1 : tos16 s ≤ a0) (h2 : a0 ≤ 0xffff) (hhigh : (s.mem a0).val &&& 0x80 ≠ 0)
    (hfirst : ∀ x, tos16 s ≤ x → x < a0 → (s.mem x).val &&& 0x80 = 0) :
    (s.host.stdout_ok = true →
      intrinsic_text s = Res.ok ()
        { s with sp := s.sp + 4,
                 stdout := s.stdout ++ text_bytes s.mem (tos16 s) (a0 - tos16 s + 1) }) ∧
    (text_bytes s.mem (tos16 s) (a0 - tos16 s + 1)).length = a0 - tos16 s + 1 ∧
    (∀ i, i < a0 - tos16 s + 1 →
      (text_bytes s.mem (tos16 s) (a0 - tos16 s + 1)).getD i 0 = (s.mem (tos16 s + i)).val &&& 0x7f) ∧
    (s.host.stdout_ok = false → s.trap = true →
      intrinsic_text s = Res.fatal { s with sp := s.sp + 4, err := 3, run := false }) := by
  have e : tos16 s + (a0 - tos16 s) = a0 := by omega
  refine ⟨fun hout => ?_, text_bytes_length _ _ _, fun i hi => text_bytes_getD _ _ _ i hi,
    fun hout ht => text_closed s hsp hdev hout ht⟩
  rw [text_apply_console s hsp hdev]
  exact text_loop_emits (a0 - tos16 s) 65536 (tos16 s) { s with sp := s.sp + 4 } (by exact hout)
    (by omega) (by omega) (by rw [e]; exact hhigh) (fun x hx1 hx2 => hfirst x hx1 (by omega))

theorem text_emits_witness :
    intrinsic_text textOk = Res.ok ()
      { textOk with sp := textOk.sp + 4,
                    stdout := textOk.stdout ++ text_bytes textOk.mem (tos16 textOk) (0x01fd - tos16 textOk + 1) } ∧
    text_bytes textOk.mem (tos16 textOk) (0x01fd - tos16 textOk + 1) = [0x7d] :=
  ⟨(text_emits textOk 0x01fd (by decide) (by decide) (by decide) (by decide) (by decide)
      (by decide!)).1 (by decide), by decide⟩

/-- C22 as stated fails when the console rejects the bytes: in a state with
`trap` set, device 0 and the address 0x01FD on the stack and
`mem[0x01FD] = 0xFD` (high bit set), `text` ends in the fatal fault `IO_ERROR`
with nothing written. -/
theorem text_counterexample :
    textFail.trap = true ∧ nos16 textFail = 0 ∧ tos16 textFail = 0x01fd ∧
    (textFail.mem 0x01fd).val &&& 0x80 ≠ 0 ∧
    faultOf (intrinsic_text textFail) = some 3 ∧
    (endState (intrinsic_text textFail)).map (fun t => (t.err, t.run, t.stdout)) = some (3, false, []) := by
  decide!

theorem fatal_spec (r : Option (Res Unit)) (d : State) (h : (r.bind faultOf).isSome = true) :
    r = some (Res.fatal ((r.bind endState).getD d)) := by
  cases r with
  | none => cases h
  | some x =>
    cases x with
    | ok a s => cases h
    | fatal s => rfl
    | diverge => cases h
    | undefined => cases h

theorem interp_loop_fatal (fuel runs : Nat) (s s1 s2 : State) (hinit : interp_init s = Res.ok () s1)
    (hrun : interp_run fuel s1 = some (Res.fatal s2)) :
    interp_loop fuel (runs + 1) s = some (Res.fatal s2) := by
  rw [interp_loop, hinit]
  dsimp only
  rw [hrun]

theorem interp_loop_rerun (fuel runs : Nat) (s s1 s2 : State) (hinit : interp_init s = Res.ok () s1)
    (hrun : interp_run fuel s1 = some (Res.ok () s2)) (hre : s2.rerun = true) :
    interp_loop fuel (runs + 1) s = interp_loop fuel runs s2 := by
  rw [interp_loop, hinit]
  dsimp only
  rw [hrun]
  dsimp only
  rw [if_pos hre]

/-- C24, amended. A fatal fault always ends the run, whatever `rerun` is: if a
pass of `interp` (the registers set up from `s`, then the dispatcher) ends in
a fatal fault in state `s2`, then `interp` ends there, and `main` exits with
status `s2.err`.  The machine is set up again and the dispatcher re-entered
only when the dispatcher ends without a fault and with `rerun` set.  The
images `imm 1; cml setrun; cml abort` and `imm 1; cml setrun; imm 1; imm 0; div`
end with exit status 12 resp. 1 although `rerun` is set; the image
`inc 0,0; imm 2; eq; jpc L; exi; L: imm 0; cml restart` runs two passes (its
variable ends as 2) and ends with exit status 0. -/
theorem fatal_ends_run (fuel runs : Nat) (s s1 s2 : State) (hinit : interp_init s = Res.ok () s1)
    (hrun : interp_run fuel s1 = some (Res.fatal s2)) :
    interp_loop fuel (runs + 1) s = some (Res.fatal s2) ∧
    (∀ (f : List Nat) (s0 sl : State) (log : List (StoreKind × Nat)),
      loader f s0 = Res.ok log sl → s = { sl with err := 0 } →
      main fuel (runs + 1) f s0 = some (s2.err, s2)) ∧
    (∀ t t1 t2 : State, interp_init t = Res.ok () t1 → interp_run fuel t1 = some (Res.ok () t2) →
      t2.rerun = true → interp_loop fuel (runs + 1) t = interp_loop fuel runs t2) ∧
    (main 100 5 (ascii "0B01000C590C50$") (boot quietHost [] false false)).map
      (fun r => (r.fst, r.snd.rerun, r.snd.run, r.snd.pc)) = some (12, true, false, 0x1707) ∧
    (main 100 5 (ascii "0B01000C590B01000B000010$") (boot quietHost [] false false)).map
      (fun r => (r.fst, r.snd.rerun, r.snd.run)) = some (1, true, false) ∧
    (main 100 5 (ascii "1900000B020012080B17000B00000C46$") (boot quietHost [] false false)).map
      (fun r => (r.fst, read16 r.snd.mem 0x1716, r.snd.rerun)) = some (0, 2, false) := by
  refine ⟨interp_loop_fatal fuel runs s s1 s2 hinit hrun, fun f s0 sl log hl hs => ?_,
    fun t t1 t2 h1 h2 h3 => interp_loop_rerun fuel runs t t1 t2 h1 h2 h3, by decide!, by decide!,
    by decide!⟩
  unfold main
  rw [hl]
  dsimp only
  unfold interp
  rw [← hs, interp_loop_fatal fuel runs s s1 s2 hinit hrun]

theorem fatal_ends_run_witness :
    interp_loop 100 (0 + 1) abortLoaded = some (Res.fatal abortEnd) :=
  (fatal_ends_run 100 0 abortLoaded abortInit abortEnd
    (stateOr_spec interp_init abortLoaded (by decide!)) (fatal_spec _ _ (by decide!))).1

/-- C24 as stated fails: on the image `imm 1; cml setrun; cml abort` the third
round of the dispatcher starts with `rerun` set and raises the fatal fault
`ABORT`; the run ends there (`run` cleared, `pc` just past the `cml abort`,
`rerun` still set) and `main` exits with status 12 instead of starting the
program again. -/
theorem rerun_counterexample :
    (runSteps 2 (bootImage "0B01000C590C50$")).map
      (fun t => (t.rerun, t.run, faultOf (interp_step t))) = some (true, true, some 12) ∧
    abortEnd.rerun = true ∧ abortEnd.err = 12 ∧ abortEnd.run = false ∧ abortEnd.pc = 0x1707 ∧
    (main 100 5 (ascii "0B01000C590C50$") (boot quietHost [] false false)).map
      (fun r => (r.fst, r.snd.rerun, r.snd.run, r.snd.pc)) = some (12, true, false, 0x1707) := by
  decide!

theorem heap_push_8_iff (v : Nat) (s : State) :
    (∃ s1, heap_push_8 v s = Res.fatal s1) ↔ (s.sp : Int) ≥ (s.heap_limit : Int) - 1 := by
  unfold heap_push_8
  by_cases h : (s.sp : Int) ≥ (s.heap_limit : Int) - 1
  · rw [if_pos h]
    exact ⟨fun _ => h, fun _ => ⟨_, rfl⟩⟩
  · rw [if_neg h]
    refine ⟨fun hx => ?_, fun h2 => absurd h2 h⟩
    obtain ⟨s1, h1⟩ := hx
    cases h1

theorem heap_push_16_iff (v : Nat) (s : State) :
    (∃ s1, heap_push_16 v s = Res.fatal s1) ↔ (s.sp : Int) ≥ (s.heap_limit : Int) - 2 := by
  unfold heap_push_16
  by_cases h : (s.sp : Int) ≥ (s.heap_limit : Int) - 2
  · rw [if_pos h]
    exact ⟨fun _ => h, fun _ => ⟨_, rfl⟩⟩
  · rw [if_neg h]
    refine ⟨fun hx => ?_, fun h2 => absurd h2 h⟩
    obtain ⟨s1, h1⟩ := hx
    split at h1 <;> cases h1

/-- C28. What the code does: `heap_push_8` and `heap_push_16` fail exactly
when `sp ≥ heap_limit - 1` resp. `sp ≥ heap_limit - 2`; `hp` is not looked at.
On the image `imm 0x48EF; cml reserve; cal 0,0x1709; exi` the `reserve` raises
`hp` to `heap_limit = 0x5FFF`; the `cal`, executed with `hp + 6 > heap_limit`
and `sp = 0x01FD`, raises no fault and writes the activation record at
`0x5FFF..0x6004` (`hp` becomes 0x6005, the saved return address 0x1709 lies at
0x6002), and the program ends with exit status 0. -/
theorem heap_push_tests_sp (v : Nat) (s : State) :
    ((∃ s1, heap_push_8 v s = Res.fatal s1) ↔ (s.sp : Int) ≥ (s.heap_limit : Int) - 1) ∧
    ((∃ s1, heap_push_16 v s = Res.fatal s1) ↔ (s.sp : Int) ≥ (s.heap_limit : Int) - 2) ∧
    (runSteps 2 (bootImage "0BEF480C430500091700$")).map
      (fun t => (t.hp, t.heap_limit, t.sp, (t.mem t.pc).val)) = some (0x5fff, 0x5fff, 0x01fd, 0x05) ∧
    (runSteps 3 (bootImage "0BEF480C430500091700$")).map
      (fun t => (t.hp, t.err, t.run, t.pc, read16 t.mem 0x6002)) = some (0x6005, 0, true, 0x1709, 0x1709) ∧
    (main 100 1 (ascii "0BEF480C430500091700$") (boot quietHost [] false false)).map
      (fun r => (r.fst, r.snd.hp)) = some (0, 0x6005) := by
  exact ⟨heap_push_8_iff v s, heap_push_16_iff v s, by decide!, by decide!, by decide!⟩

end I2L
